import Mathlib

/-!
# Calculator: expression pipeline, Taylor-series trigonometry and the solver

A shallow embedding of `Calculator.cpp` / `Calculator.h` and of the settings menu of
`main.cpp`.

Modelling conventions
* `double` is modelled by `ℚ`: all arithmetic is exact, there is no rounding, no
  infinity and no NaN.  Two functions are embedded a second time with the rounding of
  doubles as a parameter `fl` (`reduceAngleRounded`, `calculatePMTRounded`), for the inputs
  on which rounding decides what the code does.
* A comparison is the one of the source.  That a returned value passed the zero-snap is
  stated as `¬ |v| < threshold`, the negation of the test of the source, which holds on
  doubles for a NaN as well; the NaN that `std::pow` returns for a negative base with a
  fractional exponent has no counterpart here.
* `std::string` values that are built character by character are lists of characters;
  the text stored in a token is a `String`.
* A `std::vector` used as a stack (`operatorStack`, `evalStack`) is a list whose head is
  `back()`.  A vector that is only appended to (`tokens`, `outputStack`) is a list in
  index order.
* A thrown exception is the `Except.error` result; the error value records the exception
  class and the message.
* `std::pow` is a parameter `pow : ℚ → ℚ → ℚ` of every function that calls it, and
  `std::log` a parameter `log : ℚ → ℚ`.
* The Newton-Raphson solvers divide without testing the divisor.  A division by zero has
  no value in `ℚ`, so their loop is modelled up to the first such division, which ends the
  run with an outcome of its own.
-/

namespace Calculator

/-! ## Data model (Calculator.h) -/

/-- The exception classes thrown by the engine, with their messages. -/
inductive Error where
  | invalid_argument (what : String)
  | runtime_error (what : String)
  deriving DecidableEq, Repr

/-- The enum `TokenType`. -/
inductive TokenType where
  | NUMBER
  | OPERATOR
  | FUNCTION
  | LEFT_PAREN
  | RIGHT_PAREN
  deriving DecidableEq, Repr

/-- The struct `Token`. -/
structure Token where
  type : TokenType
  value : String
  deriving DecidableEq, Repr

/-- The settings held by a `Calculator` object. -/
structure Settings where
  settingRadianMode : Bool
  settingSaveHistory : Bool
  settingTaylorTerms : ℤ
  settingInitialGuessInterest : ℚ
  settingInitialGuessPeriods : ℚ
  settingErrorThreshold : ℚ

/-- The constructor defaults of `Calculator.h`: radian mode, no history, 10 Taylor terms,
initial guesses 0.05 and 10, error threshold 1e-28. -/
def defaultSettings : Settings :=
  { settingRadianMode := true
    settingSaveHistory := false
    settingTaylorTerms := 10
    settingInitialGuessInterest := 5 / 100
    settingInitialGuessPeriods := 10
    settingErrorThreshold := 1 / 10 ^ 28 }

instance instDecidableEqExcept {ε α : Type} [DecidableEq ε] [DecidableEq α] :
    DecidableEq (Except ε α) := fun a b =>
  match a, b with
  | .ok x, .ok y =>
      if h : x = y then isTrue (by rw [h]) else isFalse (fun h2 => h (by cases h2; rfl))
  | .error x, .error y =>
      if h : x = y then isTrue (by rw [h]) else isFalse (fun h2 => h (by cases h2; rfl))
  | .ok _, .error _ => isFalse (fun h => by cases h)
  | .error _, .ok _ => isFalse (fun h => by cases h)

/-! ## Character classes of `<cctype>` in the "C" locale -/

/-- The function `std::isspace`: space, `\t`, `\n`, `\v`, `\f`, `\r`. -/
def isspace (c : Char) : Bool :=
  c.toNat = 32 || (9 ≤ c.toNat && c.toNat ≤ 13)

/-- The function `std::isdigit`: `0` to `9`. -/
def isdigit (c : Char) : Bool :=
  48 ≤ c.toNat && c.toNat ≤ 57

/-- The function `std::isalpha`: `A` to `Z` and `a` to `z`. -/
def isalpha (c : Char) : Bool :=
  (65 ≤ c.toNat && c.toNat ≤ 90) || (97 ≤ c.toNat && c.toNat ≤ 122)

/-- The call `s.find(c)`: index of the first occurrence, `none` for `npos`. -/
def find : List Char → Char → Option ℕ
  | [], _ => none
  | x :: xs, c => if x = c then some 0 else (find xs c).map (· + 1)

/-- The call `s.rfind(c)`: index of the last occurrence, `none` for `npos`. -/
def rfind : List Char → Char → Option ℕ
  | [], _ => none
  | x :: xs, c =>
    match rfind xs c with
    | some i => some (i + 1)
    | none => if x = c then some 0 else none

/-! ## Tokenizer (Calculator.cpp, `tokenize`) -/

/-- The inner `while` of the digit branch: characters are appended to `currentToken` while
they are digits or `.`; a token with two decimal points throws.  Returns the token text and
the input that is left. -/
def scanNumber : List Char → List Char → Except Error (List Char × List Char)
  | currentToken, [] => .ok (currentToken, [])
  | currentToken, c :: rest =>
    if isdigit c || c = '.' then
      let currentToken1 := currentToken ++ [c]
      if find currentToken1 '.' ≠ rfind currentToken1 '.' then
        .error (.invalid_argument
          ("Invalid number format: multiple decimal points in " ++ String.mk currentToken1))
      else scanNumber currentToken1 rest
    else .ok (currentToken, c :: rest)

/-- The inner `while` of the alphabetic branch: the maximal run of letters and the input
that is left. -/
def scanWord : List Char → List Char → List Char × List Char
  | currentToken, [] => (currentToken, [])
  | currentToken, c :: rest =>
    if isalpha c then scanWord (currentToken ++ [c]) rest else (currentToken, c :: rest)

/-- The `for` loop of `tokenize`.  `input` is the part of the expression from `index` on,
`fuel` bounds the number of iterations left (every iteration consumes a character, so the
length of the input is enough). -/
def tokenizeLoop : ℕ → List Char → Bool → List Token → Except Error (List Token)
  | 0, _, _, tokens => .ok tokens
  | _ + 1, [], _, tokens => .ok tokens
  | fuel + 1, character :: rest, expectNumber, tokens =>
    if isspace character then tokenizeLoop fuel rest expectNumber tokens
    else if isdigit character || character = '.' then
      match scanNumber [] (character :: rest) with
      | .error e => .error e
      | .ok (currentToken, rest1) =>
        tokenizeLoop fuel rest1 false (tokens ++ [⟨.NUMBER, String.mk currentToken⟩])
    else if isalpha character then
      let scanned := scanWord [] (character :: rest)
      let currentToken := String.mk scanned.1
      if currentToken = "pi" ∨ currentToken = "Pi" ∨ currentToken = "PI" then
        tokenizeLoop fuel scanned.2 false (tokens ++ [⟨.NUMBER, "3.141592653589793"⟩])
      else if currentToken = "sin" ∨ currentToken = "cos" ∨ currentToken = "tan" then
        tokenizeLoop fuel scanned.2 true (tokens ++ [⟨.FUNCTION, currentToken⟩])
      else .error (.invalid_argument ("Unrecognized function: " ++ currentToken))
    else if character = '^' ∨ character = '*' ∨ character = '/' ∨ character = '+'
        ∨ character = '-' then
      if character = '-' ∧ expectNumber = true then
        tokenizeLoop fuel rest true (tokens ++ [⟨.OPERATOR, "u-"⟩])
      else
        tokenizeLoop fuel rest true (tokens ++ [⟨.OPERATOR, String.mk [character]⟩])
    else if character = '(' then
      tokenizeLoop fuel rest true (tokens ++ [⟨.LEFT_PAREN, "("⟩])
    else if character = ')' then
      tokenizeLoop fuel rest false (tokens ++ [⟨.RIGHT_PAREN, ")"⟩])
    else .error (.invalid_argument ("Unrecognized character: ".push character))

/-- The function `Calculator::tokenize`. -/
def tokenize (inputExpression : String) : Except Error (List Token) :=
  tokenizeLoop inputExpression.length inputExpression.data true []

/-! ## Shunting-yard converter (Calculator.cpp, `convertToRPN`) -/

/-- The function `Calculator::getPrecedence`. -/
def getPrecedence (operation : String) : ℕ :=
  if operation = "+" ∨ operation = "-" then 1
  else if operation = "*" ∨ operation = "/" then 2
  else if operation = "^" then 3
  else if operation = "u-" then 4
  else 0

/-- The function `Calculator::isLeftAssociative`. -/
def isLeftAssociative (operation : String) : Bool :=
  operation ≠ "^" && operation ≠ "u-"

/-- The `while` of the OPERATOR branch: operators are moved from the operator stack to the
output while the top is not a left parenthesis and has a greater precedence than
`operator1`, or the same one when `operator1` is left-associative. -/
def popOperators (operator1 : String) : List Token → List Token → List Token × List Token
  | outputStack, [] => (outputStack, [])
  | outputStack, top :: operatorStack =>
    if top.type ≠ .LEFT_PAREN ∧
        (getPrecedence top.value > getPrecedence operator1 ∨
          (getPrecedence top.value = getPrecedence operator1 ∧
            isLeftAssociative operator1 = true)) then
      popOperators operator1 (outputStack ++ [top]) operatorStack
    else (outputStack, top :: operatorStack)

/-- The `while` of the RIGHT_PAREN branch: the operator stack is moved to the output until
it is empty or its top is a left parenthesis. -/
def popUntilLeftParen : List Token → List Token → List Token × List Token
  | outputStack, [] => (outputStack, [])
  | outputStack, top :: operatorStack =>
    if top.type ≠ .LEFT_PAREN then popUntilLeftParen (outputStack ++ [top]) operatorStack
    else (outputStack, top :: operatorStack)

/-- One iteration of the `for` loop of `convertToRPN` on the state
`(outputStack, operatorStack)`.  The enum has five values, so the final `else` of the
source (unknown token type) cannot be reached. -/
def convertStep (state : List Token × List Token) (token : Token) :
    Except Error (List Token × List Token) :=
  match token.type with
  | .NUMBER => .ok (state.1 ++ [token], state.2)
  | .FUNCTION => .ok (state.1, token :: state.2)
  | .OPERATOR =>
    let popped := popOperators token.value state.1 state.2
    .ok (popped.1, token :: popped.2)
  | .LEFT_PAREN => .ok (state.1, token :: state.2)
  | .RIGHT_PAREN =>
    match popUntilLeftParen state.1 state.2 with
    | (_, []) => .error (.invalid_argument "Mismatched parenthesis, missing: '('")
    | (outputStack, _ :: operatorStack) => .ok (outputStack, operatorStack)

/-- The `for` loop of `convertToRPN`. -/
def convertLoop : List Token → List Token × List Token → Except Error (List Token × List Token)
  | [], state => .ok state
  | token :: rest, state =>
    match convertStep state token with
    | .error e => .error e
    | .ok state1 => convertLoop rest state1

/-- The final `while` of `convertToRPN`: the operator stack is emptied to the output; a
left parenthesis on it throws. -/
def drainOperators : List Token → List Token → Except Error (List Token)
  | outputStack, [] => .ok outputStack
  | outputStack, top :: operatorStack =>
    if top.type = .LEFT_PAREN then
      .error (.invalid_argument "Mismatched parenthesis, missing: ')'")
    else drainOperators (outputStack ++ [top]) operatorStack

/-- The function `Calculator::convertToRPN`. -/
def convertToRPN (tokenExpression : List Token) : Except Error (List Token) :=
  match convertLoop tokenExpression ([], []) with
  | .error e => .error e
  | .ok state => drainOperators state.1 state.2

/-! ## Trigonometric functions (Calculator.cpp) -/

/-- The function `Calculator::factorial`: 1 for `num <= 1`, else the product of 2..num. -/
def factorial (num : ℤ) : ℚ :=
  if num ≤ 1 then 1
  else (List.range (num.toNat - 1)).foldl (fun result k => result * ((k + 2 : ℕ) : ℚ)) 1

/-- The constant `pi` of `reduceAngle` (and of the degree conversion). -/
def pi : ℚ := 3141592653589793 / 1000000000000000

/-- The function `Calculator::reduceAngle` in exact arithmetic: `2 * pi` is subtracted or
added while the angle is outside `[-pi, pi]`.  The loop with the rounding of doubles is
`reduceAngleRounded`. -/
def reduceAngle (angle : ℚ) : ℚ :=
  if pi < angle then reduceAngle (angle - 2 * pi)
  else if angle < -pi then reduceAngle (angle + 2 * pi)
  else angle
termination_by ⌊|angle| / pi⌋₊
decreasing_by
  all_goals
    have hp : (0 : ℚ) < pi := by norm_num [pi]
    have key : ∀ x : ℚ, pi < x → ⌊|x - 2 * pi| / pi⌋₊ < ⌊|x| / pi⌋₊ := by
      intro x h
      have hx : |x| = x := abs_of_pos (lt_trans hp h)
      have h1 : (1 : ℚ) ≤ x / pi := by rw [le_div_iff₀ hp]; linarith
      have hfl : 1 ≤ ⌊x / pi⌋₊ := Nat.le_floor (by simpa using h1)
      rw [hx, Nat.floor_lt (div_nonneg (abs_nonneg _) hp.le), div_lt_iff₀ hp]
      have hlt : x / pi < (⌊x / pi⌋₊ : ℚ) + 1 := Nat.lt_floor_add_one _
      rw [div_lt_iff₀ hp] at hlt
      have hge : (1 : ℚ) ≤ (⌊x / pi⌋₊ : ℚ) := by exact_mod_cast hfl
      rw [abs_lt]
      constructor <;> nlinarith
  · exact key angle (by assumption)
  · have h := key (-angle) (by linarith)
    have e1 : |(-angle) - 2 * pi| = |angle + 2 * pi| := by
      rw [← abs_neg]; congr 1; ring
    rw [e1, abs_neg] at h
    exact h

/-- The Taylor sum shared by `calcSin` (`offset = 1`) and `calcCos` (`offset = 0`): the
`for` loop adding `pow(-1, index) * pow(theta, exponent) / factorial(exponent)` with
`exponent = 2 * index + offset` for `index` from 0 below `settingTaylorTerms`. -/
def taylorSum (pow : ℚ → ℚ → ℚ) (terms : ℤ) (offset : ℕ) (theta : ℚ) : ℚ :=
  (List.range terms.toNat).foldl
    (fun (result : ℚ) (index : ℕ) =>
      result + pow (-1) (index : ℚ) * pow theta ((2 * index + offset : ℕ) : ℚ)
        / factorial ((2 * index + offset : ℕ) : ℤ)) 0

/-- The angle in radians: unchanged in radian mode, `angle * pi / 180` in degree mode. -/
def toRadians (c : Settings) (angle : ℚ) : ℚ :=
  if c.settingRadianMode = true then angle else angle * pi / 180

/-- The function `Calculator::calcSin`. -/
def calcSin (c : Settings) (pow : ℚ → ℚ → ℚ) (angle : ℚ) : ℚ :=
  let theta := reduceAngle (toRadians c angle)
  let result := taylorSum pow c.settingTaylorTerms 1 theta
  if |result| < c.settingErrorThreshold then 0 else result

/-- The function `Calculator::calcCos`. -/
def calcCos (c : Settings) (pow : ℚ → ℚ → ℚ) (angle : ℚ) : ℚ :=
  let theta := reduceAngle (toRadians c angle)
  let result := taylorSum pow c.settingTaylorTerms 0 theta
  if |result| < c.settingErrorThreshold then 0 else result

/-- The function `Calculator::calcTan`. -/
def calcTan (c : Settings) (pow : ℚ → ℚ → ℚ) (angle : ℚ) : Except Error ℚ :=
  let cosValue := calcCos c pow angle
  if |cosValue| < c.settingErrorThreshold then
    .error (.runtime_error "Tangent undefined at this angle")
  else .ok (calcSin c pow angle / cosValue)

/-! ## Postfix evaluator (Calculator.cpp, `evaluateRPN`) -/

/-- The value of a run of decimal digits. -/
def digitsValue (digits : List Char) : ℕ :=
  digits.foldl (fun n d => 10 * n + (d.toNat - 48)) 0

/-- The function `std::stod` on the texts made of digits and decimal points: the longest
prefix `digits [. digits]` is converted, exactly; when that prefix has no digit there is no
conversion and `std::invalid_argument` is thrown (`none`).  The sign, exponent, hexadecimal
and inf/nan forms of `strtod` are not modelled; `tokenize` emits none of them.  Neither is
the `std::out_of_range` that `std::stod` throws for a text whose value is outside the range
of double: the conversion here is that of a value `InDoubleRange`. -/
def stod (text : String) : Option ℚ :=
  let intPart := text.data.takeWhile isdigit
  let fracPart :=
    match text.data.dropWhile isdigit with
    | '.' :: more => more.takeWhile isdigit
    | _ => []
  if intPart = [] ∧ fracPart = [] then none
  else some ((digitsValue (intPart ++ fracPart) : ℚ) / 10 ^ fracPart.length)

/-- One iteration of the `for` loop of `evaluateRPN` on the operand stack.  A binary
operator or a function with a text the source does not test for pops its operands and
pushes nothing; parenthesis tokens are skipped. -/
def evalStep (c : Settings) (pow : ℚ → ℚ → ℚ) (evalStack : List ℚ) (token : Token) :
    Except Error (List ℚ) :=
  match token.type with
  | .NUMBER =>
    match stod token.value with
    | none => .error (.invalid_argument "stod")
    | some v => .ok (v :: evalStack)
  | .OPERATOR =>
    if token.value = "u-" then
      match evalStack with
      | [] => .error (.invalid_argument "Invalid expression: not enough operands")
      | num :: rest => .ok (-num :: rest)
    else
      match evalStack with
      | num2 :: num1 :: rest =>
        if token.value = "+" then .ok ((num1 + num2) :: rest)
        else if token.value = "-" then .ok ((num1 - num2) :: rest)
        else if token.value = "*" then .ok ((num1 * num2) :: rest)
        else if token.value = "/" then
          if num2 = 0 then .error (.runtime_error "Division by zero")
          else .ok ((num1 / num2) :: rest)
        else if token.value = "^" then .ok (pow num1 num2 :: rest)
        else .ok rest
      | _ => .error (.invalid_argument "Invalid expression: not enough operands")
  | .FUNCTION =>
    match evalStack with
    | [] => .error (.invalid_argument "Invalid expression: not enough operands")
    | num :: rest =>
      if token.value = "sin" then .ok (calcSin c pow num :: rest)
      else if token.value = "cos" then .ok (calcCos c pow num :: rest)
      else if token.value = "tan" then
        match calcTan c pow num with
        | .error e => .error e
        | .ok v => .ok (v :: rest)
      else .ok rest
  | _ => .ok evalStack

/-- The `for` loop of `evaluateRPN`. -/
def evalLoop (c : Settings) (pow : ℚ → ℚ → ℚ) : List Token → List ℚ → Except Error (List ℚ)
  | [], evalStack => .ok evalStack
  | token :: rest, evalStack =>
    match evalStep c pow evalStack token with
    | .error e => .error e
    | .ok evalStack1 => evalLoop c pow rest evalStack1

/-- The function `Calculator::evaluateRPN`. -/
def evaluateRPN (c : Settings) (pow : ℚ → ℚ → ℚ) (rpnExpression : List Token) :
    Except Error ℚ :=
  match evalLoop c pow rpnExpression [] with
  | .error e => .error e
  | .ok [result] => .ok result
  | .ok _ => .error (.invalid_argument "Invalid expression: too many operands")

/-! ## The pipeline (Calculator.cpp, `evaluateExpression`) -/

/-- The function `Calculator::saveHistory` as seen by its caller: it appends a record to the
history file and throws when the file cannot be opened.  `fileOpens` tells whether the open
succeeds. -/
def saveHistory (fileOpens : Bool) : Except Error Unit :=
  if fileOpens = true then .ok () else .error (.runtime_error "Failed to open history file.")

/-- The function `Calculator::evaluateExpression`: tokenize, convert, evaluate, write the
history when enabled, and replace a result of magnitude below the threshold by 0. -/
def evaluateExpression (c : Settings) (pow : ℚ → ℚ → ℚ) (fileOpens : Bool)
    (inputExpression : String) : Except Error ℚ :=
  match tokenize inputExpression with
  | .error e => .error e
  | .ok tokenExpression =>
    match convertToRPN tokenExpression with
    | .error e => .error e
    | .ok rpnExpression =>
      match evaluateRPN c pow rpnExpression with
      | .error e => .error e
      | .ok result =>
        match (if c.settingSaveHistory = true then saveHistory fileOpens else .ok ()) with
        | .error e => .error e
        | .ok _ => if |result| < c.settingErrorThreshold then .ok 0 else .ok result

/-! ## Time-value-of-money solver (Calculator.cpp) -/

/-- The function `Calculator::calculateFV`: `-(pv + pmt * n)` for the rate 0, else the closed
form, replaced by 0 when its magnitude is below the threshold. -/
def calculateFV (c : Settings) (pow : ℚ → ℚ → ℚ) (pv pmt i n : ℚ) : ℚ :=
  if i = 0 then -(pv + pmt * n)
  else
    let result := -pv * pow (1 + i) n - pmt * ((pow (1 + i) n - 1) / i)
    if |result| < c.settingErrorThreshold then 0 else result

/-- The function `Calculator::calculatePV`: `-(fv + pmt * n)` for the rate 0, else the closed
form, replaced by 0 when its magnitude is below the threshold. -/
def calculatePV (c : Settings) (pow : ℚ → ℚ → ℚ) (fv pmt i n : ℚ) : ℚ :=
  if i = 0 then -(fv + pmt * n)
  else
    let result := -(fv / pow (1 + i) n) - pmt * ((1 - pow (1 + i) (-n)) / i)
    if |result| < c.settingErrorThreshold then 0 else result

/-- The function `Calculator::calculatePMT` in exact arithmetic: it throws for a rate or a
number of periods that is not positive, else it returns the closed form, replaced by 0 when
its magnitude is below the threshold.  The function with the rounding of doubles and its
untested divisors is `calculatePMTRounded`. -/
def calculatePMT (c : Settings) (pow : ℚ → ℚ → ℚ) (pv fv i n : ℚ) : Except Error ℚ :=
  if i ≤ 0 ∨ n ≤ 0 then
    .error (.invalid_argument
      "Interest rate and number of periods must be greater than zero.")
  else
    let result := (-pv * i - (fv * i) / pow (1 + i) n) / (1 - pow (1 + i) (-n))
    if |result| < c.settingErrorThreshold then .ok 0 else .ok result

/-- The constant `maxIterations` of the two Newton-Raphson loops. -/
def maxIterations : ℕ := 1000

/-- How a Newton-Raphson loop ends.  `finished` is the exit of the `while`, with the values
of `guess`, `diff` and `iterations` at that point.  `dividedByZero` says that the step begun
after `iterations` steps divides by zero: the source does not test its divisors, the
division of doubles then gives an infinity or a NaN and throws nothing, and from there on
the values of the loop are not numbers of exact arithmetic. -/
inductive NewtonRun where
  | finished (guess diff : ℚ) (iterations : ℕ)
  | dividedByZero (iterations : ℕ)
  deriving DecidableEq

/-- What a call of a solver function produces: the number it returns, the exception it
throws, or `nonFinite` when it divided by zero (the call then hands back a value derived
from an infinity or a NaN, unless the iteration cap of a Newton loop is reached first). -/
inductive Solution where
  | returned (value : ℚ)
  | thrown (e : Error)
  | nonFinite
  deriving DecidableEq

/-- The body of the `while` of `calculateInterest`: the new guess `guess - f / f_prime`, or
`none` when the step divides by zero, which it does when `guess` is 0 (the divisors `guess`
and `guess * guess`) or `f_prime` is 0. -/
def interestStep (pow : ℚ → ℚ → ℚ) (pv fv pmt n guess : ℚ) : Option ℚ :=
  let f := -pv * pow (1 + guess) n - pmt * ((pow (1 + guess) n - 1) / guess) - fv
  let f_prime := -pv * n * pow (1 + guess) (n - 1)
    - pmt * ((guess * n * pow (1 + guess) (n - 1) - (pow (1 + guess) n - 1))
        / (guess * guess))
  if guess = 0 ∨ f_prime = 0 then none else some (guess - f / f_prime)

/-- The body of the `while` of `calculateNumberOfPeriods`, with `std::log` as a parameter:
the new guess `guess - f / f_prime`, or `none` when `f_prime` is 0 (the divisor `i` is
positive when the loop is reached). -/
def periodsStep (pow : ℚ → ℚ → ℚ) (log : ℚ → ℚ) (pv fv pmt i guess : ℚ) :
    Option ℚ :=
  let f := -pv * pow (1 + i) guess - pmt * ((pow (1 + i) guess - 1) / i) - fv
  let f_prime := -pv * log (1 + i) * pow (1 + i) guess
    - pmt * pow (1 + i) guess * log (1 + i) / i
  if i = 0 ∨ f_prime = 0 then none else some (guess - f / f_prime)

/-- The `while` loop of the two solvers, which differ in its body `newton` only: it runs
while the magnitude of `diff` is above the threshold and `iterations` is below the cap. -/
def newtonLoop (c : Settings) (newton : ℚ → Option ℚ) (guess diff : ℚ) (iterations : ℕ) :
    NewtonRun :=
  if |diff| > c.settingErrorThreshold ∧ iterations < maxIterations then
    match newton guess with
    | none => .dividedByZero iterations
    | some newGuess => newtonLoop c newton newGuess (newGuess - guess) (iterations + 1)
  else .finished guess diff iterations
termination_by maxIterations - iterations
decreasing_by omega

/-- The function `Calculator::calculateInterest`. -/
def calculateInterest (c : Settings) (pow : ℚ → ℚ → ℚ) (pv fv pmt n : ℚ) : Solution :=
  if n ≤ 0 then .thrown (.invalid_argument "Number of periods must be greater than zero.")
  else
    match newtonLoop c (interestStep pow pv fv pmt n) c.settingInitialGuessInterest 1 0 with
    | .dividedByZero _ => .nonFinite
    | .finished guess _ iterations =>
      if iterations ≥ maxIterations then
        .thrown (.runtime_error "Interest rate calculation did not converge.")
      else .returned guess

/-- The function `Calculator::calculateNumberOfPeriods`. -/
def calculateNumberOfPeriods (c : Settings) (pow : ℚ → ℚ → ℚ) (log : ℚ → ℚ)
    (pv fv pmt i : ℚ) : Solution :=
  if i ≤ 0 then .thrown (.invalid_argument "Interest rate must be greater than zero.")
  else
    match newtonLoop c (periodsStep pow log pv fv pmt i) c.settingInitialGuessPeriods 1 0 with
    | .dividedByZero _ => .nonFinite
    | .finished guess _ iterations =>
      if iterations = maxIterations then
        .thrown (.runtime_error "Number of periods calculation did not converge.")
      else .returned guess

/-! ## Rounded arithmetic (Calculator.cpp, `reduceAngle` and `calculatePMT` on doubles) -/

/-- The loop of `Calculator::reduceAngle` with the rounding of doubles: `fl` gives the double
that an operation returns for its exact result, so `reduced -= 2 * pi` stores
`fl (reduced - 2 * pi)`.  `fuel` bounds the iterations looked at; `none` says that the loop
is still running after `fuel` iterations.  Overflow is not modelled. -/
def reduceAngleRounded (fl : ℚ → ℚ) : ℕ → ℚ → Option ℚ
  | 0, reduced => if reduced > pi ∨ reduced < -pi then none else some reduced
  | fuel + 1, reduced =>
    if reduced > pi ∨ reduced < -pi then
      if reduced > pi then reduceAngleRounded fl fuel (fl (reduced - 2 * pi))
      else if reduced < -pi then reduceAngleRounded fl fuel (fl (reduced + 2 * pi))
      else reduceAngleRounded fl fuel reduced
    else some reduced

/-- The function `Calculator::calculatePMT` with the rounding of doubles: `fl` gives the
double that an operation returns for its exact result (a negation is exact).  The source
tests neither divisor; a division by zero gives an infinity or a NaN, which is the outcome
`nonFinite`.  Overflow is not modelled. -/
def calculatePMTRounded (fl : ℚ → ℚ) (c : Settings) (pow : ℚ → ℚ → ℚ) (pv fv i n : ℚ) :
    Solution :=
  if i ≤ 0 ∨ n ≤ 0 then
    .thrown (.invalid_argument
      "Interest rate and number of periods must be greater than zero.")
  else
    let power := pow (fl (1 + i)) n
    let divisor := fl (1 - pow (fl (1 + i)) (-n))
    if power = 0 ∨ divisor = 0 then .nonFinite
    else
      let result := fl (fl (fl (-pv * i) - fl (fl (fv * i) / power)) / divisor)
      if |result| < c.settingErrorThreshold then .returned 0 else .returned result

/-! ## Settings menu (main.cpp) -/

/-- What is entered in one round of the settings menu: the option read by the first
`getInteger`, the integer read by the `getInteger` of option 3, and the number read by the
`getDouble` of options 4 to 6. -/
structure SettingsEntry where
  settingsMenuOption : ℤ
  terms : ℤ
  entered : ℚ

/-- The `switch` of the settings menu of `main`, applied to the settings of the object
`calc`. -/
def settingsSwitch (settings : Settings) (entry : SettingsEntry) : Settings :=
  if entry.settingsMenuOption = 1 then
    { settings with settingRadianMode := !settings.settingRadianMode }
  else if entry.settingsMenuOption = 2 then
    { settings with settingSaveHistory := !settings.settingSaveHistory }
  else if entry.settingsMenuOption = 3 then
    if entry.terms > 0 then { settings with settingTaylorTerms := entry.terms } else settings
  else if entry.settingsMenuOption = 4 then
    if entry.entered > 0 then { settings with settingInitialGuessInterest := entry.entered }
    else settings
  else if entry.settingsMenuOption = 5 then
    if entry.entered > 0 then { settings with settingInitialGuessPeriods := entry.entered }
    else settings
  else if entry.settingsMenuOption = 6 then
    if entry.entered > 0 then { settings with settingErrorThreshold := entry.entered }
    else settings
  else settings

/-- The rounds of the settings menu, one after the other. -/
def settingsMenu (settings : Settings) (entries : List SettingsEntry) : Settings :=
  entries.foldl settingsSwitch settings

/-! ## Vocabulary for stating properties of the pipeline -/

/-- A NUMBER token with the given text. -/
def numberToken (text : String) : Token := ⟨.NUMBER, text⟩

/-- An OPERATOR token with the given symbol. -/
def operatorToken (symbol : String) : Token := ⟨.OPERATOR, symbol⟩

/-- A FUNCTION token with the given name. -/
def functionToken (name : String) : Token := ⟨.FUNCTION, name⟩

/-- The LEFT_PAREN token. -/
def leftParen : Token := ⟨.LEFT_PAREN, "("⟩

/-- The RIGHT_PAREN token. -/
def rightParen : Token := ⟨.RIGHT_PAREN, ")"⟩

/-- `std::pow` is exact on natural exponents: the assumption on the library function under
which powers with such exponents are evaluated. -/
def PowExactOnNat (pow : ℚ → ℚ → ℚ) : Prop :=
  ∀ (x : ℚ) (n : ℕ), pow x (n : ℚ) = x ^ n

/-- An interpretation of `std::pow` that is exact on natural exponents (the exponent is
truncated to a natural number). -/
def powTrunc (x y : ℚ) : ℚ := x ^ ⌊y⌋₊

/-! ## Expression trees -/

/-- The four binary operators of an expression tree. -/
inductive BinOp where
  | add
  | sub
  | mul
  | div
  deriving DecidableEq, Repr

/-- The symbol of a binary operator. -/
def BinOp.symbol : BinOp → String
  | .add => "+"
  | .sub => "-"
  | .mul => "*"
  | .div => "/"

/-- The arithmetic meaning of a binary operator. -/
def BinOp.apply : BinOp → ℚ → ℚ → ℚ
  | .add, x, y => x + y
  | .sub, x, y => x - y
  | .mul, x, y => x * y
  | .div, x, y => x / y

/-- An expression tree over number literals and the four binary operators. -/
inductive Expr where
  | literal (text : String)
  | node (op : BinOp) (left right : Expr)
  deriving Repr

/-- The fully parenthesised infix token sequence of a tree: a literal is one NUMBER token,
a node is `(` left op right `)`. -/
def Expr.toks : Expr → List Token
  | .literal text => [numberToken text]
  | .node op left right =>
    [leftParen] ++ left.toks ++ [operatorToken op.symbol] ++ right.toks ++ [rightParen]

/-- The post-order traversal of a tree. -/
def Expr.postorder : Expr → List Token
  | .literal text => [numberToken text]
  | .node op left right => left.postorder ++ right.postorder ++ [operatorToken op.symbol]

/-- The arithmetic value of a tree, when it has one: a literal has the value `stod` reads,
a node the result of its operator on the values of its subtrees, and a division by a
divisor of value zero has no value. -/
def Expr.value : Expr → Option ℚ
  | .literal text => stod text
  | .node op left right =>
    match left.value, right.value with
    | some x, some y => if op = .div ∧ y = 0 then none else some (op.apply x y)
    | _, _ => none

/-- Some division of the tree has a divisor whose value is zero. -/
def Expr.dividesByZero : Expr → Bool
  | .literal _ => false
  | .node op left right =>
    left.dividesByZero || right.dividesByZero
      || (decide (op = .div) && decide (right.value = some 0))

/-- Every literal of the tree is a text that `stod` converts. -/
def Expr.literalsConvert : Expr → Bool
  | .literal text => (stod text).isSome
  | .node _ left right => left.literalsConvert && right.literalsConvert

/-! ## Parenthesis counting -/

/-- The number of tokens of the given type in a sequence. -/
def countType (type : TokenType) (tokens : List Token) : ℕ :=
  tokens.countP (fun token => decide (token.type = type))

/-- The nesting depth after a token sequence, starting from `depth`: a left parenthesis
opens a level, a right parenthesis closes one; `none` when a right parenthesis has no level
to close. -/
def parenDepth : ℕ → List Token → Option ℕ
  | depth, [] => some depth
  | depth, token :: rest =>
    if token.type = .LEFT_PAREN then parenDepth (depth + 1) rest
    else if token.type = .RIGHT_PAREN then
      (if depth = 0 then none else parenDepth (depth - 1) rest)
    else parenDepth depth rest

/-- The number of binary-operator tokens in a sequence: the OPERATOR tokens other than the
unary minus. -/
def countBinary (tokens : List Token) : ℕ :=
  tokens.countP (fun token => decide (token.type = .OPERATOR) && decide (token.value ≠ "u-"))

/-! ## Vocabulary for the tokenizer -/

/-- A character of a number: a digit or the decimal point (the test of the digit branch of
`tokenize`). -/
def isNumberChar (c : Char) : Bool := isdigit c || decide (c = '.')

/-- The `for` loop of `tokenize` run with as many iterations as the input has characters,
which is what `tokenize` does. -/
def tokenizeFrom (input : List Char) (expectNumber : Bool) (tokens : List Token) :
    Except Error (List Token) :=
  tokenizeLoop input.length input expectNumber tokens

/-- What the tokens emitted so far say about the next token: `true` when there is none or
the last one is an OPERATOR, a FUNCTION or a LEFT_PAREN, `false` when it is a NUMBER or a
RIGHT_PAREN. -/
def expectsOperand (tokens : List Token) : Bool :=
  match tokens.getLast? with
  | none => true
  | some token =>
    match token.type with
    | .NUMBER => false
    | .RIGHT_PAREN => false
    | .OPERATOR => true
    | .FUNCTION => true
    | .LEFT_PAREN => true

/-- A number literal: a non-empty text of digits with at most one decimal point and at
least one digit. -/
def IsNumberLiteral (text : String) : Bool :=
  text.data.all isNumberChar && decide (text.data.count '.' ≤ 1) && text.data.any isdigit

/-- The zero-snap of `evaluateExpression`: a value of magnitude below the threshold is
replaced by 0. -/
def snap (c : Settings) (x : ℚ) : ℚ :=
  if |x| < c.settingErrorThreshold then 0 else x

/-- The characters `tokenize` has a branch for, letters apart: whitespace, digits, the
decimal point, the operators `^ * / + -` and the two parentheses. -/
def allowedChar (c : Char) : Bool :=
  isspace c || isdigit c || decide (c = '.') || decide (c ∈ ['^', '*', '/', '+', '-'])
    || decide (c = '(') || decide (c = ')')

/-- In the text `pre ++ run ++ post`, `run` is a maximal run of digits and decimal points:
it is not empty, it has no other character, and neither the character before it nor the
one after it is a digit or a decimal point. -/
def IsMaximalNumberRun (pre run post : List Char) : Prop :=
  run ≠ [] ∧ (∀ c ∈ run, isNumberChar c = true)
    ∧ (∀ c ∈ pre.getLast?, isNumberChar c = false)
    ∧ (∀ c ∈ post.head?, isNumberChar c = false)

/-- A text has a character outside the allowed ones, or a maximal run of digits and decimal
points with two or more decimal points. -/
def LexicallyBad (input : List Char) : Prop :=
  (∃ c ∈ input, allowedChar c = false)
    ∨ ∃ pre run post, input = pre ++ run ++ post ∧ IsMaximalNumberRun pre run post
        ∧ 2 ≤ run.count '.'

/-! ## Vocabulary for the token texts -/

/-- The source text of a token: its text, with the unary-minus symbol `u-` read back as
`-`. -/
def readBack (token : Token) : List Char :=
  if token.type = .OPERATOR ∧ token.value = "u-" then ['-'] else token.value.data

/-- The texts of a token sequence, read back and concatenated in order. -/
def coveredText (tokens : List Token) : List Char :=
  (tokens.map readBack).flatten

/-- A text has no occurrence of the constant pi in a spelling `tokenize` accepts. -/
def NoPiConstant (input : List Char) : Prop :=
  ¬ (['p', 'i'] <:+: input) ∧ ¬ (['P', 'i'] <:+: input) ∧ ¬ (['P', 'I'] <:+: input)

/-! ## Vocabulary for the power function -/

/-- The laws of the real power function on a positive base that the closed forms of the
solver rely on: a power is positive, a negated exponent gives the reciprocal, and a base
above 1 with a positive exponent gives a power above 1. -/
def PowPositiveBaseLaws (pow : ℚ → ℚ → ℚ) : Prop :=
  ∀ (x y : ℚ), 0 < x →
    0 < pow x y ∧ pow x (-y) = (pow x y)⁻¹ ∧ (1 < x → 0 < y → 1 < pow x y)

/-- An interpretation of `std::pow` that agrees with the power function on integer
exponents and satisfies the laws on a positive base (the exponent is replaced by its
numerator). -/
def powNum (x y : ℚ) : ℚ := x ^ y.num

/-! ## Vocabulary for the settings -/

/-- The domains of the numeric settings: at least one Taylor term, and a positive error
threshold and positive initial guesses. -/
def SettingsInDomain (settings : Settings) : Prop :=
  1 ≤ settings.settingTaylorTerms ∧ 0 < settings.settingErrorThreshold
    ∧ 0 < settings.settingInitialGuessInterest ∧ 0 < settings.settingInitialGuessPeriods

/-! ## Vocabulary for the converter -/

/-- A token is a parenthesis by its type. -/
def isParen (token : Token) : Bool :=
  decide (token.type = .LEFT_PAREN) || decide (token.type = .RIGHT_PAREN)

/-- The tokens of a sequence that are not parentheses, in order. -/
def nonParens (tokens : List Token) : List Token :=
  tokens.filter (fun token => !isParen token)

/-- The NUMBER tokens of a sequence, in order. -/
def numberTokens (tokens : List Token) : List Token :=
  tokens.filter (fun token => decide (token.type = .NUMBER))

/-! ## Vocabulary for the Newton-Raphson solvers -/

/-- The number of Newton steps a run has begun: the steps made when the loop has ended,
and one more than the steps made when the next one divides by zero. -/
def NewtonRun.steps : NewtonRun → ℕ
  | .finished _ _ iterations => iterations
  | .dividedByZero iterations => iterations + 1

/-! ## Vocabulary for the range and the rounding of doubles -/

/-- The largest finite double, `(2^53 - 1) * 2^971`. -/
def maxDouble : ℚ := (2 ^ 53 - 1) * 2 ^ 971

/-- The smallest positive normal double, `2^(-1022)`. -/
def minNormalDouble : ℚ := 1 / 2 ^ 1022

/-- The value of a number literal that `std::stod` converts without a range error: 0, or a
value between the smallest positive normal double and the largest finite double. -/
def InDoubleRange (v : ℚ) : Prop :=
  v = 0 ∨ (minNormalDouble ≤ v ∧ v ≤ maxDouble)

/-- Rounding to the nearest multiple of `ulp`: what the rounding of doubles does to a result
that lies where the doubles are `ulp` apart. -/
def roundTo (ulp x : ℚ) : ℚ := ulp * (round (x / ulp) : ℚ)

/-! ## Helper lemmas -/

theorem powTrunc_exact : PowExactOnNat powTrunc := by
  intro x n
  simp [powTrunc]

theorem pow_ofNat (pow : ℚ → ℚ → ℚ) (h : PowExactOnNat pow) (x : ℚ) (n : ℕ) [n.AtLeastTwo] :
    pow x (OfNat.ofNat n) = x ^ n := by
  have := h x n
  simpa using this

theorem pow_zero_exp (pow : ℚ → ℚ → ℚ) (h : PowExactOnNat pow) (x : ℚ) : pow x 0 = 1 := by
  have := h x 0
  simpa using this

theorem pow_one_exp (pow : ℚ → ℚ → ℚ) (h : PowExactOnNat pow) (x : ℚ) : pow x 1 = x := by
  have := h x 1
  simpa using this

/-- The pipeline on an input whose three stages succeed. -/
theorem evaluateExpression_of_stages (c : Settings) (pow : ℚ → ℚ → ℚ) (fileOpens : Bool)
    (s : String) (ts rpn : List Token) (r : ℚ) (ht : tokenize s = .ok ts)
    (hc : convertToRPN ts = .ok rpn) (he : evaluateRPN c pow rpn = .ok r)
    (hs : c.settingSaveHistory = false ∨ fileOpens = true) :
    evaluateExpression c pow fileOpens s
      = .ok (if |r| < c.settingErrorThreshold then 0 else r) := by
  simp only [evaluateExpression, ht, hc, he]
  rcases hs with hs | hs
  · simp only [hs, Bool.false_eq_true, if_false]
    split <;> rfl
  · simp only [hs, saveHistory, if_true, ite_self]
    split <;> rfl

theorem stod_digit_lit :
    stod "0" = some 0 ∧ stod "1" = some 1 ∧ stod "2" = some 2 ∧ stod "3" = some 3 ∧
    stod "4" = some 4 ∧ stod "5" = some 5 ∧ stod "8" = some 8 := by
  refine ⟨?_, ?_, ?_, ?_, ?_, ?_, ?_⟩ <;> simp [stod, isdigit, digitsValue]


theorem taylorSum_exact (pow : ℚ → ℚ → ℚ) (hpow : PowExactOnNat pow) (terms : ℤ)
    (offset : ℕ) (theta : ℚ) :
    taylorSum pow terms offset theta
      = (List.range terms.toNat).foldl
          (fun (result : ℚ) (index : ℕ) =>
            result + (-1) ^ index * theta ^ (2 * index + offset)
              / factorial ((2 * index + offset : ℕ) : ℤ)) 0 := by
  have h : ∀ (x : ℚ) (n : ℕ), pow x (n : ℚ) = x ^ n := hpow
  simp only [taylorSum, h]

theorem reduceAngle_of_mem (x : ℚ) (h1 : ¬ pi < x) (h2 : ¬ x < -pi) : reduceAngle x = x := by
  rw [reduceAngle]
  simp [h1, h2]


theorem factorial_fold (m : ℕ) :
    (List.range m).foldl (fun (result : ℚ) (k : ℕ) => result * ((k + 2 : ℕ) : ℚ)) 1
      = ((m + 1).factorial : ℚ) := by
  induction m with
  | zero => simp
  | succ m ih =>
    rw [List.range_succ, List.foldl_append, ih]
    simp only [List.foldl_cons, List.foldl_nil]
    rw [Nat.factorial_succ (m + 1)]
    push_cast
    ring

theorem factorial_natCast (n : ℕ) : factorial (n : ℤ) = (n.factorial : ℚ) := by
  unfold factorial
  by_cases h : (n : ℤ) ≤ 1
  · have hn : n ≤ 1 := by exact_mod_cast h
    rw [if_pos h]
    interval_cases n <;> simp
  · have hn : 2 ≤ n := by
      have : ¬ n ≤ 1 := fun hh => h (by exact_mod_cast hh)
      omega
    rw [if_neg h, Int.toNat_natCast, factorial_fold]
    have : n - 1 + 1 = n := by omega
    rw [this]

theorem range_ten : List.range (Int.toNat 10) = [0, 1, 2, 3, 4, 5, 6, 7, 8, 9] := by decide


theorem calcCos_default_zero (pow : ℚ → ℚ → ℚ) (hpow : PowExactOnNat pow) :
    calcCos defaultSettings pow 0 = 1 := by
  have hr : reduceAngle 0 = 0 := reduceAngle_of_mem 0 (by norm_num [pi]) (by norm_num [pi])
  simp only [calcCos, toRadians, defaultSettings, if_true, hr, taylorSum_exact pow hpow,
    range_ten, factorial_natCast]
  norm_num [Nat.factorial]

theorem calcSin_default_one (pow : ℚ → ℚ → ℚ) (hpow : PowExactOnNat pow) :
    calcSin defaultSettings pow 1 = 102360822438075317 / 121645100408832000 := by
  have hr : reduceAngle 1 = 1 := reduceAngle_of_mem 1 (by norm_num [pi]) (by norm_num [pi])
  simp only [calcSin, toRadians, defaultSettings, if_true, hr, taylorSum_exact pow hpow,
    range_ten, factorial_natCast]
  norm_num [Nat.factorial]
  rw [abs_of_pos (by norm_num)]
  norm_num

/-! ## Precedence and associativity (C2, C3, C4) -/

/-- C2: for NUMBER tokens a, b, c and binary operators o1, o2 among + - * /, the tokens
a o1 b o2 c convert to a b c o2 o1 when o2 has the greater precedence and to a b o1 c o2
otherwise; with the default settings "3 + 4 * 2" evaluates to 11, "2 + 3 * 4" to 14 and
"8 - 3 - 2" to 3. -/
theorem C2_precedence_grouping (a b c o1 o2 : String) (pow : ℚ → ℚ → ℚ)
    (fileOpens : Bool) :
    (o1 ∈ ["+", "-", "*", "/"] → o2 ∈ ["+", "-", "*", "/"] →
      convertToRPN [numberToken a, operatorToken o1, numberToken b, operatorToken o2,
          numberToken c]
        = (if getPrecedence o2 > getPrecedence o1 then
            .ok [numberToken a, numberToken b, numberToken c, operatorToken o2,
              operatorToken o1]
          else
            .ok [numberToken a, numberToken b, operatorToken o1, numberToken c,
              operatorToken o2]))
    ∧ evaluateExpression defaultSettings pow fileOpens "3 + 4 * 2" = .ok 11
    ∧ evaluateExpression defaultSettings pow fileOpens "2 + 3 * 4" = .ok 14
    ∧ evaluateExpression defaultSettings pow fileOpens "8 - 3 - 2" = .ok 3 := by
  obtain ⟨_, _, s2, s3, s4, _, s8⟩ := stod_digit_lit
  refine ⟨?_, ?_, ?_, ?_⟩
  · intro h1 h2
    simp only [List.mem_cons, List.mem_singleton, List.not_mem_nil, or_false] at h1 h2
    rcases h1 with rfl | rfl | rfl | rfl <;> rcases h2 with rfl | rfl | rfl | rfl <;> rfl
  · rw [evaluateExpression_of_stages defaultSettings pow fileOpens "3 + 4 * 2"
      [numberToken "3", operatorToken "+", numberToken "4", operatorToken "*", numberToken "2"]
      [numberToken "3", numberToken "4", numberToken "2", operatorToken "*", operatorToken "+"]
      11 (by decide) (by decide)
      (by simp [evaluateRPN, evalLoop, evalStep, numberToken, operatorToken, s2, s3, s4]
          norm_num)
      (Or.inl rfl)]
    norm_num [defaultSettings]
  · rw [evaluateExpression_of_stages defaultSettings pow fileOpens "2 + 3 * 4"
      [numberToken "2", operatorToken "+", numberToken "3", operatorToken "*", numberToken "4"]
      [numberToken "2", numberToken "3", numberToken "4", operatorToken "*", operatorToken "+"]
      14 (by decide) (by decide)
      (by simp [evaluateRPN, evalLoop, evalStep, numberToken, operatorToken, s2, s3, s4]
          norm_num)
      (Or.inl rfl)]
    norm_num [defaultSettings]
  · rw [evaluateExpression_of_stages defaultSettings pow fileOpens "8 - 3 - 2"
      [numberToken "8", operatorToken "-", numberToken "3", operatorToken "-", numberToken "2"]
      [numberToken "8", numberToken "3", operatorToken "-", numberToken "2", operatorToken "-"]
      3 (by decide) (by decide)
      (by simp [evaluateRPN, evalLoop, evalStep, numberToken, operatorToken, s2, s3, s8]
          norm_num)
      (Or.inl rfl)]
    norm_num [defaultSettings]

/-- Witness of C2 at a = 1, b = 2, c = 3, o1 = +, o2 = *. -/
theorem C2_precedence_grouping_witness :
    "+" ∈ ["+", "-", "*", "/"] ∧ "*" ∈ ["+", "-", "*", "/"] ∧
    (convertToRPN [numberToken "1", operatorToken "+", numberToken "2", operatorToken "*",
        numberToken "3"]
      = (if getPrecedence "*" > getPrecedence "+" then
          .ok [numberToken "1", numberToken "2", numberToken "3", operatorToken "*",
            operatorToken "+"]
        else
          .ok [numberToken "1", numberToken "2", operatorToken "+", numberToken "3",
            operatorToken "*"])
    ∧ evaluateExpression defaultSettings powTrunc false "3 + 4 * 2" = .ok 11
    ∧ evaluateExpression defaultSettings powTrunc false "2 + 3 * 4" = .ok 14
    ∧ evaluateExpression defaultSettings powTrunc false "8 - 3 - 2" = .ok 3) :=
  ⟨by decide, by decide,
    (C2_precedence_grouping "1" "2" "3" "+" "*" powTrunc false).1 (by decide) (by decide),
    (C2_precedence_grouping "1" "2" "3" "+" "*" powTrunc false).2⟩

/-- C3: exponentiation is right-associative: the tokens a ^ b ^ c convert to a b c ^ ^,
whose evaluation is pow(a, pow(b, c)); with the default settings "2 ^ 3 ^ 2" evaluates to
512. -/
theorem C3_exponent_right_assoc (cfg : Settings) (pow : ℚ → ℚ → ℚ) (fileOpens : Bool)
    (a b c : String) :
    convertToRPN [numberToken a, operatorToken "^", numberToken b, operatorToken "^",
        numberToken c]
      = .ok [numberToken a, numberToken b, numberToken c, operatorToken "^", operatorToken "^"]
    ∧ (∀ va vb vc : ℚ, stod a = some va → stod b = some vb → stod c = some vc →
      evaluateRPN cfg pow
          [numberToken a, numberToken b, numberToken c, operatorToken "^", operatorToken "^"]
        = .ok (pow va (pow vb vc)))
    ∧ (PowExactOnNat pow →
      evaluateExpression defaultSettings pow fileOpens "2 ^ 3 ^ 2" = .ok 512) := by
  obtain ⟨_, _, s2, s3, _, _, _⟩ := stod_digit_lit
  refine ⟨rfl, ?_, ?_⟩
  · intro va vb vc ha hb hc
    simp [evaluateRPN, evalLoop, evalStep, numberToken, operatorToken, ha, hb, hc]
  · intro hpow
    rw [evaluateExpression_of_stages defaultSettings pow fileOpens "2 ^ 3 ^ 2"
      [numberToken "2", operatorToken "^", numberToken "3", operatorToken "^", numberToken "2"]
      [numberToken "2", numberToken "3", numberToken "2", operatorToken "^", operatorToken "^"]
      512 (by decide) (by decide)
      (by simp [evaluateRPN, evalLoop, evalStep, numberToken, operatorToken, s2, s3,
            pow_ofNat pow hpow]
          norm_num [pow_ofNat pow hpow])
      (Or.inl rfl)]
    norm_num [defaultSettings]

/-- Witness of C3 at a = 2, b = 3, c = 2 with a power function exact on natural
exponents. -/
theorem C3_exponent_right_assoc_witness :
    stod "2" = some 2 ∧ stod "3" = some 3 ∧ PowExactOnNat powTrunc ∧
    (convertToRPN [numberToken "2", operatorToken "^", numberToken "3", operatorToken "^",
        numberToken "2"]
      = .ok [numberToken "2", numberToken "3", numberToken "2", operatorToken "^",
          operatorToken "^"]
    ∧ evaluateRPN defaultSettings powTrunc
        [numberToken "2", numberToken "3", numberToken "2", operatorToken "^",
          operatorToken "^"]
      = .ok (powTrunc 2 (powTrunc 3 2))
    ∧ evaluateExpression defaultSettings powTrunc false "2 ^ 3 ^ 2" = .ok 512) :=
  ⟨stod_digit_lit.2.2.1, stod_digit_lit.2.2.2.1, powTrunc_exact,
    (C3_exponent_right_assoc defaultSettings powTrunc false "2" "3" "2").1,
    (C3_exponent_right_assoc defaultSettings powTrunc false "2" "3" "2").2.1 2 3 2
      stod_digit_lit.2.2.1 stod_digit_lit.2.2.2.1 stod_digit_lit.2.2.1,
    (C3_exponent_right_assoc defaultSettings powTrunc false "2" "3" "2").2.2 powTrunc_exact⟩

theorem calcSin_default_zero (pow : ℚ → ℚ → ℚ) (hpow : PowExactOnNat pow) :
    calcSin defaultSettings pow 0 = 0 := by
  have hr : reduceAngle 0 = 0 := reduceAngle_of_mem 0 (by norm_num [pi]) (by norm_num [pi])
  simp only [calcSin, toRadians, defaultSettings, if_true, hr, taylorSum_exact pow hpow,
    range_ten, factorial_natCast]
  norm_num [Nat.factorial]

/-- C4 (the code departs from the claim): for a function f among sin, cos, tan and an
operator op among + - * / ^, the tokens f ( x ) op y convert to x y op f, not to x f y op:
the function is applied to the result of the operator.  With the default settings
"sin(0) + 1" evaluates to the Taylor value of sin(1), which is below 1, and "cos(0) * 2"
evaluates to 1, not to 2, while "1 + sin(0)" evaluates to 1. -/
theorem C4_function_applied_last (f op x y : String) (pow : ℚ → ℚ → ℚ) (fileOpens : Bool) :
    (f ∈ ["sin", "cos", "tan"] → op ∈ ["+", "-", "*", "/", "^"] →
      convertToRPN [functionToken f, leftParen, numberToken x, rightParen, operatorToken op,
          numberToken y]
        = .ok [numberToken x, numberToken y, operatorToken op, functionToken f]
      ∧ convertToRPN [functionToken f, leftParen, numberToken x, rightParen, operatorToken op,
          numberToken y]
        ≠ .ok [numberToken x, functionToken f, numberToken y, operatorToken op])
    ∧ (PowExactOnNat pow →
      evaluateExpression defaultSettings pow fileOpens "sin(0) + 1"
        = .ok (102360822438075317 / 121645100408832000)
      ∧ evaluateExpression defaultSettings pow fileOpens "cos(0) * 2" = .ok 1
      ∧ evaluateExpression defaultSettings pow fileOpens "1 + sin(0)" = .ok 1) := by
  obtain ⟨s0, s1, s2, _, _, _, _⟩ := stod_digit_lit
  refine ⟨fun hf hop => ?_, fun hpow => ⟨?_, ?_, ?_⟩⟩
  · have hconv : convertToRPN [functionToken f, leftParen, numberToken x, rightParen,
        operatorToken op, numberToken y]
        = .ok [numberToken x, numberToken y, operatorToken op, functionToken f] := by
      simp only [List.mem_cons, List.mem_singleton, List.not_mem_nil, or_false] at hf hop
      rcases hf with rfl | rfl | rfl <;> rcases hop with rfl | rfl | rfl | rfl | rfl <;> rfl
    refine ⟨hconv, ?_⟩
    rw [hconv]
    intro h
    simp [numberToken, functionToken, operatorToken] at h
  · rw [evaluateExpression_of_stages defaultSettings pow fileOpens "sin(0) + 1"
      [functionToken "sin", leftParen, numberToken "0", rightParen, operatorToken "+",
        numberToken "1"]
      [numberToken "0", numberToken "1", operatorToken "+", functionToken "sin"]
      (102360822438075317 / 121645100408832000) (by decide) (by decide)
      (by simp [evaluateRPN, evalLoop, evalStep, numberToken, operatorToken, functionToken,
            s0, s1, calcSin_default_one pow hpow])
      (Or.inl rfl)]
    rw [if_neg]
    rw [abs_of_pos (by norm_num)]
    norm_num [defaultSettings]
  · rw [evaluateExpression_of_stages defaultSettings pow fileOpens "cos(0) * 2"
      [functionToken "cos", leftParen, numberToken "0", rightParen, operatorToken "*",
        numberToken "2"]
      [numberToken "0", numberToken "2", operatorToken "*", functionToken "cos"]
      1 (by decide) (by decide)
      (by simp [evaluateRPN, evalLoop, evalStep, numberToken, operatorToken, functionToken,
            s0, s2, calcCos_default_zero pow hpow])
      (Or.inl rfl)]
    norm_num [defaultSettings]
  · rw [evaluateExpression_of_stages defaultSettings pow fileOpens "1 + sin(0)"
      [numberToken "1", operatorToken "+", functionToken "sin", leftParen, numberToken "0",
        rightParen]
      [numberToken "1", numberToken "0", functionToken "sin", operatorToken "+"]
      1 (by decide) (by decide)
      (by simp [evaluateRPN, evalLoop, evalStep, numberToken, operatorToken, functionToken,
            s0, s1, calcSin_default_zero pow hpow])
      (Or.inl rfl)]
    norm_num [defaultSettings]

/-- Witness of C4 at f = sin, op = +, x = 0, y = 1. -/
theorem C4_function_applied_last_witness :
    "sin" ∈ ["sin", "cos", "tan"] ∧ "+" ∈ ["+", "-", "*", "/", "^"] ∧ PowExactOnNat powTrunc ∧
    (convertToRPN [functionToken "sin", leftParen, numberToken "0", rightParen,
        operatorToken "+", numberToken "1"]
      = .ok [numberToken "0", numberToken "1", operatorToken "+", functionToken "sin"]
    ∧ convertToRPN [functionToken "sin", leftParen, numberToken "0", rightParen,
        operatorToken "+", numberToken "1"]
      ≠ .ok [numberToken "0", functionToken "sin", numberToken "1", operatorToken "+"])
    ∧ (evaluateExpression defaultSettings powTrunc false "sin(0) + 1"
        = .ok (102360822438075317 / 121645100408832000)
      ∧ evaluateExpression defaultSettings powTrunc false "cos(0) * 2" = .ok 1
      ∧ evaluateExpression defaultSettings powTrunc false "1 + sin(0)" = .ok 1) :=
  ⟨by decide, by decide, powTrunc_exact,
    (C4_function_applied_last "sin" "+" "0" "1" powTrunc false).1 (by decide) (by decide),
    (C4_function_applied_last "sin" "+" "0" "1" powTrunc false).2 powTrunc_exact⟩

/-! ## Fully parenthesised expressions (C1) -/

theorem convertLoop_toks (e : Expr) (rest outputStack operatorStack : List Token) :
    convertLoop (e.toks ++ rest) (outputStack, operatorStack)
      = convertLoop rest (outputStack ++ e.postorder, operatorStack) := by
  induction e generalizing rest outputStack operatorStack with
  | literal text => simp [Expr.toks, Expr.postorder, convertLoop, convertStep, numberToken]
  | node op left right ihl ihr =>
    have hop : ∀ (out st rest1 : List Token),
        convertLoop (operatorToken op.symbol :: rest1) (out, leftParen :: st)
          = convertLoop rest1 (out, operatorToken op.symbol :: leftParen :: st) := by
      intro out st rest1
      simp [convertLoop, convertStep, operatorToken, popOperators, leftParen]
    have hrp : ∀ (out st rest1 : List Token),
        convertLoop (rightParen :: rest1) (out, operatorToken op.symbol :: leftParen :: st)
          = convertLoop rest1 (out ++ [operatorToken op.symbol], st) := by
      intro out st rest1
      simp [convertLoop, convertStep, operatorToken, popUntilLeftParen, leftParen, rightParen]
    have hlp : ∀ (out st rest1 : List Token),
        convertLoop (leftParen :: rest1) (out, st) = convertLoop rest1 (out, leftParen :: st) := by
      intro out st rest1
      simp [convertLoop, convertStep, leftParen]
    simp only [Expr.toks, Expr.postorder, List.append_assoc, List.singleton_append,
      List.cons_append, List.nil_append]
    rw [hlp, ihl, hop, ihr, hrp]
    simp only [List.append_assoc]

theorem evalLoop_postorder (cfg : Settings) (pow : ℚ → ℚ → ℚ) (e : Expr)
    (rest : List Token) (evalStack : List ℚ) :
    e.literalsConvert = true →
    evalLoop cfg pow (e.postorder ++ rest) evalStack
      = match e.value with
        | some v => evalLoop cfg pow rest (v :: evalStack)
        | none => .error (.runtime_error "Division by zero") := by
  induction e generalizing rest evalStack with
  | literal text =>
    intro h
    simp only [Expr.literalsConvert, Option.isSome_iff_exists] at h
    obtain ⟨v, hv⟩ := h
    simp [Expr.postorder, Expr.value, evalLoop, evalStep, numberToken, hv]
  | node op left right ihl ihr =>
    intro h
    simp only [Expr.literalsConvert, Bool.and_eq_true] at h
    simp only [Expr.postorder, List.append_assoc, List.singleton_append]
    rw [ihl _ _ h.1]
    cases hl : left.value with
    | none => simp [Expr.value, hl]
    | some x =>
      simp only []
      rw [ihr _ _ h.2]
      cases hr : right.value with
      | none => simp [Expr.value, hl, hr]
      | some y =>
        by_cases hz : y = 0 <;> cases op <;>
          simp [Expr.value, hl, hr, hz, evalLoop, evalStep, operatorToken, BinOp.symbol,
            BinOp.apply]

theorem value_none_iff (e : Expr) (h : e.literalsConvert = true) :
    e.value = none ↔ e.dividesByZero = true := by
  induction e with
  | literal text =>
    simp only [Expr.literalsConvert, Option.isSome_iff_exists] at h
    obtain ⟨v, hv⟩ := h
    simp [Expr.value, Expr.dividesByZero, hv]
  | node op left right ihl ihr =>
    simp only [Expr.literalsConvert, Bool.and_eq_true] at h
    have hl := ihl h.1
    have hr := ihr h.2
    cases hlv : left.value with
    | none =>
      have := hl.mp hlv
      simp [Expr.value, Expr.dividesByZero, hlv, this]
    | some x =>
      have hlf : left.dividesByZero = false := by
        cases hd : left.dividesByZero with
        | false => rfl
        | true => rw [hl.mpr hd] at hlv; cases hlv
      cases hrv : right.value with
      | none =>
        have := hr.mp hrv
        simp [Expr.value, Expr.dividesByZero, hlv, hrv, this]
      | some y =>
        have hrf : right.dividesByZero = false := by
          cases hd : right.dividesByZero with
          | false => rfl
          | true => rw [hr.mpr hd] at hrv; cases hrv
        by_cases hz : y = 0 <;> cases op <;>
          simp [Expr.value, Expr.dividesByZero, hlv, hrv, hlf, hrf, hz]

/-- C1: for every expression tree over number literals and + - * /, converting its fully
parenthesised token sequence gives its post-order traversal, and evaluating that gives the
arithmetic value of the tree, or the division-by-zero error exactly when some division has a
divisor of value zero. -/
theorem C1_parenthesised_pipeline (cfg : Settings) (pow : ℚ → ℚ → ℚ) (e : Expr) :
    convertToRPN e.toks = .ok e.postorder
    ∧ (e.literalsConvert = true →
      evaluateRPN cfg pow e.postorder
        = (match e.value with
          | some v => .ok v
          | none => .error (.runtime_error "Division by zero"))
      ∧ (evaluateRPN cfg pow e.postorder = .error (.runtime_error "Division by zero")
          ↔ e.dividesByZero = true)
      ∧ (e.dividesByZero = false →
          ∃ v, e.value = some v ∧ evaluateRPN cfg pow e.postorder = .ok v)) := by
  have hc : convertToRPN e.toks = .ok e.postorder := by
    have := convertLoop_toks e [] [] []
    simp only [List.append_nil, List.nil_append] at this
    simp [convertToRPN, this, convertLoop, drainOperators]
  refine ⟨hc, fun h => ?_⟩
  have he : evaluateRPN cfg pow e.postorder
      = (match e.value with
        | some v => .ok v
        | none => .error (.runtime_error "Division by zero")) := by
    have := evalLoop_postorder cfg pow e [] [] h
    simp only [List.append_nil] at this
    simp only [evaluateRPN, this]
    cases e.value <;> simp [evalLoop]
  have hiff := value_none_iff e h
  refine ⟨he, ?_, ?_⟩
  · rw [he, ← hiff]
    cases e.value <;> simp
  · intro hd
    cases hv : e.value with
    | none =>
      rw [hiff.mp hv] at hd
      cases hd
    | some v =>
      rw [hv] at he
      exact ⟨v, rfl, he⟩

/-- Witness of C1 at the tree of "((2 + 3) * 4)", whose value is 20. -/
theorem C1_parenthesised_pipeline_witness :
    (Expr.node .mul (.node .add (.literal "2") (.literal "3")) (.literal "4")).literalsConvert
      = true
    ∧ convertToRPN (Expr.node .mul (.node .add (.literal "2") (.literal "3"))
          (.literal "4")).toks
      = .ok (Expr.node .mul (.node .add (.literal "2") (.literal "3"))
          (.literal "4")).postorder
    ∧ evaluateRPN defaultSettings powTrunc
          (Expr.node .mul (.node .add (.literal "2") (.literal "3")) (.literal "4")).postorder
      = (match (Expr.node .mul (.node .add (.literal "2") (.literal "3"))
            (.literal "4")).value with
        | some v => .ok v
        | none => .error (.runtime_error "Division by zero")) :=
  ⟨by decide,
    (C1_parenthesised_pipeline defaultSettings powTrunc
      (Expr.node .mul (.node .add (.literal "2") (.literal "3")) (.literal "4"))).1,
    ((C1_parenthesised_pipeline defaultSettings powTrunc
      (Expr.node .mul (.node .add (.literal "2") (.literal "3")) (.literal "4"))).2
      (by decide)).1⟩

/-! ## Parenthesis matching (C7) -/

theorem countType_cons (ty : TokenType) (t : Token) (ts : List Token) :
    countType ty (t :: ts) = countType ty ts + (if t.type = ty then 1 else 0) := by
  simp [countType, List.countP_cons]

theorem popOperators_leftParens (op : String) (out st : List Token) :
    countType .LEFT_PAREN (popOperators op out st).2 = countType .LEFT_PAREN st := by
  induction st generalizing out with
  | nil => simp [popOperators]
  | cons top st ih =>
    simp only [popOperators]
    split
    · rename_i h
      rw [ih, countType_cons, if_neg h.1]
      rfl
    · rfl

theorem popUntilLeftParen_spec (out st : List Token) :
    ((popUntilLeftParen out st).2 = [] ∧ countType .LEFT_PAREN st = 0)
    ∨ ∃ t st1, (popUntilLeftParen out st).2 = t :: st1
        ∧ countType .LEFT_PAREN st = countType .LEFT_PAREN st1 + 1 := by
  induction st generalizing out with
  | nil => left; simp [popUntilLeftParen, countType]
  | cons top st ih =>
    simp only [popUntilLeftParen]
    split
    · rename_i h
      rw [countType_cons, if_neg h]
      exact ih _
    · rename_i h
      right
      refine ⟨top, st, rfl, ?_⟩
      rw [countType_cons, if_pos (not_not.mp h)]

theorem convertLoop_parenDepth (ts : List Token) (out st : List Token) :
    (parenDepth (countType .LEFT_PAREN st) ts = none →
      convertLoop ts (out, st)
        = .error (.invalid_argument "Mismatched parenthesis, missing: '('"))
    ∧ (∀ k, parenDepth (countType .LEFT_PAREN st) ts = some k →
      ∃ out1 st1, convertLoop ts (out, st) = .ok (out1, st1)
        ∧ countType .LEFT_PAREN st1 = k) := by
  induction ts generalizing out st with
  | nil =>
    constructor
    · intro h; simp [parenDepth] at h
    · intro k h
      simp only [parenDepth, Option.some.injEq] at h
      exact ⟨out, st, rfl, h⟩
  | cons t ts ih =>
    rcases t with ⟨ty, v⟩
    cases ty
    · -- NUMBER
      have := ih (out ++ [⟨.NUMBER, v⟩]) st
      simpa [parenDepth, convertLoop, convertStep] using this
    · -- OPERATOR
      have := ih (popOperators v out st).1 (⟨.OPERATOR, v⟩ :: (popOperators v out st).2)
      rw [countType_cons, popOperators_leftParens] at this
      simpa [parenDepth, convertLoop, convertStep] using this
    · -- FUNCTION
      have := ih out (⟨.FUNCTION, v⟩ :: st)
      rw [countType_cons] at this
      simpa [parenDepth, convertLoop, convertStep] using this
    · -- LEFT_PAREN
      have := ih out (⟨.LEFT_PAREN, v⟩ :: st)
      rw [countType_cons] at this
      simpa [parenDepth, convertLoop, convertStep] using this
    · -- RIGHT_PAREN
      rcases popUntilLeftParen_spec out st with ⟨h1, h2⟩ | ⟨t1, st1, h1, h2⟩
      · have hp : popUntilLeftParen out st = ((popUntilLeftParen out st).1, []) := by
          rw [← h1]
        constructor
        · intro _
          simp only [convertLoop, convertStep]
          rw [hp]
        · intro k hk
          simp [parenDepth, h2] at hk
      · have hp : popUntilLeftParen out st = ((popUntilLeftParen out st).1, t1 :: st1) := by
          rw [← h1]
        have := ih (popUntilLeftParen out st).1 st1
        have hstep : convertLoop (⟨.RIGHT_PAREN, v⟩ :: ts) (out, st)
            = convertLoop ts ((popUntilLeftParen out st).1, st1) := by
          simp only [convertLoop, convertStep]
          rw [hp]
        rw [hstep]
        simpa [parenDepth, h2] using this

theorem parenDepth_none_iff (ts : List Token) (d : ℕ) :
    parenDepth d ts = none
      ↔ ∃ n, d + countType .LEFT_PAREN (ts.take n) < countType .RIGHT_PAREN (ts.take n) := by
  induction ts generalizing d with
  | nil => simp [parenDepth, countType]
  | cons t ts ih =>
    have shift : ∀ (a b : ℕ),
        (∃ n, d + countType .LEFT_PAREN ((t :: ts).take n)
            < countType .RIGHT_PAREN ((t :: ts).take n))
        ↔ ∃ n, d + (countType .LEFT_PAREN (ts.take n) + (if t.type = .LEFT_PAREN then 1 else 0))
            < countType .RIGHT_PAREN (ts.take n) + (if t.type = .RIGHT_PAREN then 1 else 0) := by
      intro _ _
      constructor
      · rintro ⟨n, hn⟩
        cases n with
        | zero => simp [countType] at hn
        | succ n =>
          rw [List.take_succ_cons, countType_cons, countType_cons] at hn
          exact ⟨n, hn⟩
      · rintro ⟨n, hn⟩
        refine ⟨n + 1, ?_⟩
        rw [List.take_succ_cons, countType_cons, countType_cons]
        exact hn
    rw [shift 0 0]
    simp only [parenDepth]
    by_cases hl : t.type = .LEFT_PAREN
    · have hr : ¬ t.type = .RIGHT_PAREN := by rw [hl]; decide
      rw [if_pos hl, ih]
      simp only [hl, hr, if_true, if_false, reduceCtorEq]
      constructor <;> rintro ⟨n, hn⟩ <;> exact ⟨n, by omega⟩
    · rw [if_neg hl]
      by_cases hr : t.type = .RIGHT_PAREN
      · rw [if_pos hr]
        simp only [hl, hr, if_true, if_false, reduceCtorEq]
        by_cases hd : d = 0
        · rw [if_pos hd]
          simp only [true_iff]
          exact ⟨0, by simp [countType, hd]⟩
        · rw [if_neg hd, ih]
          constructor <;> rintro ⟨n, hn⟩ <;> exact ⟨n, by omega⟩
      · rw [if_neg hr, ih]
        simp only [hl, hr, if_false]
        constructor <;> rintro ⟨n, hn⟩ <;> exact ⟨n, by omega⟩

theorem parenDepth_some (ts : List Token) (d k : ℕ) (h : parenDepth d ts = some k) :
    k + countType .RIGHT_PAREN ts = d + countType .LEFT_PAREN ts := by
  induction ts generalizing d with
  | nil =>
    simp only [parenDepth, Option.some.injEq] at h
    simp [countType, h]
  | cons t ts ih =>
    simp only [parenDepth] at h
    rw [countType_cons, countType_cons]
    by_cases hl : t.type = .LEFT_PAREN
    · have hr : ¬ t.type = .RIGHT_PAREN := by rw [hl]; decide
      rw [if_pos hl] at h
      have := ih _ h
      simp only [hl, hr, if_true, if_false, reduceCtorEq]
      omega
    · rw [if_neg hl] at h
      by_cases hr : t.type = .RIGHT_PAREN
      · rw [if_pos hr] at h
        by_cases hd : d = 0
        · rw [if_pos hd] at h; cases h
        · rw [if_neg hd] at h
          have := ih _ h
          simp only [hl, hr, if_true, if_false, reduceCtorEq]
          omega
      · rw [if_neg hr] at h
        have := ih _ h
        simp only [hl, hr, if_false]
        omega

theorem drainOperators_spec (out st : List Token) :
    (countType .LEFT_PAREN st = 0 → ∃ o, drainOperators out st = .ok o)
    ∧ (0 < countType .LEFT_PAREN st →
      drainOperators out st
        = .error (.invalid_argument "Mismatched parenthesis, missing: ')'")) := by
  induction st generalizing out with
  | nil => simp [drainOperators, countType]
  | cons top st ih =>
    simp only [drainOperators, countType_cons]
    by_cases h : top.type = .LEFT_PAREN
    · simp [h]
    · simp only [h, if_false, Nat.add_zero]
      exact ih _

/-- C7: convertToRPN fails exactly on unbalanced parentheses: with the missing-'(' error
exactly when some prefix has more RIGHT_PAREN than LEFT_PAREN tokens, with the missing-')'
error exactly when there is no such prefix and the whole sequence has more LEFT_PAREN than
RIGHT_PAREN tokens, and it succeeds on every other sequence; the tokens of "(1 + 2" and of
"1 + 2)" are rejected. -/
theorem C7_unbalanced_parentheses (ts : List Token) :
    (convertToRPN ts = .error (.invalid_argument "Mismatched parenthesis, missing: '('")
      ↔ ∃ n, countType .LEFT_PAREN (ts.take n) < countType .RIGHT_PAREN (ts.take n))
    ∧ (convertToRPN ts = .error (.invalid_argument "Mismatched parenthesis, missing: ')'")
      ↔ (¬ ∃ n, countType .LEFT_PAREN (ts.take n) < countType .RIGHT_PAREN (ts.take n))
        ∧ countType .RIGHT_PAREN ts < countType .LEFT_PAREN ts)
    ∧ ((∃ out, convertToRPN ts = .ok out)
      ↔ (¬ ∃ n, countType .LEFT_PAREN (ts.take n) < countType .RIGHT_PAREN (ts.take n))
        ∧ ¬ countType .RIGHT_PAREN ts < countType .LEFT_PAREN ts)
    ∧ tokenize "(1 + 2"
        = .ok [leftParen, numberToken "1", operatorToken "+", numberToken "2"]
    ∧ convertToRPN [leftParen, numberToken "1", operatorToken "+", numberToken "2"]
        = .error (.invalid_argument "Mismatched parenthesis, missing: ')'")
    ∧ tokenize "1 + 2)"
        = .ok [numberToken "1", operatorToken "+", numberToken "2", rightParen]
    ∧ convertToRPN [numberToken "1", operatorToken "+", numberToken "2", rightParen]
        = .error (.invalid_argument "Mismatched parenthesis, missing: '('") := by
  have hne : Error.invalid_argument "Mismatched parenthesis, missing: '('"
      ≠ Error.invalid_argument "Mismatched parenthesis, missing: ')'" := by decide
  have hbad := parenDepth_none_iff ts 0
  simp only [Nat.zero_add] at hbad
  have hloop := convertLoop_parenDepth ts [] []
  have h0 : countType .LEFT_PAREN [] = 0 := rfl
  rw [h0] at hloop
  refine ⟨?_, ?_, ?_, by decide, by decide, by decide, by decide⟩
  all_goals
    rw [← hbad]
    cases hd : parenDepth 0 ts with
    | none =>
      have hl := hloop.1 hd
      simp [convertToRPN, hl, hne]
    | some k =>
      obtain ⟨out1, st1, hl, hk⟩ := hloop.2 k hd
      have hcount := parenDepth_some ts 0 k hd
      have hdrain := drainOperators_spec out1 st1
      rw [hk] at hdrain
      rcases Nat.eq_zero_or_pos k with hk0 | hk0
      · obtain ⟨o, ho⟩ := hdrain.1 hk0
        simp [convertToRPN, hl, ho]
        try omega
      · have ho := hdrain.2 hk0
        simp [convertToRPN, hl, ho, hne.symm]
        try omega

/-! ## Operand-stack discipline (C9) -/

theorem evalStep_length (cfg : Settings) (pow : ℚ → ℚ → ℚ) (st st1 : List ℚ) (t : Token)
    (hop : t.type = .OPERATOR → t.value ∈ ["+", "-", "*", "/", "^", "u-"])
    (hfn : t.type = .FUNCTION → t.value ∈ ["sin", "cos", "tan"])
    (h : evalStep cfg pow st t = .ok st1) :
    st1.length + countBinary [t] = st.length + countType .NUMBER [t] := by
  rcases t with ⟨ty, v⟩
  cases ty
  · -- NUMBER
    simp only [evalStep] at h
    cases hs : stod v with
    | none => simp [hs] at h
    | some x =>
      simp only [hs, Except.ok.injEq] at h
      subst h
      simp [countBinary, countType]
  · -- OPERATOR
    have hv := hop rfl
    simp only [List.mem_cons, List.mem_singleton, List.not_mem_nil, or_false] at hv
    rcases hv with rfl | rfl | rfl | rfl | rfl | rfl <;>
      rcases st with _ | ⟨x, _ | ⟨y, rest⟩⟩ <;>
      simp [evalStep] at h <;>
      (try split at h) <;>
      simp_all [countBinary, countType]
    all_goals (subst h; simp)
  · -- FUNCTION
    have hv := hfn rfl
    simp only [List.mem_cons, List.mem_singleton, List.not_mem_nil, or_false] at hv
    rcases hv with rfl | rfl | rfl <;>
      rcases st with _ | ⟨x, rest⟩ <;>
      simp [evalStep] at h <;>
      (try split at h) <;>
      simp_all [countBinary, countType]
    all_goals (subst h; simp)
  · simp only [evalStep, Except.ok.injEq] at h
    subst h
    simp [countBinary, countType]
  · simp only [evalStep, Except.ok.injEq] at h
    subst h
    simp [countBinary, countType]

theorem count_cons_split (t : Token) (ts : List Token) :
    countBinary (t :: ts) = countBinary [t] + countBinary ts
    ∧ countType .NUMBER (t :: ts) = countType .NUMBER [t] + countType .NUMBER ts := by
  constructor
  · simp only [countBinary, List.countP_cons, List.countP_nil]
    omega
  · simp only [countType, List.countP_cons, List.countP_nil]
    omega

theorem evalLoop_length (cfg : Settings) (pow : ℚ → ℚ → ℚ) (ts : List Token)
    (st st1 : List ℚ)
    (hops : ∀ t ∈ ts, t.type = .OPERATOR → t.value ∈ ["+", "-", "*", "/", "^", "u-"])
    (hfns : ∀ t ∈ ts, t.type = .FUNCTION → t.value ∈ ["sin", "cos", "tan"])
    (h : evalLoop cfg pow ts st = .ok st1) :
    st1.length + countBinary ts = st.length + countType .NUMBER ts := by
  induction ts generalizing st with
  | nil =>
    simp only [evalLoop, Except.ok.injEq] at h
    subst h
    simp [countBinary, countType]
  | cons t ts ih =>
    simp only [evalLoop] at h
    cases hs : evalStep cfg pow st t with
    | error e => simp [hs] at h
    | ok st2 =>
      simp only [hs] at h
      have h1 := evalStep_length cfg pow st st2 t (hops t (List.mem_cons_self _ _))
        (hfns t (List.mem_cons_self _ _)) hs
      have h2 := ih st2 (fun u hu => hops u (List.mem_cons_of_mem _ hu))
        (fun u hu => hfns u (List.mem_cons_of_mem _ hu)) h
      obtain ⟨e1, e2⟩ := count_cons_split t ts
      omega

theorem evalLoop_numbers (cfg : Settings) (pow : ℚ → ℚ → ℚ) (texts : List String)
    (st : List ℚ) :
    (evalLoop cfg pow (texts.map numberToken) st = .error (.invalid_argument "stod")
      ∧ ∃ text ∈ texts, stod text = none)
    ∨ ∃ st1, evalLoop cfg pow (texts.map numberToken) st = .ok st1
      ∧ st1.length = st.length + texts.length := by
  induction texts generalizing st with
  | nil => exact Or.inr ⟨st, rfl, rfl⟩
  | cons text texts ih =>
    cases hv : stod text with
    | none =>
      left
      refine ⟨?_, text, List.mem_cons_self _ _, hv⟩
      simp only [List.map_cons, evalLoop, evalStep, numberToken, hv]
    | some v =>
      rcases ih (v :: st) with ⟨h1, u, hu, hu2⟩ | ⟨st1, h1, h2⟩
      · left
        refine ⟨?_, u, List.mem_cons_of_mem _ hu, hu2⟩
        simp only [List.map_cons, evalLoop, evalStep, numberToken, hv]
        exact h1
      · right
        refine ⟨st1, ?_, ?_⟩
        · simp only [List.map_cons, evalLoop, evalStep, numberToken, hv]
          exact h1
        · simp only [List.length_cons] at h2 ⊢
          omega

/-- C9: when evaluateRPN returns a value on a postfix sequence whose operators are among
+ - * / ^ u- and whose functions are among sin, cos, tan, the number of NUMBER tokens minus
the number of binary-operator tokens is 1.  The empty sequence (the postfix form of the
empty input, of blank input and of "()") and every sequence of two or more NUMBER tokens
fail with an invalid-expression error, as does the input "1 2". -/
theorem C9_one_operand_remains (cfg : Settings) (pow : ℚ → ℚ → ℚ) (fileOpens : Bool)
    (rpn : List Token) (result : ℚ) (texts : List String) :
    ((∀ t ∈ rpn, t.type = .OPERATOR → t.value ∈ ["+", "-", "*", "/", "^", "u-"]) →
      (∀ t ∈ rpn, t.type = .FUNCTION → t.value ∈ ["sin", "cos", "tan"]) →
      evaluateRPN cfg pow rpn = .ok result →
      (countType .NUMBER rpn : ℤ) - (countBinary rpn : ℤ) = 1)
    ∧ evaluateRPN cfg pow []
        = .error (.invalid_argument "Invalid expression: too many operands")
    ∧ (tokenize "" = .ok [] ∧ tokenize "  \t " = .ok []
      ∧ tokenize "()" = .ok [leftParen, rightParen]
      ∧ convertToRPN [] = .ok [] ∧ convertToRPN [leftParen, rightParen] = .ok [])
    ∧ (2 ≤ texts.length →
      ∃ what, evaluateRPN cfg pow (texts.map numberToken) = .error (.invalid_argument what))
    ∧ (2 ≤ texts.length → (∀ text ∈ texts, (stod text).isSome = true) →
      evaluateRPN cfg pow (texts.map numberToken)
        = .error (.invalid_argument "Invalid expression: too many operands"))
    ∧ evaluateExpression cfg pow fileOpens ""
        = .error (.invalid_argument "Invalid expression: too many operands")
    ∧ evaluateExpression cfg pow fileOpens "  \t "
        = .error (.invalid_argument "Invalid expression: too many operands")
    ∧ evaluateExpression cfg pow fileOpens "()"
        = .error (.invalid_argument "Invalid expression: too many operands")
    ∧ evaluateExpression cfg pow fileOpens "1 2"
        = .error (.invalid_argument "Invalid expression: too many operands") := by
  have hempty : evaluateRPN cfg pow []
      = .error (.invalid_argument "Invalid expression: too many operands") := rfl
  have hnums : ∀ (ts : List String), 2 ≤ ts.length →
      (evaluateRPN cfg pow (ts.map numberToken) = .error (.invalid_argument "stod")
        ∧ ∃ text ∈ ts, stod text = none)
      ∨ evaluateRPN cfg pow (ts.map numberToken)
        = .error (.invalid_argument "Invalid expression: too many operands") := by
    intro ts hl
    rcases evalLoop_numbers cfg pow ts [] with ⟨h1, hex⟩ | ⟨st1, h1, h2⟩
    · left
      exact ⟨by simp only [evaluateRPN, h1], hex⟩
    · right
      simp only [evaluateRPN, h1]
      rcases st1 with _ | ⟨x, _ | ⟨y, rest⟩⟩
      · rfl
      · simp only [List.length_cons, List.length_nil] at h2
        omega
      · rfl
  have ht1 : tokenize "" = .ok [] := by decide
  have ht2 : tokenize "  \t " = .ok [] := by decide
  have ht3 : tokenize "()" = .ok [leftParen, rightParen] := by decide
  have ht4 : tokenize "1 2" = .ok [numberToken "1", numberToken "2"] := by decide
  have hc1 : convertToRPN [] = .ok [] := by decide
  have hc2 : convertToRPN [leftParen, rightParen] = .ok [] := by decide
  have hc3 : convertToRPN [numberToken "1", numberToken "2"]
      = .ok [numberToken "1", numberToken "2"] := by decide
  have h12 : evaluateRPN cfg pow [numberToken "1", numberToken "2"]
      = .error (.invalid_argument "Invalid expression: too many operands") := by
    rcases hnums ["1", "2"] (by simp) with ⟨_, text, ht, hnone⟩ | h
    · simp only [List.mem_cons, List.mem_singleton, List.not_mem_nil, or_false] at ht
      rcases ht with rfl | rfl <;> simp [stod_digit_lit] at hnone
    · simpa using h
  refine ⟨?_, hempty, ⟨ht1, ht2, ht3, hc1, hc2⟩, ?_, ?_, ?_, ?_, ?_, ?_⟩
  rotate_left
  · intro hlen
    rcases hnums texts hlen with ⟨h1, _⟩ | h1
    · exact ⟨_, h1⟩
    · exact ⟨_, h1⟩
  · intro hlen hvalid
    rcases hnums texts hlen with ⟨_, text, ht, hnone⟩ | h1
    · have := hvalid text ht
      simp [hnone] at this
    · exact h1
  rotate_right
  · intro hops hfns h
    simp only [evaluateRPN] at h
    cases hl : evalLoop cfg pow rpn [] with
    | error e => simp [hl] at h
    | ok st1 =>
      have := evalLoop_length cfg pow rpn [] st1 hops hfns hl
      rcases st1 with _ | ⟨x, _ | ⟨y, rest⟩⟩
      · simp [hl] at h
      · simp only [List.length_cons, List.length_nil] at this
        omega
      · simp [hl] at h
  · simp only [evaluateExpression, ht1, hc1, hempty]
  · simp only [evaluateExpression, ht2, hc1, hempty]
  · simp only [evaluateExpression, ht3, hc2, hempty]
  · simp only [evaluateExpression, ht4, hc3, h12]

/-- Witness of C9 at the postfix sequence 1 2 + (value 3) and the NUMBER texts 1, 2. -/
theorem C9_one_operand_remains_witness :
    (∀ t ∈ [numberToken "1", numberToken "2", operatorToken "+"],
        t.type = .OPERATOR → t.value ∈ ["+", "-", "*", "/", "^", "u-"])
    ∧ (∀ t ∈ [numberToken "1", numberToken "2", operatorToken "+"],
        t.type = .FUNCTION → t.value ∈ ["sin", "cos", "tan"])
    ∧ evaluateRPN defaultSettings powTrunc
        [numberToken "1", numberToken "2", operatorToken "+"] = .ok 3
    ∧ 2 ≤ ["1", "2"].length
    ∧ (countType .NUMBER [numberToken "1", numberToken "2", operatorToken "+"] : ℤ)
        - (countBinary [numberToken "1", numberToken "2", operatorToken "+"] : ℤ) = 1
    ∧ (∃ what, evaluateRPN defaultSettings powTrunc (["1", "2"].map numberToken)
        = .error (.invalid_argument what)) :=
  have hops : ∀ t ∈ [numberToken "1", numberToken "2", operatorToken "+"],
      t.type = .OPERATOR → t.value ∈ ["+", "-", "*", "/", "^", "u-"] := by decide
  have hfns : ∀ t ∈ [numberToken "1", numberToken "2", operatorToken "+"],
      t.type = .FUNCTION → t.value ∈ ["sin", "cos", "tan"] := by decide
  have hev : evaluateRPN defaultSettings powTrunc
      [numberToken "1", numberToken "2", operatorToken "+"] = .ok 3 := by
    simp [evaluateRPN, evalLoop, evalStep, numberToken, operatorToken, stod_digit_lit]
    norm_num
  ⟨hops, hfns, hev, by decide,
    (C9_one_operand_remains defaultSettings powTrunc false
      [numberToken "1", numberToken "2", operatorToken "+"] 3 ["1", "2"]).1 hops hfns hev,
    (C9_one_operand_remains defaultSettings powTrunc false
      [numberToken "1", numberToken "2", operatorToken "+"] 3 ["1", "2"]).2.2.2.1
      (by decide)⟩

/-! ## The tokenizer loop -/

theorem rfind_eq_none (s : List Char) (c : Char) : rfind s c = none ↔ c ∉ s := by
  induction s with
  | nil => simp [rfind]
  | cons x xs ih =>
    simp only [rfind]
    cases h : rfind xs c with
    | none =>
      have hc : c ∉ xs := ih.mp h
      by_cases hx : x = c
      · simp [hx]
      · simp [hx, hc, Ne.symm hx]
    | some i =>
      have hc : ¬ c ∉ xs := fun hh => by simp [ih.mpr hh] at h
      simp only [not_not] at hc
      simp [hc]

theorem find_ne_rfind (s : List Char) (c : Char) :
    find s c ≠ rfind s c ↔ 2 ≤ s.count c := by
  induction s with
  | nil => simp [find, rfind]
  | cons x xs ih =>
    by_cases hx : x = c
    · subst hx
      simp only [find, if_true, rfind, List.count_cons_self]
      cases h : rfind xs x with
      | none =>
        have hc : x ∉ xs := (rfind_eq_none xs x).mp h
        simp [List.count_eq_zero_of_not_mem hc]
      | some i =>
        have hc : x ∈ xs := by
          by_contra hh
          simp [(rfind_eq_none xs x).mpr hh] at h
        have := List.count_pos_iff.mpr hc
        constructor
        · intro _
          omega
        · intro _
          simp
    · have hcount : (x :: xs).count c = xs.count c := by
        rw [List.count_cons_of_ne (Ne.symm hx)]
      rw [hcount, ← ih]
      simp only [find, if_neg hx, rfind]
      cases h1 : find xs c <;> cases h2 : rfind xs c <;> simp [hx]

theorem scanNumber_length (input cur tok rest : List Char)
    (h : scanNumber cur input = .ok (tok, rest)) : rest.length ≤ input.length := by
  induction input generalizing cur with
  | nil =>
    simp only [scanNumber, Except.ok.injEq, Prod.mk.injEq] at h
    simp [← h.2]
  | cons c input ih =>
    simp only [scanNumber] at h
    split at h
    · split at h
      · cases h
      · have := ih _ h
        simp only [List.length_cons]
        omega
    · simp only [Except.ok.injEq, Prod.mk.injEq] at h
      simp [← h.2]

theorem scanWord_length (input cur : List Char) :
    (scanWord cur input).2.length ≤ input.length := by
  induction input generalizing cur with
  | nil => simp [scanWord]
  | cons c input ih =>
    simp only [scanWord]
    split
    · have := ih (cur ++ [c])
      simp only [List.length_cons]
      omega
    · simp

theorem tokenizeLoop_fuel (fuel1 fuel2 : ℕ) (input : List Char) (e : Bool) (t : List Token)
    (h1 : input.length ≤ fuel1) (h2 : input.length ≤ fuel2) :
    tokenizeLoop fuel1 input e t = tokenizeLoop fuel2 input e t := by
  induction fuel1 generalizing fuel2 input e t with
  | zero =>
    have : input = [] := List.length_eq_zero.mp (Nat.le_zero.mp h1)
    subst this
    cases fuel2 <;> rfl
  | succ n ih =>
    cases input with
    | nil => cases fuel2 <;> rfl
    | cons c rest =>
      cases fuel2 with
      | zero => simp at h2
      | succ m =>
        simp only [List.length_cons, Nat.add_le_add_iff_right] at h1 h2
        have hw := scanWord_length (c :: rest) []
        simp only [List.length_cons] at hw
        simp only [tokenizeLoop]
        split
        · exact ih m rest e t h1 h2
        · split
          · cases hs : scanNumber [] (c :: rest) with
            | error err => rfl
            | ok p =>
              obtain ⟨tok, rest1⟩ := p
              have hl : rest1.length ≤ rest.length := by
                simp only [scanNumber] at hs
                split at hs
                · split at hs
                  · cases hs
                  · exact scanNumber_length _ _ _ _ hs
                · rename_i hnum _
                  contradiction
              exact ih m rest1 _ _ (by omega) (by omega)
          · split
            · have hl : (scanWord [] (c :: rest)).2.length ≤ rest.length := by
                rename_i ha
                simp only [scanWord, ha, if_true]
                exact scanWord_length _ _
              split
              · exact ih m _ _ _ (by omega) (by omega)
              · split
                · exact ih m _ _ _ (by omega) (by omega)
                · rfl
            · split
              · split
                · exact ih m rest _ _ h1 h2
                · exact ih m rest _ _ h1 h2
              · split
                · exact ih m rest _ _ h1 h2
                · split
                  · exact ih m rest _ _ h1 h2
                  · rfl

theorem tokenize_eq (s : String) : tokenize s = tokenizeFrom s.data true [] := rfl

theorem tokenizeFrom_nil (e : Bool) (t : List Token) : tokenizeFrom [] e t = .ok t := rfl

theorem tokenizeFrom_cons (c : Char) (rest : List Char) (e : Bool) (t : List Token) :
    tokenizeFrom (c :: rest) e t =
      if isspace c then tokenizeFrom rest e t
      else if isdigit c || c = '.' then
        match scanNumber [] (c :: rest) with
        | .error err => .error err
        | .ok (currentToken, rest1) =>
          tokenizeFrom rest1 false (t ++ [⟨.NUMBER, String.mk currentToken⟩])
      else if isalpha c then
        if String.mk (scanWord [] (c :: rest)).1 = "pi"
            ∨ String.mk (scanWord [] (c :: rest)).1 = "Pi"
            ∨ String.mk (scanWord [] (c :: rest)).1 = "PI" then
          tokenizeFrom (scanWord [] (c :: rest)).2 false
            (t ++ [⟨.NUMBER, "3.141592653589793"⟩])
        else if String.mk (scanWord [] (c :: rest)).1 = "sin"
            ∨ String.mk (scanWord [] (c :: rest)).1 = "cos"
            ∨ String.mk (scanWord [] (c :: rest)).1 = "tan" then
          tokenizeFrom (scanWord [] (c :: rest)).2 true
            (t ++ [⟨.FUNCTION, String.mk (scanWord [] (c :: rest)).1⟩])
        else .error (.invalid_argument
          ("Unrecognized function: " ++ String.mk (scanWord [] (c :: rest)).1))
      else if c = '^' ∨ c = '*' ∨ c = '/' ∨ c = '+' ∨ c = '-' then
        if c = '-' ∧ e = true then tokenizeFrom rest true (t ++ [⟨.OPERATOR, "u-"⟩])
        else tokenizeFrom rest true (t ++ [⟨.OPERATOR, String.mk [c]⟩])
      else if c = '(' then tokenizeFrom rest true (t ++ [⟨.LEFT_PAREN, "("⟩])
      else if c = ')' then tokenizeFrom rest false (t ++ [⟨.RIGHT_PAREN, ")"⟩])
      else .error (.invalid_argument ("Unrecognized character: ".push c)) := by
  have hfuel : ∀ (input : List Char) (e1 : Bool) (t1 : List Token),
      input.length ≤ rest.length →
      tokenizeLoop rest.length input e1 t1 = tokenizeFrom input e1 t1 := by
    intro input e1 t1 hl
    exact tokenizeLoop_fuel _ _ _ _ _ hl (le_refl _)
  unfold tokenizeFrom at *
  simp only [List.length_cons, tokenizeLoop]
  split
  · rfl
  · split
    · cases hs : scanNumber [] (c :: rest) with
      | error err => rfl
      | ok p =>
        obtain ⟨tok, rest1⟩ := p
        have hl : rest1.length ≤ rest.length := by
          simp only [scanNumber] at hs
          split at hs
          · split at hs
            · cases hs
            · exact scanNumber_length _ _ _ _ hs
          · contradiction
        exact hfuel _ _ _ hl
    · split
      · have hl : (scanWord [] (c :: rest)).2.length ≤ rest.length := by
          rename_i ha
          simp only [scanWord, ha, if_true]
          exact scanWord_length _ _
        split
        · exact hfuel _ _ _ hl
        · split
          · exact hfuel _ _ _ hl
          · rfl
      · rfl

theorem expectsOperand_concat (t : List Token) (tok : Token) :
    expectsOperand (t ++ [tok])
      = (match tok.type with
        | .NUMBER => false
        | .RIGHT_PAREN => false
        | .OPERATOR => true
        | .FUNCTION => true
        | .LEFT_PAREN => true) := by
  simp [expectsOperand]

theorem scanNumber_append_delim (d : Char) (post : List Char) (hd : isNumberChar d = false)
    (xs cur : List Char) :
    scanNumber cur (xs ++ d :: post)
      = match scanNumber cur xs with
        | .error err => .error err
        | .ok (tok, r) => .ok (tok, r ++ d :: post) := by
  have hd1 : ¬ (isdigit d || decide (d = '.')) = true := by
    simpa [isNumberChar] using hd
  induction xs generalizing cur with
  | nil => simp only [List.nil_append, scanNumber, if_neg hd1]
  | cons c xs ih =>
    simp only [List.cons_append, scanNumber]
    split
    · split
      · rfl
      · exact ih _
    · rfl

theorem scanWord_append_delim (d : Char) (post : List Char) (hd : isalpha d = false)
    (xs cur : List Char) :
    scanWord cur (xs ++ d :: post)
      = ((scanWord cur xs).1, (scanWord cur xs).2 ++ d :: post) := by
  induction xs generalizing cur with
  | nil => simp [scanWord, hd]
  | cons c xs ih =>
    simp only [List.cons_append, scanWord]
    split
    · exact ih _
    · rfl

theorem scanNumber_cons_length (c : Char) (rest tok r : List Char)
    (hc : (isdigit c || decide (c = '.')) = true)
    (hs : scanNumber [] (c :: rest) = .ok (tok, r)) : r.length ≤ rest.length := by
  simp only [scanNumber, hc, if_true] at hs
  split at hs
  · cases hs
  · exact scanNumber_length _ _ _ _ hs

theorem scanWord_cons_length (c : Char) (rest : List Char) (hc : isalpha c = true) :
    (scanWord [] (c :: rest)).2.length ≤ rest.length := by
  simp only [scanWord, hc, if_true]
  exact scanWord_length _ _

/-- Tokenizing up to a character that is neither part of a number nor a letter: the
tokens of the part before it, then the loop continues at that character. -/
theorem tokenizeFrom_append_delim (d : Char) (post : List Char)
    (hd : isNumberChar d = false) (ha : isalpha d = false) (pre : List Char)
    (t : List Token) :
    tokenizeFrom (pre ++ d :: post) (expectsOperand t) t
      = match tokenizeFrom pre (expectsOperand t) t with
        | .error err => .error err
        | .ok ts => tokenizeFrom (d :: post) (expectsOperand ts) ts := by
  suffices main : ∀ (n : ℕ) (p : List Char) (t1 : List Token), p.length ≤ n →
      tokenizeFrom (p ++ d :: post) (expectsOperand t1) t1
        = match tokenizeFrom p (expectsOperand t1) t1 with
          | .error err => .error err
          | .ok ts => tokenizeFrom (d :: post) (expectsOperand ts) ts from
    main pre.length pre t (le_refl _)
  intro n
  induction n with
  | zero =>
    intro p t1 hp
    have : p = [] := List.length_eq_zero.mp (Nat.le_zero.mp hp)
    subst this
    simp only [List.nil_append, tokenizeFrom_nil]
  | succ n ih =>
    intro p t hp
    cases p with
    | nil => simp only [List.nil_append, tokenizeFrom_nil]
    | cons c rest =>
      simp only [List.length_cons, Nat.add_le_add_iff_right] at hp
      have ihr : ∀ (p : List Char) (t1 : List Token), p.length ≤ rest.length →
          tokenizeFrom (p ++ d :: post) (expectsOperand t1) t1
            = match tokenizeFrom p (expectsOperand t1) t1 with
              | .error err => .error err
              | .ok ts => tokenizeFrom (d :: post) (expectsOperand ts) ts := by
        intro p t1 hp1
        exact ih p t1 (le_trans hp1 hp)
      rw [List.cons_append, tokenizeFrom_cons, tokenizeFrom_cons c rest]
      by_cases h1 : isspace c = true
      · simp only [h1, if_true, if_false, Bool.false_eq_true]
        exact ihr rest t (le_refl _)
      · simp only [h1, if_true, if_false, Bool.false_eq_true]
        by_cases h2 : (isdigit c || decide (c = '.')) = true
        · simp only [h2, if_true, if_false, Bool.false_eq_true]
          have happ := scanNumber_append_delim d post hd (c :: rest) []
          rw [List.cons_append] at happ
          rw [happ]
          cases hs : scanNumber [] (c :: rest) with
          | error err => rfl
          | ok p =>
            obtain ⟨tok, r⟩ := p
            have hl := scanNumber_cons_length c rest tok r h2 hs
            have := ihr r (t ++ [⟨.NUMBER, String.mk tok⟩]) hl
            simp only [expectsOperand_concat] at this
            exact this
        · simp only [h2, if_true, if_false, Bool.false_eq_true]
          by_cases h3 : isalpha c = true
          · simp only [h3, if_true, if_false, Bool.false_eq_true]
            have happ := scanWord_append_delim d post ha (c :: rest) []
            rw [List.cons_append] at happ
            rw [happ]
            dsimp only
            have hl := scanWord_cons_length c rest h3
            by_cases hpi : String.mk (scanWord [] (c :: rest)).1 = "pi"
                ∨ String.mk (scanWord [] (c :: rest)).1 = "Pi"
                ∨ String.mk (scanWord [] (c :: rest)).1 = "PI"
            · simp only [hpi, if_true, if_false, Bool.false_eq_true]
              have := ihr _ (t ++ [⟨.NUMBER, "3.141592653589793"⟩]) hl
              simp only [expectsOperand_concat] at this
              exact this
            · simp only [hpi, if_true, if_false, Bool.false_eq_true]
              by_cases hfn : String.mk (scanWord [] (c :: rest)).1 = "sin"
                  ∨ String.mk (scanWord [] (c :: rest)).1 = "cos"
                  ∨ String.mk (scanWord [] (c :: rest)).1 = "tan"
              · simp only [hfn, if_true, if_false, Bool.false_eq_true]
                have := ihr _ (t ++ [⟨.FUNCTION, String.mk (scanWord [] (c :: rest)).1⟩]) hl
                simp only [expectsOperand_concat] at this
                exact this
              · simp only [hfn, if_true, if_false, Bool.false_eq_true]
          · simp only [h3, if_true, if_false, Bool.false_eq_true]
            by_cases h4 : c = '^' ∨ c = '*' ∨ c = '/' ∨ c = '+' ∨ c = '-'
            · simp only [h4, if_true, if_false, Bool.false_eq_true]
              by_cases h5 : c = '-' ∧ expectsOperand t = true
              · simp only [h5, if_true, if_false, Bool.false_eq_true]
                have := ihr rest (t ++ [⟨.OPERATOR, "u-"⟩]) (le_refl _)
                simp only [expectsOperand_concat] at this
                simpa [h5.1] using this
              · simp only [h5, if_true, if_false, Bool.false_eq_true]
                have := ihr rest (t ++ [⟨.OPERATOR, String.mk [c]⟩]) (le_refl _)
                simp only [expectsOperand_concat] at this
                exact this
            · simp only [h4, if_true, if_false, Bool.false_eq_true]
              by_cases h6 : c = '('
              · simp only [h6, if_true, if_false, Bool.false_eq_true]
                have := ihr rest (t ++ [⟨.LEFT_PAREN, "("⟩]) (le_refl _)
                simp only [expectsOperand_concat] at this
                exact this
              · simp only [h6, if_true, if_false, Bool.false_eq_true]
                by_cases h7 : c = ')'
                · simp only [h7, if_true, if_false, Bool.false_eq_true]
                  have := ihr rest (t ++ [⟨.RIGHT_PAREN, ")"⟩]) (le_refl _)
                  simp only [expectsOperand_concat] at this
                  exact this
                · simp only [h7, if_true, if_false, Bool.false_eq_true]

/-! ## Unary and binary minus (C5) -/

theorem tokenizeLoop_prefix (fuel : ℕ) (input : List Char) (e : Bool) (t out : List Token)
    (h : tokenizeLoop fuel input e t = .ok out) : t <+: out := by
  induction fuel generalizing input e t with
  | zero =>
    simp only [tokenizeLoop, Except.ok.injEq] at h
    exact h ▸ List.prefix_refl _
  | succ n ih =>
    cases input with
    | nil =>
      simp only [tokenizeLoop, Except.ok.injEq] at h
      exact h ▸ List.prefix_refl _
    | cons c rest =>
      have step : ∀ (input1 : List Char) (e1 : Bool) (tok : Token),
          tokenizeLoop n input1 e1 (t ++ [tok]) = .ok out → t <+: out := by
        intro input1 e1 tok h1
        exact List.IsPrefix.trans (List.prefix_append _ _) (ih _ _ _ h1)
      simp only [tokenizeLoop] at h
      split at h
      · exact ih _ _ _ h
      · split at h
        · split at h
          · cases h
          · exact step _ _ _ h
        · split at h
          · split at h
            · exact step _ _ _ h
            · split at h
              · exact step _ _ _ h
              · cases h
          · split at h
            · split at h
              · exact step _ _ _ h
              · exact step _ _ _ h
            · split at h
              · exact step _ _ _ h
              · split at h
                · exact step _ _ _ h
                · cases h

theorem tokenizeFrom_spaces (ws : List Char) (hws : ∀ c ∈ ws, isspace c = true) (e : Bool)
    (t : List Token) : tokenizeFrom ws e t = .ok t := by
  induction ws with
  | nil => rfl
  | cons c ws ih =>
    rw [tokenizeFrom_cons, if_pos (hws c (List.mem_cons_self _ _))]
    exact ih (fun x hx => hws x (List.mem_cons_of_mem _ hx))

theorem tokenizeFrom_spaces_then (ws rest : List Char) (hws : ∀ c ∈ ws, isspace c = true)
    (e : Bool) (t : List Token) : tokenizeFrom (ws ++ rest) e t = tokenizeFrom rest e t := by
  induction ws with
  | nil => rfl
  | cons c ws ih =>
    rw [List.cons_append, tokenizeFrom_cons, if_pos (hws c (List.mem_cons_self _ _))]
    exact ih (fun x hx => hws x (List.mem_cons_of_mem _ hx))

theorem tokenizeFrom_minus (post : List Char) (ts : List Token) :
    tokenizeFrom ('-' :: post) (expectsOperand ts) ts
      = tokenizeFrom post true
          (ts ++ [operatorToken (if expectsOperand ts = true then "u-" else "-")]) := by
  rw [tokenizeFrom_cons]
  have h1 : isspace '-' = false := by decide
  have h2 : (isdigit '-' || decide ('-' = '.')) = false := by decide
  have h3 : isalpha '-' = false := by decide
  simp only [h1, h2, h3, Bool.false_eq_true, if_false, or_true, if_true, true_and]
  by_cases he : expectsOperand ts = true
  · simp only [he, if_true, operatorToken]
  · simp only [he, if_false, operatorToken, Bool.false_eq_true]

/-- C5: when the text before a `-` tokenizes to `ts`, the `-` becomes the unary-minus token
exactly when `ts` is empty or ends with an OPERATOR, FUNCTION or LEFT_PAREN token, and the
binary-minus token exactly when `ts` ends with a NUMBER (the constant pi included) or
RIGHT_PAREN token; whitespace before the `-` does not change this.  Whenever a text with a
`-` tokenizes, so does the part before the `-`. -/
theorem C5_unary_minus_choice (pre ws post : String) (ts : List Token)
    (h : tokenize pre = .ok ts) (hws : ∀ c ∈ ws.data, isspace c = true) :
    tokenize (pre ++ ws ++ "-")
      = .ok (ts ++ [operatorToken (if expectsOperand ts = true then "u-" else "-")])
    ∧ (∀ out, tokenize (pre ++ ws ++ "-" ++ post) = .ok out →
        ts ++ [operatorToken (if expectsOperand ts = true then "u-" else "-")] <+: out)
    ∧ (expectsOperand ts = true
        ↔ ts = [] ∨ ∃ t, ts.getLast? = some t
            ∧ (t.type = .OPERATOR ∨ t.type = .FUNCTION ∨ t.type = .LEFT_PAREN))
    ∧ (expectsOperand ts = false
        ↔ ∃ t, ts.getLast? = some t ∧ (t.type = .NUMBER ∨ t.type = .RIGHT_PAREN))
    ∧ operatorToken "u-" ≠ operatorToken "-"
    ∧ tokenize "pi - 1"
      = .ok [numberToken "3.141592653589793", operatorToken "-", numberToken "1"]
    ∧ tokenize "2 * -1"
      = .ok [numberToken "2", operatorToken "*", operatorToken "u-", numberToken "1"]
    ∧ (∀ (before after : String) (out : List Token),
        tokenize (before ++ "-" ++ after) = .ok out → ∃ ts1, tokenize before = .ok ts1) := by
  have hd : isNumberChar '-' = false := by decide
  have ha : isalpha '-' = false := by decide
  have hpre : tokenizeFrom pre.data (expectsOperand []) [] = .ok ts := h
  have hsplit : ∀ (rest : List Char),
      tokenizeFrom (pre.data ++ ws.data ++ '-' :: rest) true []
        = tokenizeFrom rest true
            (ts ++ [operatorToken (if expectsOperand ts = true then "u-" else "-")]) := by
    intro rest
    have hsp : isNumberChar ' ' = false ∧ isalpha ' ' = false := by decide
    have h1 : tokenizeFrom (pre.data ++ ws.data) (expectsOperand []) [] = .ok ts := by
      cases hw : ws.data with
      | nil => simpa using hpre
      | cons c ws1 =>
        have hc : isspace c = true := hws c (by rw [hw]; exact List.mem_cons_self _ _)
        have hcd : isNumberChar c = false ∧ isalpha c = false := by
          simp only [isspace, isNumberChar, isdigit, isalpha] at hc ⊢
          have hdot : c ≠ '.' := by
            rintro rfl
            simp at hc
          simp only [Bool.or_eq_true, Bool.and_eq_true, decide_eq_true_eq] at hc
          constructor
          · simp only [Bool.or_eq_false_iff, Bool.and_eq_false_iff, decide_eq_false_iff_not, hdot,
              not_false_eq_true, and_true]
            omega
          · simp only [Bool.or_eq_false_iff, Bool.and_eq_false_iff, decide_eq_false_iff_not]
            omega
        rw [tokenizeFrom_append_delim c ws1 hcd.1 hcd.2 pre.data [], hpre]
        dsimp only
        rw [← hw]
        exact tokenizeFrom_spaces _ hws _ _
    have h2 := tokenizeFrom_append_delim '-' rest hd ha (pre.data ++ ws.data) []
    rw [h1] at h2
    dsimp only at h2
    rw [tokenizeFrom_minus] at h2
    exact h2
  refine ⟨?_, ?_, ?_, ?_, by decide, by decide, by decide, ?_⟩
  rotate_right
  · intro before after out hout
    rw [tokenize_eq] at hout ⊢
    simp only [String.data_append, List.append_assoc, List.singleton_append] at hout
    have hsp := tokenizeFrom_append_delim '-' after.data hd ha before.data []
    have he : expectsOperand [] = true := rfl
    rw [he] at hsp
    rw [hsp] at hout
    cases hb : tokenizeFrom before.data true [] with
    | error err => rw [hb] at hout; cases hout
    | ok ts1 => exact ⟨ts1, rfl⟩
  · have := hsplit []
    rw [tokenizeFrom_nil] at this
    rw [tokenize_eq]
    simpa using this
  · intro out hout
    rw [tokenize_eq] at hout
    have := hsplit post.data
    simp only [String.data_append, List.append_assoc] at hout this
    rw [List.singleton_append, this] at hout
    exact tokenizeLoop_prefix _ _ _ _ _ hout
  · unfold expectsOperand
    cases hl : ts.getLast? with
    | none => simp [List.getLast?_eq_none_iff.mp hl]
    | some t =>
      have hne : ts ≠ [] := by
        rintro rfl
        simp at hl
      cases ht : t.type <;> simp [ht, hne]
  · unfold expectsOperand
    cases hl : ts.getLast? with
    | none => simp
    | some t => cases ht : t.type <;> simp [ht]

/-- Witness of C5 at the text "3", followed by a blank, a `-` and "2". -/
theorem C5_unary_minus_choice_witness :
    tokenize "3" = .ok [numberToken "3"]
    ∧ (∀ c ∈ (" " : String).data, isspace c = true)
    ∧ tokenize ("3" ++ " " ++ "-")
      = .ok ([numberToken "3"]
          ++ [operatorToken (if expectsOperand [numberToken "3"] = true then "u-" else "-")]) :=
  ⟨by decide, by decide,
    (C5_unary_minus_choice "3" " " "2" [numberToken "3"] (by decide) (by decide)).1⟩

/-! ## Number literals -/

theorem scanNumber_run (xs cur rest : List Char) (hxs : ∀ c ∈ xs, isNumberChar c = true)
    (hrest : ∀ c, rest.head? = some c → isNumberChar c = false) :
    ((cur ++ xs).count '.' ≤ 1 → scanNumber cur (xs ++ rest) = .ok (cur ++ xs, rest))
    ∧ (2 ≤ (cur ++ xs).count '.' → cur.count '.' ≤ 1 →
        ∃ err, scanNumber cur (xs ++ rest) = .error err) := by
  induction xs generalizing cur with
  | nil =>
    constructor
    · intro _
      cases rest with
      | nil => simp [scanNumber]
      | cons d rest =>
        have hd : ¬ (isdigit d || decide (d = '.')) = true := by
          have := hrest d rfl
          simpa [isNumberChar] using this
        simp only [List.nil_append, scanNumber, if_neg hd, List.append_nil]
    · intro h1 h2
      simp only [List.append_nil] at h1
      omega
  | cons c xs ih =>
    have hc : (isdigit c || decide (c = '.')) = true := by
      have := hxs c (List.mem_cons_self _ _)
      simpa [isNumberChar] using this
    have ih1 := ih (cur ++ [c]) (fun x hx => hxs x (List.mem_cons_of_mem _ hx))
    have happ : cur ++ [c] ++ xs = cur ++ c :: xs := by simp
    rw [happ] at ih1
    have hmono : (cur ++ [c]).count '.' ≤ (cur ++ c :: xs).count '.' := by
      have := List.count_append '.' (cur ++ [c]) xs
      rw [← happ]
      omega
    simp only [List.cons_append, scanNumber, if_pos hc]
    constructor
    · intro h1
      have hfr : ¬ find (cur ++ [c]) '.' ≠ rfind (cur ++ [c]) '.' := by
        rw [find_ne_rfind]
        omega
      rw [if_neg hfr]
      exact ih1.1 h1
    · intro h1 h2
      by_cases hfr : find (cur ++ [c]) '.' ≠ rfind (cur ++ [c]) '.'
      · rw [if_pos hfr]
        exact ⟨_, rfl⟩
      · rw [if_neg hfr]
        rw [find_ne_rfind] at hfr
        exact ih1.2 h1 (by omega)

theorem isNumberChar_not_space (c : Char) (h : isNumberChar c = true) : isspace c = false := by
  simp only [isNumberChar, isdigit, Bool.or_eq_true, Bool.and_eq_true, decide_eq_true_eq] at h
  simp only [isspace, Bool.or_eq_false_iff, Bool.and_eq_false_iff, decide_eq_false_iff_not]
  rcases h with h | rfl
  · omega
  · decide

theorem tokenizeFrom_literal (x : String) (hx : IsNumberLiteral x = true) (rest : List Char)
    (hrest : ∀ c, rest.head? = some c → isNumberChar c = false) (e : Bool)
    (t : List Token) :
    tokenizeFrom (x.data ++ rest) e t = tokenizeFrom rest false (t ++ [numberToken x]) := by
  simp only [IsNumberLiteral, Bool.and_eq_true, List.all_eq_true, decide_eq_true_eq,
    List.any_eq_true] at hx
  obtain ⟨⟨hall, hcount⟩, d, hd, _⟩ := hx
  cases hdata : x.data with
  | nil => rw [hdata] at hd; simp at hd
  | cons c xs =>
    have hc : isNumberChar c = true := hall c (by rw [hdata]; exact List.mem_cons_self _ _)
    have hc1 : (isdigit c || decide (c = '.')) = true := by simpa [isNumberChar] using hc
    have hscan := (scanNumber_run (c :: xs) [] rest (by rw [← hdata]; exact hall) hrest).1
      (by rw [List.nil_append, ← hdata]; exact hcount)
    rw [List.cons_append] at hscan ⊢
    rw [tokenizeFrom_cons, if_neg (by simp [isNumberChar_not_space c hc]), if_pos hc1, hscan]
    simp only [List.nil_append, numberToken]
    rw [← hdata]

theorem stod_literal (x : String) (hx : IsNumberLiteral x = true) : ∃ v, stod x = some v := by
  simp only [IsNumberLiteral, Bool.and_eq_true, List.all_eq_true, decide_eq_true_eq,
    List.any_eq_true] at hx
  obtain ⟨⟨hall, hcount⟩, d, hd, hdig⟩ := hx
  unfold stod
  simp only
  split_ifs with hnone
  · exfalso
    obtain ⟨h1, h2⟩ := hnone
    cases hdata : x.data with
    | nil => rw [hdata] at hd; simp at hd
    | cons c xs =>
      rw [hdata] at h1 h2 hall hcount hd
      have hc : isdigit c = false := by
        by_contra hcc
        simp only [Bool.not_eq_false] at hcc
        simp [List.takeWhile, hcc] at h1
      have hcdot : c = '.' := by
        have := hall c (List.mem_cons_self _ _)
        simpa [isNumberChar, hc] using this
      subst hcdot
      have hdrop : List.dropWhile isdigit ('.' :: xs) = '.' :: xs := by
        simp [List.dropWhile, hc]
      rw [hdrop] at h2
      simp only at h2
      have hnodot : '.' ∉ xs := by
        intro hmem
        have := List.count_pos_iff.mpr hmem
        rw [List.count_cons_self] at hcount
        omega
      have hxs : ∀ y ∈ xs, isdigit y = true := by
        intro y hy
        have := hall y (List.mem_cons_of_mem _ hy)
        have hne : y ≠ '.' := fun hh => hnodot (hh ▸ hy)
        simpa [isNumberChar, hne] using this
      have hd' : d ∈ xs := by
        rcases List.mem_cons.mp hd with rfl | hmem
        · simp [hc] at hdig
        · exact hmem
      cases xs with
      | nil => simp at hd'
      | cons y ys =>
        simp [List.takeWhile, hxs y (List.mem_cons_self _ _)] at h2
  · exact ⟨_, rfl⟩

/-! ## Single-character steps of the tokenizer -/

theorem tokenizeFrom_blank (rest : List Char) (e : Bool) (t : List Token) :
    tokenizeFrom (' ' :: rest) e t = tokenizeFrom rest e t := by
  rw [tokenizeFrom_cons, if_pos (by decide)]

theorem tokenizeFrom_dash (rest : List Char) (e : Bool) (t : List Token) :
    tokenizeFrom ('-' :: rest) e t
      = tokenizeFrom rest true (t ++ [operatorToken (if e = true then "u-" else "-")]) := by
  rw [tokenizeFrom_cons]
  have h1 : isspace '-' = false := by decide
  have h2 : (isdigit '-' || decide ('-' = '.')) = false := by decide
  have h3 : isalpha '-' = false := by decide
  simp only [h1, h2, h3, Bool.false_eq_true, if_false, or_true, if_true, true_and]
  cases e <;> simp [operatorToken]

theorem tokenizeFrom_slash (rest : List Char) (e : Bool) (t : List Token) :
    tokenizeFrom ('/' :: rest) e t = tokenizeFrom rest true (t ++ [operatorToken "/"]) := by
  rw [tokenizeFrom_cons, if_neg (by decide), if_neg (by decide), if_neg (by decide),
    if_pos (by decide), if_neg (fun h => absurd h.1 (by decide))]
  rfl

theorem tokenizeFrom_plus (rest : List Char) (e : Bool) (t : List Token) :
    tokenizeFrom ('+' :: rest) e t = tokenizeFrom rest true (t ++ [operatorToken "+"]) := by
  rw [tokenizeFrom_cons, if_neg (by decide), if_neg (by decide), if_neg (by decide),
    if_pos (by decide), if_neg (fun h => absurd h.1 (by decide))]
  rfl

theorem tokenizeFrom_leftParen (rest : List Char) (e : Bool) (t : List Token) :
    tokenizeFrom ('(' :: rest) e t = tokenizeFrom rest true (t ++ [leftParen]) := by
  rw [tokenizeFrom_cons, if_neg (by decide), if_neg (by decide), if_neg (by decide),
    if_neg (by decide), if_pos (by decide)]
  rfl

theorem tokenizeFrom_rightParen (rest : List Char) (e : Bool) (t : List Token) :
    tokenizeFrom (')' :: rest) e t = tokenizeFrom rest false (t ++ [rightParen]) := by
  rw [tokenizeFrom_cons, if_neg (by decide), if_neg (by decide), if_neg (by decide),
    if_neg (by decide), if_neg (by decide), if_pos (by decide)]
  rfl

theorem head_not_number (c : Char) (rest : List Char) (hc : isNumberChar c = false) :
    ∀ d, (c :: rest).head? = some d → isNumberChar d = false := by
  intro d hd
  simp only [List.head?_cons, Option.some.injEq] at hd
  exact hd ▸ hc

theorem nil_head_not_number : ∀ d, ([] : List Char).head? = some d → isNumberChar d = false := by
  intro d hd
  simp at hd

theorem evaluateExpression_of_eval_error (c : Settings) (pow : ℚ → ℚ → ℚ) (fileOpens : Bool)
    (s : String) (ts rpn : List Token) (err : Error) (ht : tokenize s = .ok ts)
    (hc : convertToRPN ts = .ok rpn) (he : evaluateRPN c pow rpn = .error err) :
    evaluateExpression c pow fileOpens s = .error err := by
  simp only [evaluateExpression, ht, hc, he]

theorem evalLoop_append (cfg : Settings) (pow : ℚ → ℚ → ℚ) (pre post : List Token)
    (st : List ℚ) :
    evalLoop cfg pow (pre ++ post) st
      = match evalLoop cfg pow pre st with
        | .error err => .error err
        | .ok st1 => evalLoop cfg pow post st1 := by
  induction pre generalizing st with
  | nil => rfl
  | cons t pre ih =>
    simp only [List.cons_append, evalLoop]
    cases evalStep cfg pow st t with
    | error err => rfl
    | ok st1 => exact ih st1

/-! ## Division by zero (C8) -/

theorem tokenize_div_zero (a : String) (ha : IsNumberLiteral a = true) :
    tokenize (a ++ " / 0") = .ok [numberToken a, operatorToken "/", numberToken "0"] := by
  rw [tokenize_eq, String.data_append]
  rw [show (" / 0" : String).data = ' ' :: '/' :: ' ' :: (("0" : String).data ++ []) from rfl]
  rw [tokenizeFrom_literal a ha _ (head_not_number ' ' _ (by decide)), tokenizeFrom_blank,
    tokenizeFrom_slash, tokenizeFrom_blank,
    tokenizeFrom_literal "0" (by decide) [] nil_head_not_number, tokenizeFrom_nil]
  rfl

theorem tokenize_div_difference (a b c : String) (ha : IsNumberLiteral a = true)
    (hb : IsNumberLiteral b = true) (hc : IsNumberLiteral c = true) :
    tokenize (a ++ " / (" ++ b ++ " - " ++ c ++ ")")
      = .ok [numberToken a, operatorToken "/", leftParen, numberToken b, operatorToken "-",
          numberToken c, rightParen] := by
  rw [tokenize_eq]
  simp only [String.data_append, List.append_assoc]
  simp only [List.cons_append, List.nil_append]
  rw [tokenizeFrom_literal a ha _ (head_not_number ' ' _ (by decide)), tokenizeFrom_blank,
    tokenizeFrom_slash, tokenizeFrom_blank, tokenizeFrom_leftParen,
    tokenizeFrom_literal b hb _ (head_not_number ' ' _ (by decide)), tokenizeFrom_blank,
    tokenizeFrom_dash, tokenizeFrom_blank,
    tokenizeFrom_literal c hc _ (head_not_number ')' _ (by decide)), tokenizeFrom_rightParen,
    tokenizeFrom_nil]
  rfl

/-- C8: when evaluateRPN reaches a "/" token with at least two operands on the stack and
the top one equal to 0, it fails with the division-by-zero error, a runtime error distinct
from every invalid-argument error; for number literals a, b, c with value(b) = value(c),
evaluating "a / 0" and "a / (b - c)" fails with that error, as do "1 / 0" and
"1 / (2 - 2)". -/
theorem C8_division_by_zero (cfg : Settings) (pow : ℚ → ℚ → ℚ) (fileOpens : Bool)
    (pre post : List Token) (num1 : ℚ) (rest : List ℚ) (a b c : String) :
    (evalLoop cfg pow pre [] = .ok (0 :: num1 :: rest) →
      evaluateRPN cfg pow (pre ++ operatorToken "/" :: post)
        = .error (.runtime_error "Division by zero"))
    ∧ (∀ what, Error.runtime_error "Division by zero" ≠ Error.invalid_argument what)
    ∧ (IsNumberLiteral a = true →
      evaluateExpression cfg pow fileOpens (a ++ " / 0")
        = .error (.runtime_error "Division by zero"))
    ∧ (IsNumberLiteral a = true → IsNumberLiteral b = true → IsNumberLiteral c = true →
      stod b = stod c →
      evaluateExpression cfg pow fileOpens (a ++ " / (" ++ b ++ " - " ++ c ++ ")")
        = .error (.runtime_error "Division by zero"))
    ∧ evaluateExpression cfg pow fileOpens "1 / 0"
      = .error (.runtime_error "Division by zero")
    ∧ evaluateExpression cfg pow fileOpens "1 / (2 - 2)"
      = .error (.runtime_error "Division by zero") := by
  have general : ∀ (x y z : String), IsNumberLiteral x = true → IsNumberLiteral y = true →
      IsNumberLiteral z = true → stod y = stod z →
      evaluateExpression cfg pow fileOpens (x ++ " / 0")
        = .error (.runtime_error "Division by zero")
      ∧ evaluateExpression cfg pow fileOpens (x ++ " / (" ++ y ++ " - " ++ z ++ ")")
        = .error (.runtime_error "Division by zero") := by
    intro x y z hx hy hz hyz
    obtain ⟨vx, hvx⟩ := stod_literal x hx
    obtain ⟨vy, hvy⟩ := stod_literal y hy
    have hvz : stod z = some vy := by rw [← hyz]; exact hvy
    constructor
    · exact evaluateExpression_of_eval_error cfg pow fileOpens _ _
        [numberToken x, numberToken "0", operatorToken "/"] _ (tokenize_div_zero x hx) rfl
        (by simp [evaluateRPN, evalLoop, evalStep, numberToken, operatorToken, hvx,
              stod_digit_lit])
    · exact evaluateExpression_of_eval_error cfg pow fileOpens _ _
        [numberToken x, numberToken y, numberToken z, operatorToken "-", operatorToken "/"] _
        (tokenize_div_difference x y z hx hy hz) rfl
        (by simp [evaluateRPN, evalLoop, evalStep, numberToken, operatorToken, hvx, hvy, hvz])
  refine ⟨fun hreach => ?_, ?_,
    fun ha => (general a "0" "0" ha (by decide) (by decide) rfl).1,
    fun ha hb hc hbc => (general a b c ha hb hc hbc).2,
    (general "1" "2" "2" (by decide) (by decide) (by decide) rfl).1,
    (general "1" "2" "2" (by decide) (by decide) (by decide) rfl).2⟩
  · simp only [evaluateRPN, evalLoop_append, hreach, evalLoop, evalStep, operatorToken]
    simp
  · intro what h
    cases h

/-- Witness of C8 at the postfix prefix 1 0 and the literals 1, 2, 2. -/
theorem C8_division_by_zero_witness :
    evalLoop defaultSettings powTrunc [numberToken "1", numberToken "0"] [] = .ok [0, 1]
    ∧ IsNumberLiteral "1" = true ∧ IsNumberLiteral "2" = true ∧ stod "2" = stod "2"
    ∧ evaluateRPN defaultSettings powTrunc
        ([numberToken "1", numberToken "0"] ++ operatorToken "/" :: [])
      = .error (.runtime_error "Division by zero")
    ∧ evaluateExpression defaultSettings powTrunc false ("1" ++ " / 0")
      = .error (.runtime_error "Division by zero")
    ∧ evaluateExpression defaultSettings powTrunc false
        ("1" ++ " / (" ++ "2" ++ " - " ++ "2" ++ ")")
      = .error (.runtime_error "Division by zero") :=
  have hreach : evalLoop defaultSettings powTrunc [numberToken "1", numberToken "0"] []
      = .ok [0, 1] := by
    simp [evalLoop, evalStep, numberToken, stod_digit_lit]
  ⟨hreach, by decide, by decide, rfl,
    (C8_division_by_zero defaultSettings powTrunc false [numberToken "1", numberToken "0"] []
      1 [] "1" "2" "2").1 hreach,
    (C8_division_by_zero defaultSettings powTrunc false [numberToken "1", numberToken "0"] []
      1 [] "1" "2" "2").2.2.1 (by decide),
    (C8_division_by_zero defaultSettings powTrunc false [numberToken "1", numberToken "0"] []
      1 [] "1" "2" "2").2.2.2.1 (by decide) (by decide) (by decide) rfl⟩

/-! ## Unary minus against subtraction (C6) -/

theorem tokenize_neg_paren (x : String) (hx : IsNumberLiteral x = true) :
    tokenize ("-(" ++ x ++ ")")
      = .ok [operatorToken "u-", leftParen, numberToken x, rightParen] := by
  rw [tokenize_eq]
  simp only [String.data_append, List.append_assoc]
  simp only [List.cons_append, List.nil_append]
  rw [tokenizeFrom_dash, tokenizeFrom_leftParen,
    tokenizeFrom_literal x hx _ (head_not_number ')' _ (by decide)), tokenizeFrom_rightParen,
    tokenizeFrom_nil]
  rfl

theorem tokenize_zero_minus (x : String) (hx : IsNumberLiteral x = true) :
    tokenize ("0 - " ++ x) = .ok [numberToken "0", operatorToken "-", numberToken x] := by
  rw [tokenize_eq, String.data_append]
  have h0 : tokenizeFrom (("0 - " : String).data ++ x.data) true []
      = tokenizeFrom (' ' :: '-' :: ' ' :: x.data) false ([] ++ [numberToken "0"]) :=
    tokenizeFrom_literal "0" (by decide) (' ' :: '-' :: ' ' :: x.data)
      (head_not_number ' ' _ (by decide)) true []
  have := tokenizeFrom_literal x hx [] nil_head_not_number
  rw [List.append_nil] at this
  rw [h0, tokenizeFrom_blank, tokenizeFrom_dash, tokenizeFrom_blank, this, tokenizeFrom_nil]
  rfl

theorem tokenize_neg_plus (a b : String) (ha : IsNumberLiteral a = true)
    (hb : IsNumberLiteral b = true) :
    tokenize ("-" ++ a ++ " + " ++ b)
      = .ok [operatorToken "u-", numberToken a, operatorToken "+", numberToken b] := by
  rw [tokenize_eq]
  simp only [String.data_append, List.append_assoc]
  simp only [List.cons_append, List.nil_append]
  have := tokenizeFrom_literal b hb [] nil_head_not_number
  rw [List.append_nil] at this
  rw [tokenizeFrom_dash, tokenizeFrom_literal a ha _ (head_not_number ' ' _ (by decide)),
    tokenizeFrom_blank, tokenizeFrom_plus, tokenizeFrom_blank, this, tokenizeFrom_nil]
  rfl

theorem evaluateRPN_neg (cfg : Settings) (pow : ℚ → ℚ → ℚ) (x : String) (vx : ℚ)
    (hvx : stod x = some vx) :
    evaluateRPN cfg pow [numberToken x, operatorToken "u-"] = .ok (-vx) := by
  simp [evaluateRPN, evalLoop, evalStep, numberToken, operatorToken, hvx]

theorem evaluateRPN_zero_minus (cfg : Settings) (pow : ℚ → ℚ → ℚ) (x : String) (vx : ℚ)
    (hvx : stod x = some vx) :
    evaluateRPN cfg pow [numberToken "0", numberToken x, operatorToken "-"] = .ok (-vx) := by
  simp [evaluateRPN, evalLoop, evalStep, numberToken, operatorToken, hvx, stod_digit_lit]

theorem evaluateRPN_neg_plus (cfg : Settings) (pow : ℚ → ℚ → ℚ) (a b : String) (va vb : ℚ)
    (hva : stod a = some va) (hvb : stod b = some vb) :
    evaluateRPN cfg pow [numberToken a, operatorToken "u-", numberToken b, operatorToken "+"]
      = .ok (vb - va) := by
  simp [evaluateRPN, evalLoop, evalStep, numberToken, operatorToken, hva, hvb]
  ring

theorem stod_tiny :
    stod "0.00000000000000000000000000001" = some (1 / 10 ^ 29) := by
  simp [stod, isdigit, digitsValue]

/-- C6 as stated fails: with the default settings the literal
0.00000000000000000000000000001 has the value 1e-29, and "-(x)" evaluates to 0, which is
not the negation of that value (the result is below the error threshold and is snapped to
zero). -/
theorem C6_counterexample_tiny_literal :
    IsNumberLiteral "0.00000000000000000000000000001" = true
    ∧ stod "0.00000000000000000000000000001" = some (1 / 10 ^ 29)
    ∧ evaluateExpression defaultSettings powTrunc false
        ("-(" ++ "0.00000000000000000000000000001" ++ ")") = .ok 0
    ∧ (Except.ok 0 : Except Error ℚ) ≠ .ok (-(1 / 10 ^ 29)) := by
  refine ⟨by decide, stod_tiny, ?_, ?_⟩
  · rw [evaluateExpression_of_stages defaultSettings powTrunc false _ _
      [numberToken "0.00000000000000000000000000001", operatorToken "u-"] _
      (tokenize_neg_paren _ (by decide)) rfl
      (evaluateRPN_neg defaultSettings powTrunc _ _ stod_tiny) (Or.inl rfl)]
    rw [if_pos]
    rw [abs_neg, abs_of_pos (by norm_num)]
    norm_num [defaultSettings]
  · intro h
    simp only [Except.ok.injEq] at h
    norm_num at h

theorem inDoubleRange_nonneg (v : ℚ) (h : InDoubleRange v) : 0 ≤ v ∧ v ≤ maxDouble := by
  have hmin : (0 : ℚ) < minNormalDouble := by norm_num [minNormalDouble]
  have hmax : (0 : ℚ) ≤ maxDouble := by norm_num [maxDouble]
  rcases h with h | ⟨h1, h2⟩
  · rw [h]
    exact ⟨le_refl _, hmax⟩
  · exact ⟨le_trans hmin.le h1, h2⟩

/-- C6 (amended): for number literals x, a, b whose values are in the range in which
std::stod converts (0, or between the smallest positive normal and the largest finite
double), evaluating "-(x)" and "0 - x" succeeds (when the history write does not fail) and
both return the same value, the negation of x replaced by 0 when its magnitude is below the
error threshold; the postfix evaluation itself returns the negation of x for both, a value
whose magnitude is in that range again.  "-a + b" returns value(b) - value(a), snapped
likewise, a value of magnitude at most the largest finite double.  With the default
settings "-3 + 5" and "5 - 3" yield 2, "-(3)" and "0 - 3" yield -3. -/
theorem C6_negation_up_to_snap (cfg : Settings) (pow : ℚ → ℚ → ℚ) (fileOpens : Bool)
    (x a b : String) (vx va vb : ℚ) (hx : IsNumberLiteral x = true)
    (ha : IsNumberLiteral a = true) (hb : IsNumberLiteral b = true)
    (hvx : stod x = some vx) (hva : stod a = some va) (hvb : stod b = some vb)
    (hrx : InDoubleRange vx) (hra : InDoubleRange va) (hrb : InDoubleRange vb)
    (hhist : cfg.settingSaveHistory = false ∨ fileOpens = true) :
    tokenize ("-(" ++ x ++ ")")
        = .ok [operatorToken "u-", leftParen, numberToken x, rightParen]
    ∧ convertToRPN [operatorToken "u-", leftParen, numberToken x, rightParen]
        = .ok [numberToken x, operatorToken "u-"]
    ∧ evaluateRPN cfg pow [numberToken x, operatorToken "u-"] = .ok (-vx)
    ∧ tokenize ("0 - " ++ x) = .ok [numberToken "0", operatorToken "-", numberToken x]
    ∧ convertToRPN [numberToken "0", operatorToken "-", numberToken x]
        = .ok [numberToken "0", numberToken x, operatorToken "-"]
    ∧ evaluateRPN cfg pow [numberToken "0", numberToken x, operatorToken "-"] = .ok (-vx)
    ∧ InDoubleRange |(-vx)|
    ∧ evaluateExpression cfg pow fileOpens ("-(" ++ x ++ ")") = .ok (snap cfg (-vx))
    ∧ evaluateExpression cfg pow fileOpens ("0 - " ++ x) = .ok (snap cfg (-vx))
    ∧ evaluateExpression cfg pow fileOpens ("-" ++ a ++ " + " ++ b)
        = .ok (snap cfg (vb - va))
    ∧ |vb - va| ≤ maxDouble
    ∧ evaluateExpression defaultSettings pow fileOpens "-3 + 5" = .ok 2
    ∧ evaluateExpression defaultSettings pow fileOpens "5 - 3" = .ok 2
    ∧ evaluateExpression defaultSettings pow fileOpens "-(3)" = .ok (-3)
    ∧ evaluateExpression defaultSettings pow fileOpens "0 - 3" = .ok (-3) := by
  obtain ⟨_, _, _, s3, _, s5, _⟩ := stod_digit_lit
  obtain ⟨hx0, _⟩ := inDoubleRange_nonneg vx hrx
  obtain ⟨ha0, ha1⟩ := inDoubleRange_nonneg va hra
  obtain ⟨hb0, hb1⟩ := inDoubleRange_nonneg vb hrb
  refine ⟨tokenize_neg_paren x hx, rfl,
    evaluateRPN_neg cfg pow x vx hvx, tokenize_zero_minus x hx, rfl,
    evaluateRPN_zero_minus cfg pow x vx hvx, ?_, ?_, ?_, ?_, ?_, ?_, ?_, ?_, ?_⟩
  · rw [abs_neg, abs_of_nonneg hx0]
    exact hrx
  · exact evaluateExpression_of_stages cfg pow fileOpens _ _ _ _ (tokenize_neg_paren x hx) rfl
      (evaluateRPN_neg cfg pow x vx hvx) hhist
  · exact evaluateExpression_of_stages cfg pow fileOpens _ _ _ _ (tokenize_zero_minus x hx) rfl
      (evaluateRPN_zero_minus cfg pow x vx hvx) hhist
  · exact evaluateExpression_of_stages cfg pow fileOpens _ _ _ _ (tokenize_neg_plus a b ha hb)
      rfl (evaluateRPN_neg_plus cfg pow a b va vb hva hvb) hhist
  · rw [abs_le]
    constructor <;> linarith
  · rw [evaluateExpression_of_stages defaultSettings pow fileOpens "-3 + 5" _ _ _
      (tokenize_neg_plus "3" "5" (by decide) (by decide)) rfl
      (evaluateRPN_neg_plus defaultSettings pow "3" "5" 3 5 s3 s5) (Or.inl rfl)]
    norm_num [defaultSettings]
  · rw [evaluateExpression_of_stages defaultSettings pow fileOpens "5 - 3"
      [numberToken "5", operatorToken "-", numberToken "3"]
      [numberToken "5", numberToken "3", operatorToken "-"] 2 (by decide) (by decide)
      (by simp [evaluateRPN, evalLoop, evalStep, numberToken, operatorToken, s3, s5]
          norm_num)
      (Or.inl rfl)]
    norm_num [defaultSettings]
  · rw [evaluateExpression_of_stages defaultSettings pow fileOpens "-(3)" _ _ _
      (tokenize_neg_paren "3" (by decide)) rfl
      (evaluateRPN_neg defaultSettings pow "3" 3 s3) (Or.inl rfl)]
    norm_num [defaultSettings]
  · rw [evaluateExpression_of_stages defaultSettings pow fileOpens "0 - 3" _ _ _
      (tokenize_zero_minus "3" (by decide)) rfl
      (evaluateRPN_zero_minus defaultSettings pow "3" 3 s3) (Or.inl rfl)]
    norm_num [defaultSettings]

theorem inDoubleRange_small (v : ℚ) (h1 : 1 ≤ v) (h2 : v ≤ 10) : InDoubleRange v := by
  refine Or.inr ⟨le_trans ?_ h1, le_trans h2 ?_⟩
  · norm_num [minNormalDouble]
  · norm_num [maxDouble]

/-- Witness of C6 (amended) at x = 3, a = 3, b = 5 with the default settings. -/
theorem C6_negation_up_to_snap_witness :
    IsNumberLiteral "3" = true ∧ IsNumberLiteral "5" = true
    ∧ stod "3" = some 3 ∧ stod "5" = some 5 ∧ InDoubleRange 3 ∧ InDoubleRange 5
    ∧ (defaultSettings.settingSaveHistory = false ∨ false = true)
    ∧ evaluateExpression defaultSettings powTrunc false ("-(" ++ "3" ++ ")")
        = .ok (snap defaultSettings (-3))
    ∧ evaluateExpression defaultSettings powTrunc false ("0 - " ++ "3")
        = .ok (snap defaultSettings (-3)) :=
  have h3 : InDoubleRange 3 := inDoubleRange_small 3 (by norm_num) (by norm_num)
  have h5 : InDoubleRange 5 := inDoubleRange_small 5 (by norm_num) (by norm_num)
  have h := C6_negation_up_to_snap defaultSettings powTrunc false "3" "3" "5" 3 3 5
    (by decide) (by decide) (by decide) stod_digit_lit.2.2.2.1 stod_digit_lit.2.2.2.1
    stod_digit_lit.2.2.2.2.2.1 h3 h3 h5 (Or.inl rfl)
  ⟨by decide, by decide, stod_digit_lit.2.2.2.1, stod_digit_lit.2.2.2.2.2.1, h3, h5,
    Or.inl rfl, h.2.2.2.2.2.2.2.1, h.2.2.2.2.2.2.2.2.1⟩

/-! ## Which letter-free inputs are rejected (C10) -/

theorem tokenizeFrom_nonNumber (c : Char) (rest : List Char) (e : Bool) (t : List Token)
    (hn : isNumberChar c = false) (ha : isalpha c = false) :
    (allowedChar c = true → ∃ e1 t1, tokenizeFrom (c :: rest) e t = tokenizeFrom rest e1 t1)
    ∧ (allowedChar c = false → ∃ err, tokenizeFrom (c :: rest) e t = .error err) := by
  have hn1 : ¬ (isdigit c || decide (c = '.')) = true := by simpa [isNumberChar] using hn
  have hdig : isdigit c = false ∧ c ≠ '.' := by
    simpa [isNumberChar] using hn
  rw [tokenizeFrom_cons]
  by_cases hs : isspace c = true
  · simp only [hs, if_true]
    exact ⟨fun _ => ⟨_, _, rfl⟩, fun h => by simp [allowedChar, hs] at h⟩
  · simp only [hs, hn1, ha, if_false, Bool.false_eq_true]
    by_cases hop : c = '^' ∨ c = '*' ∨ c = '/' ∨ c = '+' ∨ c = '-'
    · simp only [hop, if_true]
      refine ⟨fun _ => ?_, fun h => ?_⟩
      · split <;> exact ⟨_, _, rfl⟩
      · simp only [allowedChar, Bool.or_eq_false_iff, decide_eq_false_iff_not, List.mem_cons,
          List.mem_singleton, List.not_mem_nil, or_false] at h
        exact absurd hop h.1.1.2
    · simp only [hop, if_false]
      by_cases hl : c = '('
      · simp only [hl, if_true]
        exact ⟨fun _ => ⟨_, _, rfl⟩, fun h => by simp [allowedChar, hl] at h⟩
      · simp only [hl, if_false]
        by_cases hr : c = ')'
        · simp only [hr, if_true]
          exact ⟨fun _ => ⟨_, _, rfl⟩, fun h => by simp [allowedChar, hr] at h⟩
        · simp only [hr, if_false]
          refine ⟨fun h => ?_, fun _ => ⟨_, rfl⟩⟩
          exfalso
          simp only [allowedChar, Bool.or_eq_true, decide_eq_true_eq, List.mem_cons,
            List.mem_singleton, List.not_mem_nil, or_false] at h
          simp only [Bool.not_eq_true] at hs
          rcases h with ((((h | h) | h) | h) | h) | h
          · simp [hs] at h
          · simp [hdig.1] at h
          · exact hdig.2 h
          · exact hop h
          · exact hl h
          · exact hr h

theorem tokenizeFrom_numberRun (c : Char) (rest : List Char) (e : Bool) (t : List Token)
    (hn : isNumberChar c = true) :
    (((c :: rest).takeWhile isNumberChar).count '.' ≤ 1 →
      ∃ t1, tokenizeFrom (c :: rest) e t
        = tokenizeFrom ((c :: rest).dropWhile isNumberChar) false t1)
    ∧ (2 ≤ ((c :: rest).takeWhile isNumberChar).count '.' →
      ∃ err, tokenizeFrom (c :: rest) e t = .error err) := by
  have hn1 : (isdigit c || decide (c = '.')) = true := by simpa [isNumberChar] using hn
  have hsplit := List.takeWhile_append_dropWhile isNumberChar (c :: rest)
  have hrest : ∀ d, ((c :: rest).dropWhile isNumberChar).head? = some d →
      isNumberChar d = false := by
    intro d hd
    have := List.head?_dropWhile_not isNumberChar (c :: rest)
    rw [hd] at this
    simpa using this
  have hrun := scanNumber_run ((c :: rest).takeWhile isNumberChar) []
    ((c :: rest).dropWhile isNumberChar) (fun x hx => List.mem_takeWhile_imp hx) hrest
  rw [hsplit, List.nil_append] at hrun
  rw [tokenizeFrom_cons, if_neg (by simp [isNumberChar_not_space c hn]), if_pos hn1]
  constructor
  · intro hle
    rw [hrun.1 hle]
    exact ⟨_, rfl⟩
  · intro hge
    obtain ⟨err, herr⟩ := hrun.2 hge (by simp)
    rw [herr]
    exact ⟨_, rfl⟩

theorem isNumberChar_allowed (c : Char) (h : isNumberChar c = true) : allowedChar c = true := by
  simp only [isNumberChar, Bool.or_eq_true, decide_eq_true_eq] at h
  simp only [allowedChar, Bool.or_eq_true, decide_eq_true_eq]
  rcases h with h | h
  · exact Or.inl (Or.inl (Or.inl (Or.inl (Or.inr h))))
  · exact Or.inl (Or.inl (Or.inl (Or.inr h)))

theorem lexicallyBad_nil : ¬ LexicallyBad [] := by
  rintro (⟨c, hc, _⟩ | ⟨pre, run, post, h, hmax, _⟩)
  · simp at hc
  · have : run = [] := by
      have := congrArg List.length h
      simp only [List.length_nil, List.length_append] at this
      exact List.length_eq_zero.mp (by omega)
    exact hmax.1 this

theorem lexicallyBad_cons (c : Char) (rest : List Char) (hn : isNumberChar c = false)
    (hallowed : allowedChar c = true) : LexicallyBad (c :: rest) ↔ LexicallyBad rest := by
  constructor
  · rintro (⟨x, hx, hbad⟩ | ⟨pre, run, post, h, hmax, hcount⟩)
    · left
      rcases List.mem_cons.mp hx with rfl | hx
      · rw [hallowed] at hbad; cases hbad
      · exact ⟨x, hx, hbad⟩
    · right
      obtain ⟨hne, hall, hpre, hpost⟩ := hmax
      cases pre with
      | nil =>
        cases run with
        | nil => exact absurd rfl hne
        | cons y run =>
          simp only [List.nil_append, List.cons_append, List.cons.injEq] at h
          have := hall y (List.mem_cons_self _ _)
          rw [← h.1, hn] at this
          cases this
      | cons y pre =>
        simp only [List.cons_append, List.cons.injEq] at h
        refine ⟨pre, run, post, h.2, ⟨hne, hall, ?_, hpost⟩, hcount⟩
        intro z hz
        apply hpre z
        cases pre with
        | nil => simp at hz
        | cons w pre => simpa [List.getLast?_cons_cons] using hz
  · rintro (⟨x, hx, hbad⟩ | ⟨pre, run, post, h, hmax, hcount⟩)
    · exact Or.inl ⟨x, List.mem_cons_of_mem _ hx, hbad⟩
    · right
      obtain ⟨hne, hall, hpre, hpost⟩ := hmax
      refine ⟨c :: pre, run, post, by simp [h], ⟨hne, hall, ?_, hpost⟩, hcount⟩
      intro z hz
      cases pre with
      | nil =>
        simp only [List.getLast?_singleton, Option.mem_def, Option.some.injEq] at hz
        exact hz ▸ hn
      | cons w pre =>
        apply hpre z
        simpa [List.getLast?_cons_cons] using hz

theorem takeWhile_maximal_run (run post : List Char)
    (hall : ∀ c ∈ run, isNumberChar c = true)
    (hpost : ∀ c ∈ post.head?, isNumberChar c = false) :
    (run ++ post).takeWhile isNumberChar = run := by
  rw [List.takeWhile_append_of_pos hall]
  cases post with
  | nil => simp
  | cons d post =>
    have := hpost d (by simp)
    simp [List.takeWhile_cons, this]

theorem lexicallyBad_dropWhile (input : List Char)
    (hcount : (input.takeWhile isNumberChar).count '.' ≤ 1) :
    LexicallyBad input ↔ LexicallyBad (input.dropWhile isNumberChar) := by
  have hsplit := List.takeWhile_append_dropWhile isNumberChar input
  have hhead : ∀ d ∈ (input.dropWhile isNumberChar).head?, isNumberChar d = false := by
    intro d hd
    have := List.head?_dropWhile_not isNumberChar input
    rw [Option.mem_def.mp hd] at this
    simpa using this
  constructor
  · rintro (⟨x, hx, hbad⟩ | ⟨pre, run, post, h, hmax, hc⟩)
    · left
      rw [← hsplit] at hx
      rcases List.mem_append.mp hx with hx | hx
      · have := isNumberChar_allowed x (List.mem_takeWhile_imp hx)
        rw [this] at hbad; cases hbad
      · exact ⟨x, hx, hbad⟩
    · right
      obtain ⟨hne, hall, hpre, hpost⟩ := hmax
      cases hlast : pre.getLast? with
      | none =>
        have hpre0 : pre = [] := List.getLast?_eq_none_iff.mp hlast
        subst hpre0
        rw [List.nil_append] at h
        have := takeWhile_maximal_run run post hall hpost
        rw [← h] at this
        rw [this] at hcount
        omega
      | some y =>
        have hy : isNumberChar y = false := hpre y (Option.mem_def.mpr hlast)
        have hymem : y ∈ pre := List.mem_of_mem_getLast? (Option.mem_def.mpr hlast)
        have hdne : pre.dropWhile isNumberChar ≠ [] := by
          intro hnil
          have := (List.dropWhile_eq_nil_iff.mp hnil) y hymem
          rw [hy] at this; cases this
        have hdrop : input.dropWhile isNumberChar
            = pre.dropWhile isNumberChar ++ (run ++ post) := by
          rw [h, List.append_assoc, List.dropWhile_append]
          simp [hdne]
        refine ⟨pre.dropWhile isNumberChar, run, post, by rw [hdrop, List.append_assoc],
          ⟨hne, hall, ?_, hpost⟩, hc⟩
        intro z hz
        apply hpre z
        have hsuf : pre.dropWhile isNumberChar <:+ pre := List.dropWhile_suffix _
        obtain ⟨front, hfront⟩ := hsuf
        rw [← hfront, List.getLast?_append_of_ne_nil _ hdne]
        exact hz
  · rintro (⟨x, hx, hbad⟩ | ⟨pre, run, post, h, hmax, hc⟩)
    · exact Or.inl ⟨x, (List.dropWhile_sublist _).subset hx, hbad⟩
    · right
      obtain ⟨hne, hall, hpre, hpost⟩ := hmax
      have hpne : pre ≠ [] := by
        rintro rfl
        cases run with
        | nil => exact hne rfl
        | cons y run =>
          have h1 := hhead y (by rw [h]; simp)
          have h2 := hall y (List.mem_cons_self _ _)
          rw [h1] at h2; cases h2
      refine ⟨input.takeWhile isNumberChar ++ pre, run, post, ?_, ⟨hne, hall, ?_, hpost⟩, hc⟩
      · rw [List.append_assoc, List.append_assoc, ← List.append_assoc pre, ← h, hsplit]
      · intro z hz
        apply hpre z
        rw [List.getLast?_append_of_ne_nil _ hpne] at hz
        exact hz

theorem tokenizeFrom_error_iff (n : ℕ) (input : List Char) (hlen : input.length ≤ n)
    (hletters : ∀ c ∈ input, isalpha c = false) (e : Bool) (t : List Token) :
    (∃ err, tokenizeFrom input e t = .error err) ↔ LexicallyBad input := by
  induction n generalizing input e t with
  | zero =>
    have : input = [] := List.length_eq_zero.mp (Nat.le_zero.mp hlen)
    subst this
    simp [tokenizeFrom_nil, lexicallyBad_nil]
  | succ n ih =>
    cases input with
    | nil => simp [tokenizeFrom_nil, lexicallyBad_nil]
    | cons c rest =>
      simp only [List.length_cons, Nat.add_le_add_iff_right] at hlen
      have hrestLetters : ∀ x ∈ rest, isalpha x = false :=
        fun x hx => hletters x (List.mem_cons_of_mem _ hx)
      by_cases hn : isNumberChar c = true
      · have hrun := tokenizeFrom_numberRun c rest e t hn
        by_cases hcount : ((c :: rest).takeWhile isNumberChar).count '.' ≤ 1
        · obtain ⟨t1, ht1⟩ := hrun.1 hcount
          rw [ht1, lexicallyBad_dropWhile _ hcount]
          have hdl : ((c :: rest).dropWhile isNumberChar).length ≤ n := by
            simp only [List.dropWhile_cons, hn, if_true]
            exact le_trans (List.dropWhile_sublist _).length_le hlen
          exact ih _ hdl
            (fun x hx => hletters x ((List.dropWhile_sublist _).subset hx)) false t1
        · have hge : 2 ≤ ((c :: rest).takeWhile isNumberChar).count '.' := by omega
          have hbad : LexicallyBad (c :: rest) := by
            right
            refine ⟨[], (c :: rest).takeWhile isNumberChar,
              (c :: rest).dropWhile isNumberChar, ?_, ⟨?_, ?_, ?_, ?_⟩, hge⟩
            · simp only [List.nil_append]
              exact (List.takeWhile_append_dropWhile _ _).symm
            · simp [List.takeWhile_cons, hn]
            · exact fun x hx => List.mem_takeWhile_imp hx
            · intro x hx
              simp at hx
            · intro d hd
              have := List.head?_dropWhile_not isNumberChar (c :: rest)
              rw [Option.mem_def.mp hd] at this
              simpa using this
          exact ⟨fun _ => hbad, fun _ => hrun.2 hge⟩
      · simp only [Bool.not_eq_true] at hn
        have hstep := tokenizeFrom_nonNumber c rest e t hn
          (hletters c (List.mem_cons_self _ _))
        by_cases hal : allowedChar c = true
        · obtain ⟨e1, t1, h1⟩ := hstep.1 hal
          rw [h1, lexicallyBad_cons c rest hn hal]
          exact ih rest hlen hrestLetters e1 t1
        · simp only [Bool.not_eq_true] at hal
          exact ⟨fun _ => Or.inl ⟨c, List.mem_cons_self _ _, hal⟩, fun _ => hstep.2 hal⟩

/-- C10: on an input without letters, tokenize fails exactly when the input has a character
that is not whitespace, a digit, the decimal point, one of ^ * / + -, or a parenthesis, or a
maximal run of digits and decimal points with two or more decimal points; on every other
such input it returns a token sequence. -/
theorem C10_letter_free_rejection (s : String) (hletters : ∀ c ∈ s.data, isalpha c = false) :
    ((∃ err, tokenize s = .error err)
      ↔ (∃ c ∈ s.data, allowedChar c = false)
        ∨ ∃ pre run post, s.data = pre ++ run ++ post ∧ IsMaximalNumberRun pre run post
            ∧ 2 ≤ run.count '.')
    ∧ ((∃ ts, tokenize s = .ok ts)
      ↔ ¬ ((∃ c ∈ s.data, allowedChar c = false)
        ∨ ∃ pre run post, s.data = pre ++ run ++ post ∧ IsMaximalNumberRun pre run post
            ∧ 2 ≤ run.count '.')) := by
  have key := tokenizeFrom_error_iff s.data.length s.data (le_refl _) hletters true []
  rw [← tokenize_eq] at key
  unfold LexicallyBad at key
  refine ⟨key, ?_⟩
  rw [← key]
  cases tokenize s with
  | error err => simp
  | ok ts => simp

/-- Witness of C10 at the text "1.5 + (2 * 3)". -/
theorem C10_letter_free_rejection_witness :
    (∀ c ∈ ("1.5 + (2 * 3)" : String).data, isalpha c = false)
    ∧ ((∃ ts, tokenize "1.5 + (2 * 3)" = .ok ts)
      ↔ ¬ ((∃ c ∈ ("1.5 + (2 * 3)" : String).data, allowedChar c = false)
        ∨ ∃ pre run post, ("1.5 + (2 * 3)" : String).data = pre ++ run ++ post
            ∧ IsMaximalNumberRun pre run post ∧ 2 ≤ run.count '.')) :=
  ⟨by decide, (C10_letter_free_rejection "1.5 + (2 * 3)" (by decide)).2⟩

/-! ## The power function on a positive base -/

theorem powNum_exact : PowExactOnNat powNum := by
  intro x n
  simp [powNum]

theorem powNum_laws : PowPositiveBaseLaws powNum := by
  intro x y hx
  refine ⟨zpow_pos hx _, ?_, ?_⟩
  · simp only [powNum, Rat.neg_num, zpow_neg]
  · intro h1 hy
    exact one_lt_zpow₀ h1 (Rat.num_pos.mpr hy)

/-! ## Closed forms of the solver (C18, C19, C20) -/

/-- C18: for the rate 0, calculateFV returns -(pv + pmt*n), so FV(100, 10, 0, 5) = -150; for
every other rate it returns -pv*(1+i)^n - pmt*(((1+i)^n - 1)/i), replaced by 0 when its
magnitude is below the error threshold. -/
theorem C18_future_value (c : Settings) (pow : ℚ → ℚ → ℚ) (pv pmt i n : ℚ) :
    calculateFV c pow pv pmt 0 n = -(pv + pmt * n)
    ∧ calculateFV c pow 100 10 0 5 = -150
    ∧ (i ≠ 0 →
      calculateFV c pow pv pmt i n
        = snap c (-pv * pow (1 + i) n - pmt * ((pow (1 + i) n - 1) / i))) := by
  refine ⟨by simp [calculateFV], by norm_num [calculateFV], fun hi => ?_⟩
  simp only [calculateFV, if_neg hi, snap]

/-- Witness of C18 at pv = 100, pmt = 10, i = 1/10, n = 2 with the default settings. -/
theorem C18_future_value_witness :
    (1 / 10 : ℚ) ≠ 0
    ∧ calculateFV defaultSettings powNum 100 10 (1 / 10) 2
      = snap defaultSettings
          (-100 * powNum (1 + 1 / 10) 2 - 10 * ((powNum (1 + 1 / 10) 2 - 1) / (1 / 10))) :=
  ⟨by norm_num, (C18_future_value defaultSettings powNum 100 10 (1 / 10) 2).2.2 (by norm_num)⟩

theorem pv_of_fv_algebra (pv pmt i p q : ℚ) (hi : i ≠ 0) (hp : p ≠ 0) (hq : q = p⁻¹) :
    -((-pv * p - pmt * ((p - 1) / i)) / p) - pmt * ((1 - q) / i) = pv := by
  subst hq
  field_simp
  ring

theorem fv_of_pv_algebra (fv pmt i p q : ℚ) (hi : i ≠ 0) (hp : p ≠ 0) (hq : q = p⁻¹) :
    -(-(fv / p) - pmt * ((1 - q) / i)) * p - pmt * ((p - 1) / i) = fv := by
  subst hq
  field_simp
  ring

/-- C19: calculatePV undoes calculateFV and calculateFV undoes calculatePV, for every rate
above -1: always for the rate 0, and for another rate whenever neither of the two results
is replaced by 0 by the threshold (the power function obeying its laws on a positive
base). -/
theorem C19_present_value_inverts (c : Settings) (pow : ℚ → ℚ → ℚ) (x pmt i n : ℚ)
    (hi : -1 < i) (hpow : PowPositiveBaseLaws pow) :
    calculatePV c pow (calculateFV c pow x pmt 0 n) pmt 0 n = x
    ∧ calculateFV c pow (calculatePV c pow x pmt 0 n) pmt 0 n = x
    ∧ (i ≠ 0 →
      ¬ |(-x * pow (1 + i) n - pmt * ((pow (1 + i) n - 1) / i))| < c.settingErrorThreshold →
      ¬ |(-(calculateFV c pow x pmt i n / pow (1 + i) n)
          - pmt * ((1 - pow (1 + i) (-n)) / i))| < c.settingErrorThreshold →
      calculatePV c pow (calculateFV c pow x pmt i n) pmt i n = x)
    ∧ (i ≠ 0 →
      ¬ |(-(x / pow (1 + i) n) - pmt * ((1 - pow (1 + i) (-n)) / i))|
          < c.settingErrorThreshold →
      ¬ |(-(calculatePV c pow x pmt i n) * pow (1 + i) n
          - pmt * ((pow (1 + i) n - 1) / i))| < c.settingErrorThreshold →
      calculateFV c pow (calculatePV c pow x pmt i n) pmt i n = x) := by
  obtain ⟨hpos, hrec, _⟩ := hpow (1 + i) n (by linarith)
  refine ⟨by simp [calculatePV, calculateFV], by simp [calculatePV, calculateFV], ?_, ?_⟩
  · intro hi0 h1 h2
    have hfv : calculateFV c pow x pmt i n
        = -x * pow (1 + i) n - pmt * ((pow (1 + i) n - 1) / i) := by
      simp only [calculateFV, if_neg hi0, if_neg h1]
    simp only [calculatePV, if_neg hi0, if_neg h2]
    rw [hfv]
    exact pv_of_fv_algebra x pmt i _ _ hi0 hpos.ne' hrec
  · intro hi0 h1 h2
    have hpv : calculatePV c pow x pmt i n
        = -(x / pow (1 + i) n) - pmt * ((1 - pow (1 + i) (-n)) / i) := by
      simp only [calculatePV, if_neg hi0, if_neg h1]
    simp only [calculateFV, if_neg hi0, if_neg h2]
    rw [hpv]
    exact fv_of_pv_algebra x pmt i _ _ hi0 hpos.ne' hrec

theorem fv_sample :
    calculateFV defaultSettings powNum 100 10 (1 / 10) 2 = -142 := by
  norm_num [calculateFV, powNum, defaultSettings]

/-- Witness of C19 at pv = 100, pmt = 10, i = 1/10, n = 2 with the default settings. -/
theorem C19_present_value_inverts_witness :
    (-1 : ℚ) < 1 / 10 ∧ PowPositiveBaseLaws powNum ∧ (1 / 10 : ℚ) ≠ 0
    ∧ ¬ |(-100 * powNum (1 + 1 / 10) 2 - 10 * ((powNum (1 + 1 / 10) 2 - 1) / (1 / 10)))|
        < defaultSettings.settingErrorThreshold
    ∧ ¬ |(-(calculateFV defaultSettings powNum 100 10 (1 / 10) 2 / powNum (1 + 1 / 10) 2)
          - 10 * ((1 - powNum (1 + 1 / 10) (-2)) / (1 / 10)))|
        < defaultSettings.settingErrorThreshold
    ∧ calculatePV defaultSettings powNum
        (calculateFV defaultSettings powNum 100 10 (1 / 10) 2) 10 (1 / 10) 2 = 100 :=
  have h1 : ¬ |(-100 * powNum (1 + 1 / 10) 2
      - 10 * ((powNum (1 + 1 / 10) 2 - 1) / (1 / 10)))|
      < defaultSettings.settingErrorThreshold := by
    norm_num [powNum, defaultSettings]
  have h2 : ¬ |(-(calculateFV defaultSettings powNum 100 10 (1 / 10) 2
        / powNum (1 + 1 / 10) 2)
      - 10 * ((1 - powNum (1 + 1 / 10) (-2)) / (1 / 10)))|
      < defaultSettings.settingErrorThreshold := by
    rw [fv_sample]
    norm_num [powNum, defaultSettings]
  ⟨by norm_num, powNum_laws, by norm_num, h1, h2,
    (C19_present_value_inverts defaultSettings powNum 100 10 (1 / 10) 2 (by norm_num)
      powNum_laws).2.2.1 (by norm_num) h1 h2⟩

theorem calculatePMTRounded_thrown (fl : ℚ → ℚ) (c : Settings) (pow : ℚ → ℚ → ℚ)
    (pv fv i n : ℚ) :
    (∃ err, calculatePMTRounded fl c pow pv fv i n = .thrown err) ↔ (i ≤ 0 ∨ n ≤ 0) := by
  by_cases h : i ≤ 0 ∨ n ≤ 0
  · simp [calculatePMTRounded, h]
  · constructor
    · rintro ⟨err, he⟩
      exfalso
      unfold calculatePMTRounded at he
      rw [if_neg h] at he
      simp only at he
      split at he
      · cases he
      · split at he <;> cases he
    · intro hh
      exact absurd hh h

theorem calculatePMTRounded_exact (c : Settings) (pow : ℚ → ℚ → ℚ) (pv fv i n : ℚ)
    (hi : 0 < i) (hn : 0 < n) (hpow : PowPositiveBaseLaws pow) :
    calculatePMTRounded (fun x => x) c pow pv fv i n
      = .returned (snap c ((-pv * i - (fv * i) / pow (1 + i) n) / (1 - pow (1 + i) (-n)))) := by
  have h : ¬ (i ≤ 0 ∨ n ≤ 0) := by rintro (h | h) <;> linarith
  obtain ⟨hpos, hrec, hgt⟩ := hpow (1 + i) n (by linarith)
  have h1 : 1 < pow (1 + i) n := hgt (by linarith) hn
  have hd : 1 - pow (1 + i) (-n) ≠ 0 := by
    rw [hrec]
    have : (pow (1 + i) n)⁻¹ < 1 := inv_lt_one_of_one_lt₀ h1
    linarith
  have hz : ¬ (pow (1 + i) n = 0 ∨ 1 - pow (1 + i) (-n) = 0) := by
    rintro (hh | hh)
    · exact hpos.ne' hh
    · exact hd hh
  simp only [calculatePMTRounded, if_neg h, if_neg hz, snap]
  split <;> rfl

theorem calculatePMTRounded_absorbed (fl : ℚ → ℚ) (c : Settings) (pow : ℚ → ℚ → ℚ)
    (pv fv i n : ℚ) (hi : 0 < i) (hn : 0 < n) (habs : fl (1 + i) = 1)
    (hone : pow 1 (-n) = 1) (hzero : fl 0 = 0) :
    calculatePMTRounded fl c pow pv fv i n = .nonFinite := by
  have h : ¬ (i ≤ 0 ∨ n ≤ 0) := by rintro (h | h) <;> linarith
  have hd : fl (1 - pow (fl (1 + i)) (-n)) = 0 := by
    rw [habs, hone, sub_self, hzero]
  simp only [calculatePMTRounded, if_neg h, hd, or_true, if_true]

theorem roundTo_zero (ulp : ℚ) : roundTo ulp 0 = 0 := by
  simp [roundTo]

theorem roundTo_absorbs_tiny_rate :
    roundTo (1 / 2 ^ 52) (1 + 1 / 10 ^ 17) = 1 := by
  have h : round ((1 + 1 / 10 ^ 17) / (1 / 2 ^ 52) : ℚ) = 4503599627370496 := by
    rw [round_eq, Int.floor_eq_iff]
    constructor <;> norm_num
  rw [roundTo, h]
  norm_num

/-- C20 (the code departs from the claim): calculatePMT throws the domain error exactly when
i <= 0 or n <= 0, and in exact arithmetic it returns for i > 0 and n > 0 the value
(-pv*i - (fv*i)/(1+i)^n) / (1 - (1+i)^(-n)), replaced by 0 when its magnitude is below the
threshold, with a divisor that is not zero (the power function obeying its laws on a
positive base).  On doubles the guard is the same, but the divisor can be zero for i > 0:
when the rounded sum 1 + i is 1 (as for i = 1e-17) and pow(1, -n) = 1, the divisor is
1 - 1 = 0 and the function divides by it. -/
theorem C20_payment_domain (fl : ℚ → ℚ) (c : Settings) (pow : ℚ → ℚ → ℚ) (pv fv i n : ℚ) :
    ((∃ err, calculatePMT c pow pv fv i n = .error err) ↔ (i ≤ 0 ∨ n ≤ 0))
    ∧ (i ≤ 0 ∨ n ≤ 0 →
      calculatePMT c pow pv fv i n
        = .error (.invalid_argument
            "Interest rate and number of periods must be greater than zero."))
    ∧ (0 < i → 0 < n →
      calculatePMT c pow pv fv i n
        = .ok (snap c ((-pv * i - (fv * i) / pow (1 + i) n) / (1 - pow (1 + i) (-n)))))
    ∧ (0 < i → 0 < n → PowPositiveBaseLaws pow →
      1 - pow (1 + i) (-n) ≠ 0 ∧ pow (1 + i) n ≠ 0)
    ∧ ((∃ err, calculatePMTRounded fl c pow pv fv i n = .thrown err) ↔ (i ≤ 0 ∨ n ≤ 0))
    ∧ (i ≤ 0 ∨ n ≤ 0 →
      calculatePMTRounded fl c pow pv fv i n
        = .thrown (.invalid_argument
            "Interest rate and number of periods must be greater than zero."))
    ∧ (0 < i → 0 < n → PowPositiveBaseLaws pow →
      calculatePMTRounded (fun x => x) c pow pv fv i n
        = .returned
            (snap c ((-pv * i - (fv * i) / pow (1 + i) n) / (1 - pow (1 + i) (-n)))))
    ∧ (0 < i → 0 < n → fl (1 + i) = 1 → pow 1 (-n) = 1 → fl 0 = 0 →
      fl (1 - pow (fl (1 + i)) (-n)) = 0
      ∧ calculatePMTRounded fl c pow pv fv i n = .nonFinite) := by
  have hok : ¬ (i ≤ 0 ∨ n ≤ 0) →
      calculatePMT c pow pv fv i n
        = .ok (snap c ((-pv * i - (fv * i) / pow (1 + i) n) / (1 - pow (1 + i) (-n)))) := by
    intro h
    simp only [calculatePMT, if_neg h, snap]
    split <;> rfl
  refine ⟨?_, ?_, ?_, ?_, calculatePMTRounded_thrown fl c pow pv fv i n, ?_,
    fun hi hn hpow => calculatePMTRounded_exact c pow pv fv i n hi hn hpow, ?_⟩
  · by_cases h : i ≤ 0 ∨ n ≤ 0
    · simp [calculatePMT, h]
    · rw [hok h]
      simp [h]
  · intro h
    simp only [calculatePMT, if_pos h]
  · intro hi hn
    exact hok (by rintro (h | h) <;> linarith)
  · intro hi hn hpow
    obtain ⟨hpos, hrec, hgt⟩ := hpow (1 + i) n (by linarith)
    have h1 : 1 < pow (1 + i) n := hgt (by linarith) hn
    refine ⟨?_, hpos.ne'⟩
    rw [hrec]
    have : (pow (1 + i) n)⁻¹ < 1 := inv_lt_one_of_one_lt₀ h1
    linarith
  · intro h
    simp only [calculatePMTRounded, if_pos h]
  · intro hi hn habs hone hzero
    refine ⟨by rw [habs, hone, sub_self, hzero], ?_⟩
    exact calculatePMTRounded_absorbed fl c pow pv fv i n hi hn habs hone hzero

/-- Witness of C20 at pv = 1000, fv = 0, n = 1 and the rate i = 1e-17 with the default
settings: with the rounding to the nearest multiple of 2^(-52), the spacing of the doubles
from 1 to 2, the sum 1 + i is 1 and the function divides by zero; in exact arithmetic it
returns. -/
theorem C20_payment_domain_witness :
    (0 : ℚ) < 1 / 10 ^ 17 ∧ (0 : ℚ) < 1 ∧ PowPositiveBaseLaws powNum
    ∧ roundTo (1 / 2 ^ 52) (1 + 1 / 10 ^ 17) = 1 ∧ powNum 1 (-1) = 1
    ∧ roundTo (1 / 2 ^ 52) 0 = 0
    ∧ calculatePMTRounded (roundTo (1 / 2 ^ 52)) defaultSettings powNum 1000 0
        (1 / 10 ^ 17) 1 = .nonFinite
    ∧ (1 - powNum (1 + 1 / 10 ^ 17) (-1) ≠ 0 ∧ powNum (1 + 1 / 10 ^ 17) 1 ≠ 0) :=
  ⟨by norm_num, by norm_num, powNum_laws, roundTo_absorbs_tiny_rate, by norm_num [powNum],
    roundTo_zero _,
    ((C20_payment_domain (roundTo (1 / 2 ^ 52)) defaultSettings powNum 1000 0
      (1 / 10 ^ 17) 1).2.2.2.2.2.2.2 (by norm_num) (by norm_num) roundTo_absorbs_tiny_rate
      (by norm_num [powNum]) (roundTo_zero _)).2,
    (C20_payment_domain (roundTo (1 / 2 ^ 52)) defaultSettings powNum 1000 0
      (1 / 10 ^ 17) 1).2.2.2.1 (by norm_num) (by norm_num) powNum_laws⟩

/-! ## Angle reduction (C15) -/

theorem reduceAngle_spec (angle : ℚ) :
    (-pi ≤ reduceAngle angle ∧ reduceAngle angle ≤ pi)
    ∧ ∃ m : ℤ, angle - reduceAngle angle = m * (2 * pi) := by
  induction angle using reduceAngle.induct with
  | case1 angle h ih =>
    rw [reduceAngle, if_pos h]
    obtain ⟨hb, m, hm⟩ := ih
    refine ⟨hb, m + 1, ?_⟩
    push_cast
    linarith
  | case2 angle h1 h2 ih =>
    rw [reduceAngle, if_neg h1, if_pos h2]
    obtain ⟨hb, m, hm⟩ := ih
    refine ⟨hb, m - 1, ?_⟩
    push_cast
    linarith
  | case3 angle h1 h2 =>
    rw [reduceAngle, if_neg h1, if_neg h2]
    exact ⟨⟨not_lt.mp h2, not_lt.mp h1⟩, 0, by simp⟩

theorem reduceAngleRounded_stuck_above (fl : ℚ → ℚ) (angle : ℚ) (h : pi < angle)
    (hfl : fl (angle - 2 * pi) = angle) (fuel : ℕ) :
    reduceAngleRounded fl fuel angle = none := by
  have hc : angle > pi ∨ angle < -pi := Or.inl h
  induction fuel with
  | zero => simp only [reduceAngleRounded, if_pos hc]
  | succ fuel ih =>
    have hgt : angle > pi := h
    simp only [reduceAngleRounded, if_pos hc, if_pos hgt, hfl]
    exact ih

theorem reduceAngleRounded_stuck_below (fl : ℚ → ℚ) (angle : ℚ) (h : angle < -pi)
    (hfl : fl (angle + 2 * pi) = angle) (fuel : ℕ) :
    reduceAngleRounded fl fuel angle = none := by
  have hp : (0 : ℚ) < pi := by norm_num [pi]
  have hc : angle > pi ∨ angle < -pi := Or.inr h
  have hn : ¬ angle > pi := by
    intro hh
    have : pi < angle := hh
    linarith
  induction fuel with
  | zero => simp only [reduceAngleRounded, if_pos hc]
  | succ fuel ih =>
    simp only [reduceAngleRounded, if_pos hc, if_neg hn, if_pos h, hfl]
    exact ih

theorem reduceAngleRounded_inside (fl : ℚ → ℚ) (angle : ℚ) (h1 : -pi ≤ angle)
    (h2 : angle ≤ pi) (fuel : ℕ) : reduceAngleRounded fl fuel angle = some angle := by
  have hc : ¬ (angle > pi ∨ angle < -pi) := by
    rintro (h | h)
    · exact absurd h (not_lt.mpr h2)
    · exact absurd h (not_lt.mpr h1)
  cases fuel <;> simp only [reduceAngleRounded, if_neg hc]

theorem reduceAngleRounded_exact (angle : ℚ) :
    ∃ fuel0, ∀ fuel, fuel0 ≤ fuel →
      reduceAngleRounded (fun x => x) fuel angle = some (reduceAngle angle) := by
  induction angle using reduceAngle.induct with
  | case1 angle h ih =>
    obtain ⟨fuel0, hf⟩ := ih
    refine ⟨fuel0 + 1, fun fuel hfuel => ?_⟩
    obtain ⟨k, rfl⟩ : ∃ k, fuel = k + 1 := ⟨fuel - 1, by omega⟩
    have hgt : angle > pi := h
    rw [reduceAngle, if_pos h]
    simp only [reduceAngleRounded, if_pos (Or.inl hgt : angle > pi ∨ angle < -pi), if_pos hgt]
    exact hf k (by omega)
  | case2 angle h1 h2 ih =>
    obtain ⟨fuel0, hf⟩ := ih
    refine ⟨fuel0 + 1, fun fuel hfuel => ?_⟩
    obtain ⟨k, rfl⟩ : ∃ k, fuel = k + 1 := ⟨fuel - 1, by omega⟩
    have hn : ¬ angle > pi := h1
    rw [reduceAngle, if_neg h1, if_pos h2]
    simp only [reduceAngleRounded, if_pos (Or.inr h2 : angle > pi ∨ angle < -pi), if_neg hn,
      if_pos h2]
    exact hf k (by omega)
  | case3 angle h1 h2 =>
    refine ⟨0, fun fuel _ => ?_⟩
    rw [reduceAngle_of_mem angle h1 h2]
    exact reduceAngleRounded_inside _ angle (not_lt.mp h2) (not_lt.mp h1) fuel

theorem roundTo_absorbs_two_pi :
    roundTo 16 (10 ^ 17 - 2 * pi) = 10 ^ 17 := by
  have h : round ((10 ^ 17 - 2 * pi) / 16 : ℚ) = 6250000000000000 := by
    rw [round_eq, Int.floor_eq_iff]
    constructor <;> norm_num [pi]
  rw [roundTo, h]
  norm_num

/-- C15 (the code departs from the claim): in exact arithmetic the loop of reduceAngle ends
on every angle, with a value r such that -pi <= r <= pi and angle - r is an integer multiple
of 2*pi (pi being the constant 3.141592653589793), and an angle already in [-pi, pi] is
returned unchanged.  On doubles the loop does not end on every angle: when the rounded
result of angle - 2*pi is angle again (as for 1e17, where the doubles are 16 apart), or that
of angle + 2*pi below -pi, the loop is still running after any number of iterations. -/
theorem C15_angle_reduction (fl : ℚ → ℚ) (angle : ℚ) :
    pi = 3141592653589793 / 1000000000000000
    ∧ -pi ≤ reduceAngle angle ∧ reduceAngle angle ≤ pi
    ∧ (∃ m : ℤ, angle - reduceAngle angle = m * (2 * pi))
    ∧ (-pi ≤ angle → angle ≤ pi → reduceAngle angle = angle)
    ∧ (∃ fuel0, ∀ fuel, fuel0 ≤ fuel →
        reduceAngleRounded (fun x => x) fuel angle = some (reduceAngle angle))
    ∧ (-pi ≤ angle → angle ≤ pi → ∀ fuel, reduceAngleRounded fl fuel angle = some angle)
    ∧ (pi < angle → fl (angle - 2 * pi) = angle →
        ∀ fuel, reduceAngleRounded fl fuel angle = none)
    ∧ (angle < -pi → fl (angle + 2 * pi) = angle →
        ∀ fuel, reduceAngleRounded fl fuel angle = none) := by
  obtain ⟨⟨h1, h2⟩, h3⟩ := reduceAngle_spec angle
  refine ⟨rfl, h1, h2, h3, fun ha hb => ?_, reduceAngleRounded_exact angle,
    fun ha hb fuel => reduceAngleRounded_inside fl angle ha hb fuel,
    fun h hfl fuel => reduceAngleRounded_stuck_above fl angle h hfl fuel,
    fun h hfl fuel => reduceAngleRounded_stuck_below fl angle h hfl fuel⟩
  exact reduceAngle_of_mem angle (not_lt.mpr hb) (not_lt.mpr ha)

/-- Witness of C15: the angle 1 is returned unchanged, and at the angle 1e17 with the
rounding to the nearest multiple of 16 the subtraction of 2*pi gives 1e17 again and the loop
is still running after a million iterations. -/
theorem C15_angle_reduction_witness :
    -pi ≤ (1 : ℚ) ∧ (1 : ℚ) ≤ pi ∧ reduceAngle 1 = 1
    ∧ pi < (10 ^ 17 : ℚ) ∧ roundTo 16 (10 ^ 17 - 2 * pi) = 10 ^ 17
    ∧ reduceAngleRounded (roundTo 16) 1000000 (10 ^ 17) = none :=
  ⟨by norm_num [pi], by norm_num [pi],
    (C15_angle_reduction (roundTo 16) 1).2.2.2.2.1 (by norm_num [pi]) (by norm_num [pi]),
    by norm_num [pi], roundTo_absorbs_two_pi,
    (C15_angle_reduction (roundTo 16) (10 ^ 17)).2.2.2.2.2.2.2.1 (by norm_num [pi])
      roundTo_absorbs_two_pi 1000000⟩

/-! ## Tangent (C16) -/

/-- C16: with a positive error threshold, calcTan fails with the tangent-undefined error
exactly when |calcCos(angle)| is below the threshold, and otherwise returns
calcSin(angle) / calcCos(angle) with a divisor that is not zero. -/
theorem C16_tangent_domain (c : Settings) (pow : ℚ → ℚ → ℚ) (angle : ℚ)
    (hthr : 0 < c.settingErrorThreshold) :
    (calcTan c pow angle = .error (.runtime_error "Tangent undefined at this angle")
      ↔ |calcCos c pow angle| < c.settingErrorThreshold)
    ∧ ((∃ err, calcTan c pow angle = .error err)
      ↔ |calcCos c pow angle| < c.settingErrorThreshold)
    ∧ (¬ |calcCos c pow angle| < c.settingErrorThreshold →
      calcTan c pow angle = .ok (calcSin c pow angle / calcCos c pow angle)
      ∧ calcCos c pow angle ≠ 0) := by
  by_cases h : |calcCos c pow angle| < c.settingErrorThreshold
  · simp [calcTan, h]
  · have hne : calcCos c pow angle ≠ 0 := by
      intro h0
      rw [h0, abs_zero] at h
      exact h hthr
    simp [calcTan, h, hne]

/-- Witness of C16 at the angle 0 with the default settings, where the cosine is 1. -/
theorem C16_tangent_domain_witness :
    (0 : ℚ) < defaultSettings.settingErrorThreshold
    ∧ ¬ |calcCos defaultSettings powTrunc 0| < defaultSettings.settingErrorThreshold
    ∧ (calcTan defaultSettings powTrunc 0
        = .ok (calcSin defaultSettings powTrunc 0 / calcCos defaultSettings powTrunc 0)
      ∧ calcCos defaultSettings powTrunc 0 ≠ 0) :=
  have hthr : (0 : ℚ) < defaultSettings.settingErrorThreshold := by
    norm_num [defaultSettings]
  have hcos : ¬ |calcCos defaultSettings powTrunc 0| < defaultSettings.settingErrorThreshold := by
    rw [calcCos_default_zero powTrunc powTrunc_exact]
    norm_num [defaultSettings]
  ⟨hthr, hcos, (C16_tangent_domain defaultSettings powTrunc 0 hthr).2.2 hcos⟩

/-! ## Taylor series (C14) -/

theorem foldl_add_eq_sum (f : ℕ → ℚ) (n : ℕ) :
    (List.range n).foldl (fun (result : ℚ) (k : ℕ) => result + f k) 0
      = ∑ k ∈ Finset.range n, f k := by
  induction n with
  | zero => simp
  | succ n ih =>
    rw [List.range_succ, List.foldl_append, ih, Finset.sum_range_succ]
    simp

theorem taylorSum_eq_sum (pow : ℚ → ℚ → ℚ) (hpow : PowExactOnNat pow) (terms : ℤ)
    (offset : ℕ) (theta : ℚ) :
    taylorSum pow terms offset theta
      = ∑ k ∈ Finset.range terms.toNat,
          (-1) ^ k * theta ^ (2 * k + offset) / ((2 * k + offset).factorial : ℚ) := by
  rw [taylorSum_exact pow hpow]
  simp only [factorial_natCast]
  exact foldl_add_eq_sum
    (fun k => (-1) ^ k * theta ^ (2 * k + offset) / ((2 * k + offset).factorial : ℚ)) _

theorem reduceAngle_toRadians_zero (c : Settings) : reduceAngle (toRadians c 0) = 0 := by
  have h0 : toRadians c 0 = 0 := by
    unfold toRadians
    split <;> simp
  rw [h0]
  exact reduceAngle_of_mem 0 (by norm_num [pi]) (by norm_num [pi])

/-- C14: with N = taylorTerms >= 0 and a power function exact on natural exponents, calcSin
is the sum over k < N of (-1)^k * theta^(2k+1) / (2k+1)! and calcCos the sum over k < N of
(-1)^k * theta^(2k) / (2k)!, each replaced by 0 when its magnitude is below the threshold,
where theta is reduceAngle of the angle in radian mode and of angle * pi / 180 in degree
mode; factorial(m) is m! and theta^0 is 1.  For N >= 1 and a threshold <= 1, calcSin(0) = 0
and calcCos(0) = 1. -/
theorem C14_taylor_series (c : Settings) (pow : ℚ → ℚ → ℚ) (angle : ℚ) (N : ℕ)
    (hN : c.settingTaylorTerms = (N : ℤ)) (hpow : PowExactOnNat pow) :
    calcSin c pow angle
      = snap c (∑ k ∈ Finset.range N,
          (-1) ^ k * (reduceAngle (toRadians c angle)) ^ (2 * k + 1)
            / ((2 * k + 1).factorial : ℚ))
    ∧ calcCos c pow angle
      = snap c (∑ k ∈ Finset.range N,
          (-1) ^ k * (reduceAngle (toRadians c angle)) ^ (2 * k)
            / ((2 * k).factorial : ℚ))
    ∧ (c.settingRadianMode = true → toRadians c angle = angle)
    ∧ (c.settingRadianMode = false →
      toRadians c angle = angle * (3141592653589793 / 1000000000000000) / 180)
    ∧ (∀ m : ℕ, factorial (m : ℤ) = (m.factorial : ℚ))
    ∧ (∀ x : ℚ, pow x 0 = 1)
    ∧ (1 ≤ N → c.settingErrorThreshold ≤ 1 →
      calcSin c pow 0 = 0 ∧ calcCos c pow 0 = 1) := by
  have hsin : ∀ a : ℚ, calcSin c pow a
      = snap c (∑ k ∈ Finset.range N,
          (-1) ^ k * (reduceAngle (toRadians c a)) ^ (2 * k + 1)
            / ((2 * k + 1).factorial : ℚ)) := by
    intro a
    simp only [calcSin, snap, taylorSum_eq_sum pow hpow, hN, Int.toNat_natCast]
  have hcos : ∀ a : ℚ, calcCos c pow a
      = snap c (∑ k ∈ Finset.range N,
          (-1) ^ k * (reduceAngle (toRadians c a)) ^ (2 * k)
            / ((2 * k).factorial : ℚ)) := by
    intro a
    simp only [calcCos, snap, taylorSum_eq_sum pow hpow, hN, Int.toNat_natCast,
      Nat.add_zero]
  refine ⟨hsin angle, hcos angle, ?_, ?_, factorial_natCast, pow_zero_exp pow hpow, ?_⟩
  · intro hr
    simp [toRadians, hr]
  · intro hr
    simp [toRadians, hr, pi]
  · intro hN1 hthr
    constructor
    · rw [hsin 0, reduceAngle_toRadians_zero]
      have hs : ∑ k ∈ Finset.range N,
          (-1 : ℚ) ^ k * (0 : ℚ) ^ (2 * k + 1) / ((2 * k + 1).factorial : ℚ) = 0 := by
        apply Finset.sum_eq_zero
        intro k _
        simp
      rw [hs]
      simp [snap]
    · rw [hcos 0, reduceAngle_toRadians_zero]
      have hs : ∑ k ∈ Finset.range N,
          (-1 : ℚ) ^ k * (0 : ℚ) ^ (2 * k) / ((2 * k).factorial : ℚ) = 1 := by
        rw [Finset.sum_eq_single 0]
        · simp
        · intro k _ hk
          have : 2 * k ≠ 0 := by omega
          simp [this]
        · intro h0
          exact absurd (Finset.mem_range.mpr (by omega)) h0
      rw [hs]
      have : ¬ |(1 : ℚ)| < c.settingErrorThreshold := by
        rw [abs_one]
        exact not_lt.mpr hthr
      simp only [snap, if_neg this]

/-- Witness of C14 at the default settings (N = 10) and the angle 0. -/
theorem C14_taylor_series_witness :
    defaultSettings.settingTaylorTerms = ((10 : ℕ) : ℤ) ∧ PowExactOnNat powTrunc
    ∧ 1 ≤ 10 ∧ defaultSettings.settingErrorThreshold ≤ 1
    ∧ (calcSin defaultSettings powTrunc 0 = 0 ∧ calcCos defaultSettings powTrunc 0 = 1) :=
  ⟨rfl, powTrunc_exact, by decide, by norm_num [defaultSettings],
    (C14_taylor_series defaultSettings powTrunc 0 10 rfl powTrunc_exact).2.2.2.2.2.2
      (by decide) (by norm_num [defaultSettings])⟩

/-! ## Tangent at pi/2 (C17) -/

theorem cosSum_half_pi :
    (-4 / 10 ^ 15 : ℚ) < ∑ k ∈ Finset.range 10,
        (-1) ^ k * (3141592653589793 / 2000000000000000 : ℚ) ^ (2 * k)
          / ((2 * k).factorial : ℚ)
    ∧ ∑ k ∈ Finset.range 10,
        (-1) ^ k * (3141592653589793 / 2000000000000000 : ℚ) ^ (2 * k)
          / ((2 * k).factorial : ℚ) < -3 / 10 ^ 15 := by
  constructor <;> norm_num [Finset.sum_range_succ, Nat.factorial]

theorem sinSum_half_pi :
    (9 / 10 : ℚ) < ∑ k ∈ Finset.range 10,
        (-1) ^ k * (3141592653589793 / 2000000000000000 : ℚ) ^ (2 * k + 1)
          / ((2 * k + 1).factorial : ℚ)
    ∧ ∑ k ∈ Finset.range 10,
        (-1) ^ k * (3141592653589793 / 2000000000000000 : ℚ) ^ (2 * k + 1)
          / ((2 * k + 1).factorial : ℚ) < 1 := by
  constructor <;> norm_num [Finset.sum_range_succ, Nat.factorial]

theorem stod_pi : stod "3.141592653589793" = some (3141592653589793 / 1000000000000000) := by
  simp [stod, isdigit, digitsValue]
  norm_num

theorem trig_half_pi (c : Settings) (pow : ℚ → ℚ → ℚ) (hpow : PowExactOnNat pow)
    (hmode : c.settingRadianMode = true) (hterms : c.settingTaylorTerms = 10) :
    calcCos c pow (3141592653589793 / 2000000000000000)
      = snap c (∑ k ∈ Finset.range 10,
          (-1) ^ k * (3141592653589793 / 2000000000000000 : ℚ) ^ (2 * k)
            / ((2 * k).factorial : ℚ))
    ∧ calcSin c pow (3141592653589793 / 2000000000000000)
      = snap c (∑ k ∈ Finset.range 10,
          (-1) ^ k * (3141592653589793 / 2000000000000000 : ℚ) ^ (2 * k + 1)
            / ((2 * k + 1).factorial : ℚ)) := by
  have hr : reduceAngle (3141592653589793 / 2000000000000000)
      = 3141592653589793 / 2000000000000000 :=
    reduceAngle_of_mem _ (by norm_num [pi]) (by norm_num [pi])
  have ht : (10 : ℤ).toNat = 10 := rfl
  constructor
  · simp only [calcCos, snap, toRadians, hmode, if_true, hr, taylorSum_eq_sum pow hpow,
      hterms, ht, Nat.add_zero]
  · simp only [calcSin, snap, toRadians, hmode, if_true, hr, taylorSum_eq_sum pow hpow,
      hterms, ht]

theorem calcTan_half_pi_fine (c : Settings) (pow : ℚ → ℚ → ℚ) (hpow : PowExactOnNat pow)
    (hmode : c.settingRadianMode = true) (hterms : c.settingTaylorTerms = 10)
    (hthr : c.settingErrorThreshold ≤ 3 / 10 ^ 15) :
    ∃ v, calcTan c pow (3141592653589793 / 2000000000000000) = .ok v ∧ v < -(2 * 10 ^ 14) := by
  obtain ⟨hcos, hsin⟩ := trig_half_pi c pow hpow hmode hterms
  obtain ⟨hc1, hc2⟩ := cosSum_half_pi
  obtain ⟨hs1, hs2⟩ := sinSum_half_pi
  have hcabs : ¬ |(∑ k ∈ Finset.range 10,
      (-1) ^ k * (3141592653589793 / 2000000000000000 : ℚ) ^ (2 * k)
        / ((2 * k).factorial : ℚ))| < c.settingErrorThreshold := by
    rw [abs_of_neg (lt_trans hc2 (by norm_num))]
    linarith
  have hsabs : ¬ |(∑ k ∈ Finset.range 10,
      (-1) ^ k * (3141592653589793 / 2000000000000000 : ℚ) ^ (2 * k + 1)
        / ((2 * k + 1).factorial : ℚ))| < c.settingErrorThreshold := by
    rw [abs_of_pos (lt_trans (by norm_num) hs1)]
    linarith
  simp only [snap, if_neg hcabs] at hcos
  simp only [snap, if_neg hsabs] at hsin
  have hcabs1 : ¬ |calcCos c pow (3141592653589793 / 2000000000000000)|
      < c.settingErrorThreshold := by
    rw [hcos]
    exact hcabs
  refine ⟨calcSin c pow (3141592653589793 / 2000000000000000)
    / calcCos c pow (3141592653589793 / 2000000000000000), ?_, ?_⟩
  · simp only [calcTan, if_neg hcabs1]
  · have hneg : (∑ k ∈ Finset.range 10,
        (-1) ^ k * (3141592653589793 / 2000000000000000 : ℚ) ^ (2 * k)
          / ((2 * k).factorial : ℚ)) < 0 := lt_trans hc2 (by norm_num)
    rw [hcos, hsin, div_lt_iff_of_neg hneg]
    linarith

theorem calcTan_half_pi_coarse (c : Settings) (pow : ℚ → ℚ → ℚ) (hpow : PowExactOnNat pow)
    (hmode : c.settingRadianMode = true) (hterms : c.settingTaylorTerms = 10)
    (hthr : 4 / 10 ^ 15 ≤ c.settingErrorThreshold) :
    calcTan c pow (3141592653589793 / 2000000000000000)
      = .error (.runtime_error "Tangent undefined at this angle") := by
  obtain ⟨hcos, _⟩ := trig_half_pi c pow hpow hmode hterms
  obtain ⟨hc1, hc2⟩ := cosSum_half_pi
  have hcabs : |(∑ k ∈ Finset.range 10,
      (-1) ^ k * (3141592653589793 / 2000000000000000 : ℚ) ^ (2 * k)
        / ((2 * k).factorial : ℚ))| < c.settingErrorThreshold := by
    rw [abs_of_neg (lt_trans hc2 (by norm_num))]
    linarith
  simp only [snap, if_pos hcabs] at hcos
  have hthr0 : (0 : ℚ) < c.settingErrorThreshold := lt_of_lt_of_le (by norm_num) hthr
  simp [calcTan, hcos, hthr0]

theorem evaluateRPN_tan_half_pi (c : Settings) (pow : ℚ → ℚ → ℚ) :
    evaluateRPN c pow [numberToken "3.141592653589793", numberToken "2", operatorToken "/",
        functionToken "tan"]
      = calcTan c pow (3141592653589793 / 2000000000000000) := by
  have h2 : stod "2" = some 2 := stod_digit_lit.2.2.1
  have hq : (3141592653589793 / 1000000000000000 : ℚ) / 2
      = 3141592653589793 / 2000000000000000 := by norm_num
  simp only [evaluateRPN, evalLoop, evalStep, numberToken, operatorToken, functionToken,
    stod_pi, h2]
  simp only [hq]
  cases h : calcTan c pow (3141592653589793 / 2000000000000000) <;> simp [h, evalLoop]

/-- C17 (the code departs from the claim): with the default settings (radian mode, 10 Taylor
terms, threshold 1e-28) the input "tan(pi/2)" does not fail: its postfix form is
pi 2 / tan, the 10-term cosine at 3.141592653589793/2 is about -3.3e-15, which is not below
the threshold, and the evaluation returns the quotient of sine and cosine, a value below
-2e14.  With the threshold 1e-7 that the settings menu suggests, the same input fails with
the tangent-undefined error. -/
theorem C17_tangent_half_pi_returns (pow : ℚ → ℚ → ℚ) (fileOpens : Bool)
    (hpow : PowExactOnNat pow) :
    tokenize "tan(pi/2)"
      = .ok [functionToken "tan", leftParen, numberToken "3.141592653589793",
          operatorToken "/", numberToken "2", rightParen]
    ∧ convertToRPN [functionToken "tan", leftParen, numberToken "3.141592653589793",
          operatorToken "/", numberToken "2", rightParen]
      = .ok [numberToken "3.141592653589793", numberToken "2", operatorToken "/",
          functionToken "tan"]
    ∧ (∃ v, evaluateExpression defaultSettings pow fileOpens "tan(pi/2)" = .ok v
        ∧ v < -(2 * 10 ^ 14))
    ∧ evaluateExpression { defaultSettings with settingErrorThreshold := 1 / 10 ^ 7 } pow
        fileOpens "tan(pi/2)"
      = .error (.runtime_error "Tangent undefined at this angle") := by
  have ht : tokenize "tan(pi/2)"
      = .ok [functionToken "tan", leftParen, numberToken "3.141592653589793",
          operatorToken "/", numberToken "2", rightParen] := by decide
  have hc : convertToRPN [functionToken "tan", leftParen, numberToken "3.141592653589793",
          operatorToken "/", numberToken "2", rightParen]
      = .ok [numberToken "3.141592653589793", numberToken "2", operatorToken "/",
          functionToken "tan"] := by decide
  refine ⟨ht, hc, ?_, ?_⟩
  · obtain ⟨v, hv, hlt⟩ := calcTan_half_pi_fine defaultSettings pow hpow rfl rfl
      (by norm_num [defaultSettings])
    refine ⟨v, ?_, hlt⟩
    rw [evaluateExpression_of_stages defaultSettings pow fileOpens "tan(pi/2)" _ _ v ht hc
      (by rw [evaluateRPN_tan_half_pi, hv]) (Or.inl rfl)]
    have : ¬ |v| < defaultSettings.settingErrorThreshold := by
      rw [abs_of_neg (lt_trans hlt (by norm_num))]
      norm_num [defaultSettings]
      linarith
    rw [if_neg this]
  · exact evaluateExpression_of_eval_error _ pow fileOpens "tan(pi/2)" _ _ _ ht hc
      (by
        rw [evaluateRPN_tan_half_pi]
        exact calcTan_half_pi_coarse _ pow hpow rfl rfl (by norm_num))

/-- Witness of C17 with a power function exact on natural exponents. -/
theorem C17_tangent_half_pi_returns_witness :
    PowExactOnNat powTrunc
    ∧ ∃ v, evaluateExpression defaultSettings powTrunc false "tan(pi/2)" = .ok v
        ∧ v < -(2 * 10 ^ 14) :=
  ⟨powTrunc_exact, (C17_tangent_half_pi_returns powTrunc false powTrunc_exact).2.2.1⟩

/-! ## The composition of the stages (C13) -/

/-- C13 as stated fails: with history enabled and a history file that cannot be opened, the
three stages succeed on the input "1" (evaluateRPN returns 1) and evaluateExpression fails
with the error of saveHistory. -/
theorem C13_counterexample_history :
    tokenize "1" = .ok [numberToken "1"]
    ∧ convertToRPN [numberToken "1"] = .ok [numberToken "1"]
    ∧ evaluateRPN { defaultSettings with settingSaveHistory := true } powTrunc
        [numberToken "1"] = .ok 1
    ∧ evaluateExpression { defaultSettings with settingSaveHistory := true } powTrunc false "1"
      = .error (.runtime_error "Failed to open history file.") := by
  have ht : tokenize "1" = .ok [numberToken "1"] := by decide
  have hc : convertToRPN [numberToken "1"] = .ok [numberToken "1"] := by decide
  have he : evaluateRPN { defaultSettings with settingSaveHistory := true } powTrunc
      [numberToken "1"] = .ok 1 := by
    simp [evaluateRPN, evalLoop, evalStep, numberToken, stod_digit_lit]
  refine ⟨ht, hc, he, ?_⟩
  simp only [evaluateExpression, ht, hc, he]
  simp [saveHistory]

/-- C13 (amended): evaluateExpression fails with the error of the first of tokenize,
convertToRPN and evaluateRPN that fails; when the three succeed with the value r, it fails
with the error of saveHistory if history is enabled and the history file cannot be opened,
and otherwise returns 0 when the test |r| < errorThreshold holds and r unchanged when it
does not.  Every value it returns is 0 or fails the test of being below the threshold in
magnitude: the statement is the test of the source, which a number of magnitude at least
the threshold fails, and on doubles a NaN as well. -/
theorem C13_pipeline_composition (c : Settings) (pow : ℚ → ℚ → ℚ) (fileOpens : Bool)
    (s : String) :
    (∀ err, tokenize s = .error err → evaluateExpression c pow fileOpens s = .error err)
    ∧ (∀ ts err, tokenize s = .ok ts → convertToRPN ts = .error err →
        evaluateExpression c pow fileOpens s = .error err)
    ∧ (∀ ts rpn err, tokenize s = .ok ts → convertToRPN ts = .ok rpn →
        evaluateRPN c pow rpn = .error err →
        evaluateExpression c pow fileOpens s = .error err)
    ∧ (∀ ts rpn r, tokenize s = .ok ts → convertToRPN ts = .ok rpn →
        evaluateRPN c pow rpn = .ok r →
        (c.settingSaveHistory = true ∧ fileOpens = false →
          evaluateExpression c pow fileOpens s
            = .error (.runtime_error "Failed to open history file."))
        ∧ (c.settingSaveHistory = false ∨ fileOpens = true →
          (|r| < c.settingErrorThreshold → evaluateExpression c pow fileOpens s = .ok 0)
          ∧ (¬ |r| < c.settingErrorThreshold →
              evaluateExpression c pow fileOpens s = .ok r)))
    ∧ (∀ v, evaluateExpression c pow fileOpens s = .ok v →
        v = 0 ∨ ¬ |v| < c.settingErrorThreshold) := by
  refine ⟨?_, ?_, ?_, ?_, ?_⟩
  · intro err ht
    simp only [evaluateExpression, ht]
  · intro ts err ht hc
    simp only [evaluateExpression, ht, hc]
  · intro ts rpn err ht hc he
    simp only [evaluateExpression, ht, hc, he]
  · intro ts rpn r ht hc he
    refine ⟨?_, ?_⟩
    · rintro ⟨hs, hf⟩
      simp only [evaluateExpression, ht, hc, he, hs, hf, saveHistory]
      simp
    · intro hs
      have := evaluateExpression_of_stages c pow fileOpens s ts rpn r ht hc he hs
      refine ⟨fun h => ?_, fun h => ?_⟩
      · rw [this, if_pos h]
      · rw [this, if_neg h]
  · intro v hv
    simp only [evaluateExpression] at hv
    cases ht : tokenize s with
    | error err => simp [ht] at hv
    | ok ts =>
      simp only [ht] at hv
      cases hc : convertToRPN ts with
      | error err => simp [hc] at hv
      | ok rpn =>
        simp only [hc] at hv
        cases he : evaluateRPN c pow rpn with
        | error err => simp [he] at hv
        | ok r =>
          simp only [he] at hv
          split at hv
          · cases hv
          · split at hv
            · left
              simp only [Except.ok.injEq] at hv
              exact hv.symm
            · right
              rename_i hnot
              simp only [Except.ok.injEq] at hv
              rw [← hv]
              exact hnot

/-- Witness of C13 (amended) at the input "3 + 4 * 2" with the default settings. -/
theorem C13_pipeline_composition_witness :
    evaluateExpression defaultSettings powTrunc false "3 + 4 * 2" = .ok 11
    ∧ ((11 : ℚ) = 0 ∨ ¬ |(11 : ℚ)| < defaultSettings.settingErrorThreshold) :=
  have h : evaluateExpression defaultSettings powTrunc false "3 + 4 * 2" = .ok 11 := by
    rw [evaluateExpression_of_stages defaultSettings powTrunc false "3 + 4 * 2"
      [numberToken "3", operatorToken "+", numberToken "4", operatorToken "*", numberToken "2"]
      [numberToken "3", numberToken "4", numberToken "2", operatorToken "*", operatorToken "+"]
      11 (by decide) (by decide)
      (by simp [evaluateRPN, evalLoop, evalStep, numberToken, operatorToken, stod_digit_lit]
          norm_num)
      (Or.inl rfl)]
    norm_num [defaultSettings]
  ⟨h, (C13_pipeline_composition defaultSettings powTrunc false "3 + 4 * 2").2.2.2.2 11 h⟩

/-! ## Words (C11) -/

theorem scanWord_run (w cur rest : List Char) (hw : ∀ c ∈ w, isalpha c = true)
    (hrest : ∀ c, rest.head? = some c → isalpha c = false) :
    scanWord cur (w ++ rest) = (cur ++ w, rest) := by
  induction w generalizing cur with
  | nil =>
    cases rest with
    | nil => simp [scanWord]
    | cons d rest =>
      have := hrest d rfl
      simp [scanWord, this]
  | cons c w ih =>
    have hc := hw c (List.mem_cons_self _ _)
    rw [List.cons_append]
    simp only [scanWord, hc, if_true]
    rw [ih _ (fun x hx => hw x (List.mem_cons_of_mem _ hx))]
    simp

theorem isalpha_not_other (c : Char) (h : isalpha c = true) :
    isspace c = false ∧ (isdigit c || decide (c = '.')) = false := by
  simp only [isalpha, Bool.or_eq_true, Bool.and_eq_true, decide_eq_true_eq] at h
  have hdot : c ≠ '.' := by
    rintro rfl
    simp at h
  simp only [isspace, isdigit, Bool.or_eq_false_iff, Bool.and_eq_false_iff,
    decide_eq_false_iff_not, hdot, not_false_eq_true, and_true]
  omega

theorem tokenizeFrom_word (w rest : List Char) (hne : w ≠ [])
    (hw : ∀ c ∈ w, isalpha c = true)
    (hrest : ∀ c, rest.head? = some c → isalpha c = false) (e : Bool) (t : List Token) :
    tokenizeFrom (w ++ rest) e t
      = if String.mk w = "pi" ∨ String.mk w = "Pi" ∨ String.mk w = "PI" then
          tokenizeFrom rest false (t ++ [numberToken "3.141592653589793"])
        else if String.mk w = "sin" ∨ String.mk w = "cos" ∨ String.mk w = "tan" then
          tokenizeFrom rest true (t ++ [functionToken (String.mk w)])
        else .error (.invalid_argument ("Unrecognized function: " ++ String.mk w)) := by
  cases w with
  | nil => exact absurd rfl hne
  | cons c w1 =>
    have hc := hw c (List.mem_cons_self _ _)
    obtain ⟨h1, h2⟩ := isalpha_not_other c hc
    have hscan := scanWord_run (c :: w1) [] rest hw hrest
    rw [List.cons_append] at hscan ⊢
    rw [tokenizeFrom_cons]
    simp only [h1, h2, hc, Bool.false_eq_true, if_false, if_true, hscan, List.nil_append,
      numberToken, functionToken]

/-- C11 (the code departs from the claim): at a maximal run of letters `w`, tokenize emits
the NUMBER token 3.141592653589793 when `w` is pi, Pi or PI, the FUNCTION token `w` when `w`
is sin, cos or tan, and fails with the unrecognized-function error on every other word.  The
spelling pI is among the rejected words.  With the default settings "pi" evaluates to
3.141592653589793. -/
theorem C11_word_recognition (w rest : List Char) (e : Bool) (t : List Token)
    (pow : ℚ → ℚ → ℚ) (fileOpens : Bool) (hne : w ≠ [])
    (hw : ∀ c ∈ w, isalpha c = true)
    (hrest : ∀ c, rest.head? = some c → isalpha c = false) :
    (String.mk w ∈ ["pi", "Pi", "PI"] →
      tokenizeFrom (w ++ rest) e t
        = tokenizeFrom rest false (t ++ [numberToken "3.141592653589793"]))
    ∧ (String.mk w ∈ ["sin", "cos", "tan"] →
      tokenizeFrom (w ++ rest) e t
        = tokenizeFrom rest true (t ++ [functionToken (String.mk w)]))
    ∧ (String.mk w ∉ ["pi", "Pi", "PI", "sin", "cos", "tan"] →
      tokenizeFrom (w ++ rest) e t
        = .error (.invalid_argument ("Unrecognized function: " ++ String.mk w)))
    ∧ tokenize "pI" = .error (.invalid_argument "Unrecognized function: pI")
    ∧ tokenize "pi" = .ok [numberToken "3.141592653589793"]
    ∧ tokenize "Pi" = .ok [numberToken "3.141592653589793"]
    ∧ tokenize "PI" = .ok [numberToken "3.141592653589793"]
    ∧ tokenize "sin" = .ok [functionToken "sin"]
    ∧ tokenize "cos" = .ok [functionToken "cos"]
    ∧ tokenize "tan" = .ok [functionToken "tan"]
    ∧ evaluateExpression defaultSettings pow fileOpens "pi"
      = .ok (3141592653589793 / 1000000000000000)
    ∧ evaluateExpression defaultSettings pow fileOpens "pI"
      = .error (.invalid_argument "Unrecognized function: pI") := by
  have hword := tokenizeFrom_word w rest hne hw hrest e t
  have htpi : tokenize "pi" = .ok [numberToken "3.141592653589793"] := by decide
  have htbad : tokenize "pI" = .error (.invalid_argument "Unrecognized function: pI") := by
    decide
  refine ⟨?_, ?_, ?_, htbad, htpi, by decide, by decide, by decide, by decide, by decide,
    ?_, ?_⟩
  · intro h
    simp only [List.mem_cons, List.mem_singleton, List.not_mem_nil, or_false] at h
    rw [hword, if_pos h]
  · intro h
    simp only [List.mem_cons, List.mem_singleton, List.not_mem_nil, or_false] at h
    have hnpi : ¬ (String.mk w = "pi" ∨ String.mk w = "Pi" ∨ String.mk w = "PI") := by
      rcases h with h | h | h <;> rw [h] <;> decide
    rw [hword, if_neg hnpi, if_pos h]
  · intro h
    simp only [List.mem_cons, List.mem_singleton, List.not_mem_nil, or_false, not_or] at h
    obtain ⟨h1, h2, h3, h4, h5, h6⟩ := h
    rw [hword, if_neg (by simp [h1, h2, h3]), if_neg (by simp [h4, h5, h6])]
  · rw [evaluateExpression_of_stages defaultSettings pow fileOpens "pi"
      [numberToken "3.141592653589793"] [numberToken "3.141592653589793"]
      (3141592653589793 / 1000000000000000) htpi (by decide)
      (by simp [evaluateRPN, evalLoop, evalStep, numberToken, stod_pi])
      (Or.inl rfl)]
    rw [if_neg]
    rw [abs_of_pos (by norm_num)]
    norm_num [defaultSettings]
  · simp only [evaluateExpression, htbad]

/-- Witness of C11 at the word sin followed by "(0)". -/
theorem C11_word_recognition_witness :
    ("sin" : String).data ≠ []
    ∧ (∀ c ∈ ("sin" : String).data, isalpha c = true)
    ∧ (∀ c, ("(0)" : String).data.head? = some c → isalpha c = false)
    ∧ String.mk ("sin" : String).data ∈ ["sin", "cos", "tan"]
    ∧ tokenizeFrom (("sin" : String).data ++ ("(0)" : String).data) true []
      = tokenizeFrom ("(0)" : String).data true
          ([] ++ [functionToken (String.mk ("sin" : String).data)]) :=
  have h1 : ("sin" : String).data ≠ [] := by decide
  have h2 : ∀ c ∈ ("sin" : String).data, isalpha c = true := by decide
  have h3 : ∀ c, ("(0)" : String).data.head? = some c → isalpha c = false := by
    intro c hc
    simp only [List.head?_cons, Option.some.injEq] at hc
    subst hc
    decide
  have h4 : String.mk ("sin" : String).data ∈ ["sin", "cos", "tan"] := by decide
  ⟨h1, h2, h3, h4,
    (C11_word_recognition ("sin" : String).data ("(0)" : String).data true [] powTrunc false
      h1 h2 h3).2.1 h4⟩

/-! ## Token coverage (C12) -/

theorem coveredText_concat (t : List Token) (tok : Token) :
    coveredText (t ++ [tok]) = coveredText t ++ readBack tok := by
  simp [coveredText]

theorem scanNumber_ok_split (input cur tok r : List Char)
    (h : scanNumber cur input = .ok (tok, r)) :
    ∃ run, tok = cur ++ run ∧ input = run ++ r ∧ ∀ c ∈ run, isNumberChar c = true := by
  induction input generalizing cur with
  | nil =>
    simp only [scanNumber, Except.ok.injEq, Prod.mk.injEq] at h
    exact ⟨[], by simp [h.1], by simp [h.2], by simp⟩
  | cons c input ih =>
    simp only [scanNumber] at h
    split at h
    · rename_i hc
      split at h
      · cases h
      · obtain ⟨run, h1, h2, h3⟩ := ih _ h
        refine ⟨c :: run, by simp [h1], by simp [h2], ?_⟩
        intro x hx
        rcases List.mem_cons.mp hx with rfl | hx
        · simpa [isNumberChar] using hc
        · exact h3 x hx
    · simp only [Except.ok.injEq, Prod.mk.injEq] at h
      exact ⟨[], by simp [h.1], by simp [h.2], by simp⟩

theorem scanWord_split (input cur : List Char) :
    ∃ run, (scanWord cur input).1 = cur ++ run ∧ input = run ++ (scanWord cur input).2
      ∧ ∀ c ∈ run, isalpha c = true := by
  induction input generalizing cur with
  | nil => exact ⟨[], by simp [scanWord], by simp [scanWord], by simp⟩
  | cons c input ih =>
    simp only [scanWord]
    split
    · rename_i hc
      obtain ⟨run, h1, h2, h3⟩ := ih (cur ++ [c])
      refine ⟨c :: run, by simp [h1], ?_, ?_⟩
      · rw [List.cons_append, ← h2]
      · intro x hx
        rcases List.mem_cons.mp hx with rfl | hx
        · exact hc
        · exact h3 x hx
    · exact ⟨[], by simp, by simp, by simp⟩

theorem noPiConstant_suffix (a b : List Char) (h : NoPiConstant (a ++ b)) :
    NoPiConstant b := by
  have hsuf : b <:+: a ++ b := (List.suffix_append a b).isInfix
  exact ⟨fun hh => h.1 (hh.trans hsuf), fun hh => h.2.1 (hh.trans hsuf),
    fun hh => h.2.2 (hh.trans hsuf)⟩

theorem noPiConstant_prefix (w rest : List Char) (h : NoPiConstant (w ++ rest)) :
    ¬ (String.mk w = "pi" ∨ String.mk w = "Pi" ∨ String.mk w = "PI") := by
  have hpre : w <:+: w ++ rest := (List.prefix_append w rest).isInfix
  have hdata : ∀ (lit : String), String.mk w = lit → w = lit.data := by
    intro lit hl
    rw [← hl]
  rintro (hh | hh | hh)
  · have hw := hdata _ hh
    subst hw
    exact h.1 hpre
  · have hw := hdata _ hh
    subst hw
    exact h.2.1 hpre
  · have hw := hdata _ hh
    subst hw
    exact h.2.2 hpre

theorem filter_not_space_of (run : List Char) (h : ∀ c ∈ run, isspace c = false) :
    run.filter (fun c => !isspace c) = run := by
  apply List.filter_eq_self.mpr
  intro c hc
  simp [h c hc]

theorem tokenizeFrom_covers (n : ℕ) (input : List Char) (hlen : input.length ≤ n)
    (e : Bool) (t out : List Token) (hpi : NoPiConstant input)
    (h : tokenizeFrom input e t = .ok out) :
    coveredText out = coveredText t ++ input.filter (fun c => !isspace c) := by
  induction n generalizing input e t with
  | zero =>
    have : input = [] := List.length_eq_zero.mp (Nat.le_zero.mp hlen)
    subst this
    simp only [tokenizeFrom_nil, Except.ok.injEq] at h
    simp [h]
  | succ n ih =>
    cases input with
    | nil =>
      simp only [tokenizeFrom_nil, Except.ok.injEq] at h
      simp [h]
    | cons c rest =>
      simp only [List.length_cons, Nat.add_le_add_iff_right] at hlen
      have hpiRest : NoPiConstant rest := noPiConstant_suffix [c] rest hpi
      have single : ∀ (e1 : Bool) (tok : Token), isspace c = false → readBack tok = [c] →
          tokenizeFrom rest e1 (t ++ [tok]) = .ok out →
          coveredText out = coveredText t ++ (c :: rest).filter (fun c => !isspace c) := by
        intro e1 tok hsp hrb hrun
        rw [ih rest hlen e1 _ hpiRest hrun, coveredText_concat, hrb]
        simp [List.filter_cons, hsp]
      rw [tokenizeFrom_cons] at h
      by_cases h1 : isspace c = true
      · simp only [h1, if_true] at h
        rw [ih rest hlen e t hpiRest h]
        simp [List.filter_cons, h1]
      · have hsp : isspace c = false := by simpa using h1
        simp only [h1, if_false] at h
        by_cases h2 : (isdigit c || decide (c = '.')) = true
        · simp only [h2, if_true] at h
          cases hs : scanNumber [] (c :: rest) with
          | error err => simp [hs] at h
          | ok p =>
            obtain ⟨tok, r⟩ := p
            simp only [hs] at h
            obtain ⟨run, hr1, hr2, hr3⟩ := scanNumber_ok_split _ _ _ _ hs
            rw [List.nil_append] at hr1
            subst hr1
            have hl := scanNumber_cons_length c rest tok r h2 hs
            have hpiR : NoPiConstant r := noPiConstant_suffix tok r (hr2 ▸ hpi)
            rw [ih r (le_trans hl hlen) false _ hpiR h, coveredText_concat, hr2,
              List.filter_append,
              filter_not_space_of tok (fun x hx => isNumberChar_not_space x (hr3 x hx))]
            simp [readBack]
        · simp only [h2, if_false, Bool.false_eq_true] at h
          by_cases h3 : isalpha c = true
          · simp only [h3, if_true] at h
            obtain ⟨run, hr1, hr2, hr3⟩ := scanWord_split (c :: rest) []
            rw [List.nil_append] at hr1
            have hl := scanWord_cons_length c rest h3
            have hnpi := noPiConstant_prefix (scanWord [] (c :: rest)).1
              (scanWord [] (c :: rest)).2 (by rw [hr1, ← hr2]; exact hpi)
            have hpiR : NoPiConstant (scanWord [] (c :: rest)).2 :=
              noPiConstant_suffix run _ (hr2 ▸ hpi)
            simp only [hnpi, if_false] at h
            split at h
            · rw [ih _ (le_trans hl hlen) true _ hpiR h, coveredText_concat]
              have hfil : (c :: rest).filter (fun c => !isspace c)
                  = run ++ ((scanWord [] (c :: rest)).2).filter (fun c => !isspace c) := by
                conv_lhs => rw [hr2]
                rw [List.filter_append,
                  filter_not_space_of run (fun x hx => (isalpha_not_other x (hr3 x hx)).1)]
              rw [hfil, hr1]
              simp [readBack]
            · cases h
          · simp only [h3, if_false, Bool.false_eq_true] at h
            by_cases h4 : c = '^' ∨ c = '*' ∨ c = '/' ∨ c = '+' ∨ c = '-'
            · simp only [h4, if_true] at h
              split at h
              · rename_i hminus
                exact single true _ hsp (by simp [readBack, hminus.1]) h
              · refine single true _ hsp ?_ h
                have : ¬ (String.mk [c] = "u-") := by
                  intro hh
                  have := congrArg String.length hh
                  simp [String.length] at this
                simp [readBack, this]
            · simp only [h4, if_false] at h
              by_cases h6 : c = '('
              · simp only [h6, if_true] at h
                subst h6
                exact single true _ hsp (by simp [readBack]) h
              · simp only [h6, if_false] at h
                by_cases h7 : c = ')'
                · simp only [h7, if_true] at h
                  subst h7
                  exact single false _ hsp (by simp [readBack]) h
                · simp only [h7, if_false] at h
                  cases h

/-- C12: when tokenize succeeds on an input without the constant pi, the texts of the
tokens, in order and with `u-` read back as `-`, concatenate to the input with its
whitespace characters removed. -/
theorem C12_token_coverage (s : String) (ts : List Token) (h : tokenize s = .ok ts)
    (hpi : NoPiConstant s.data) :
    coveredText ts = s.data.filter (fun c => !isspace c) := by
  have := tokenizeFrom_covers s.data.length s.data (le_refl _) true [] ts hpi h
  simpa [coveredText] using this

/-- Witness of C12 at the input " -sin( 1.5 ) * 2". -/
theorem C12_token_coverage_witness :
    tokenize " -sin( 1.5 ) * 2"
      = .ok [operatorToken "u-", functionToken "sin", leftParen, numberToken "1.5",
          rightParen, operatorToken "*", numberToken "2"]
    ∧ NoPiConstant (" -sin( 1.5 ) * 2" : String).data
    ∧ coveredText [operatorToken "u-", functionToken "sin", leftParen, numberToken "1.5",
          rightParen, operatorToken "*", numberToken "2"]
      = (" -sin( 1.5 ) * 2" : String).data.filter (fun c => !isspace c) :=
  have ht : tokenize " -sin( 1.5 ) * 2"
      = .ok [operatorToken "u-", functionToken "sin", leftParen, numberToken "1.5",
          rightParen, operatorToken "*", numberToken "2"] := by decide
  have hpi : NoPiConstant (" -sin( 1.5 ) * 2" : String).data := by
    unfold NoPiConstant
    decide
  ⟨ht, hpi, C12_token_coverage " -sin( 1.5 ) * 2" _ ht hpi⟩

/-! ## Unary minus against exponentiation (C28) -/

/-- C28: for all NUMBER tokens a and b, convertToRPN turns u- a ^ b into a u- b ^ and
a ^ u- b into a b u- ^ (the unary minus has the greater precedence, and a right-associative
operator pops nothing of its own precedence).  So when the texts a and b have the values x
and y, the first postfix form evaluates to pow(-x, y) and the second to pow(x, -y).  With
a power function exact on natural exponents and the default settings the input "-2 ^ 2"
evaluates to 4, and the input "2 ^ -2" has the postfix value pow(2, -2). -/
theorem C28_unary_minus_binds_tighter (c : Settings) (pow : ℚ → ℚ → ℚ) (a b : String) :
    convertToRPN [operatorToken "u-", numberToken a, operatorToken "^", numberToken b]
      = .ok [numberToken a, operatorToken "u-", numberToken b, operatorToken "^"]
    ∧ convertToRPN [numberToken a, operatorToken "^", operatorToken "u-", numberToken b]
      = .ok [numberToken a, numberToken b, operatorToken "u-", operatorToken "^"]
    ∧ (∀ x y : ℚ, stod a = some x → stod b = some y →
        evaluateRPN c pow
            [numberToken a, operatorToken "u-", numberToken b, operatorToken "^"]
          = .ok (pow (-x) y)
        ∧ evaluateRPN c pow
            [numberToken a, numberToken b, operatorToken "u-", operatorToken "^"]
          = .ok (pow x (-y)))
    ∧ tokenize "-2 ^ 2"
      = .ok [operatorToken "u-", numberToken "2", operatorToken "^", numberToken "2"]
    ∧ tokenize "2 ^ -2"
      = .ok [numberToken "2", operatorToken "^", operatorToken "u-", numberToken "2"]
    ∧ (PowExactOnNat pow → ∀ fileOpens : Bool,
        evaluateExpression defaultSettings pow fileOpens "-2 ^ 2" = .ok 4) := by
  have h1 : convertToRPN
      [operatorToken "u-", numberToken a, operatorToken "^", numberToken b]
      = .ok [numberToken a, operatorToken "u-", numberToken b, operatorToken "^"] := rfl
  have h2 : convertToRPN
      [numberToken a, operatorToken "^", operatorToken "u-", numberToken b]
      = .ok [numberToken a, numberToken b, operatorToken "u-", operatorToken "^"] := rfl
  have ht : tokenize "-2 ^ 2"
      = .ok [operatorToken "u-", numberToken "2", operatorToken "^", numberToken "2"] := by
    decide
  have ht2 : tokenize "2 ^ -2"
      = .ok [numberToken "2", operatorToken "^", operatorToken "u-", numberToken "2"] := by
    decide
  have he : ∀ x y : ℚ, stod a = some x → stod b = some y →
      evaluateRPN c pow
          [numberToken a, operatorToken "u-", numberToken b, operatorToken "^"]
        = .ok (pow (-x) y)
      ∧ evaluateRPN c pow
          [numberToken a, numberToken b, operatorToken "u-", operatorToken "^"]
        = .ok (pow x (-y)) := by
    intro x y hx hy
    constructor <;>
      simp [evaluateRPN, evalLoop, evalStep, numberToken, operatorToken, hx, hy]
  refine ⟨h1, h2, he, ht, ht2, ?_⟩
  intro hpow fileOpens
  have hc : convertToRPN
      [operatorToken "u-", numberToken "2", operatorToken "^", numberToken "2"]
      = .ok [numberToken "2", operatorToken "u-", numberToken "2", operatorToken "^"] := rfl
  have hv : evaluateRPN defaultSettings pow
      [numberToken "2", operatorToken "u-", numberToken "2", operatorToken "^"]
      = .ok 4 := by
    simp [evaluateRPN, evalLoop, evalStep, numberToken, operatorToken, stod_digit_lit,
      pow_ofNat pow hpow]
    norm_num
  rw [evaluateExpression_of_stages defaultSettings pow fileOpens "-2 ^ 2" _ _ 4 ht hc hv
    (Or.inl rfl)]
  rw [if_neg]
  rw [abs_of_pos (by norm_num)]
  norm_num [defaultSettings]

/-- Witness of C28 with the texts "3" and "2" and a power function exact on natural
exponents: the postfix form 3 u- 2 ^ evaluates to pow(-3, 2), and "-2 ^ 2" to 4. -/
theorem C28_unary_minus_binds_tighter_witness :
    stod "3" = some 3 ∧ stod "2" = some 2 ∧ PowExactOnNat powTrunc
    ∧ evaluateRPN defaultSettings powTrunc
        [numberToken "3", operatorToken "u-", numberToken "2", operatorToken "^"]
      = .ok (powTrunc (-3) 2)
    ∧ evaluateExpression defaultSettings powTrunc false "-2 ^ 2" = .ok 4 :=
  ⟨stod_digit_lit.2.2.2.1, stod_digit_lit.2.2.1, powTrunc_exact,
    ((C28_unary_minus_binds_tighter defaultSettings powTrunc "3" "2").2.2.1 3 2
      stod_digit_lit.2.2.2.1 stod_digit_lit.2.2.1).1,
    (C28_unary_minus_binds_tighter defaultSettings powTrunc "3" "2").2.2.2.2.2
      powTrunc_exact false⟩

/-! ## Payment against future value (C29) -/

theorem fv_of_pmt_algebra (pv fv i p q : ℚ) (hi : i ≠ 0) (hp : p ≠ 0) (hp1 : p ≠ 1)
    (hq : q = p⁻¹) :
    -pv * p - (-pv * i - (fv * i) / p) / (1 - q) * ((p - 1) / i) = fv := by
  subst hq
  have h1 : p - 1 ≠ 0 := sub_ne_zero.mpr hp1
  have h2 : 1 - p⁻¹ ≠ 0 := by
    intro h
    apply hp1
    have : p⁻¹ = 1 := by linarith
    simpa using congrArg (fun t => t⁻¹) this
  field_simp
  ring

theorem calculatePMT_positive (c : Settings) (pow : ℚ → ℚ → ℚ) (pv fv i n : ℚ) (hi : 0 < i)
    (hn : 0 < n) :
    calculatePMT c pow pv fv i n
      = .ok (snap c ((-pv * i - (fv * i) / pow (1 + i) n) / (1 - pow (1 + i) (-n)))) := by
  have h : ¬ (i ≤ 0 ∨ n ≤ 0) := by rintro (h | h) <;> linarith
  simp only [calculatePMT, if_neg h, snap]
  split <;> rfl

/-- C29: for every rate i > 0 and number of periods n > 0 (the power function obeying its
laws on a positive base), calculatePMT(pv, fv, i, n) returns a payment, and when that
payment is not one replaced by 0 by the threshold, calculateFV of pv and that payment is fv,
replaced by 0 when the magnitude of fv is below the threshold: it is exactly fv when the
future value is not snapped either. -/
theorem C29_payment_future_value (c : Settings) (pow : ℚ → ℚ → ℚ) (pv fv i n : ℚ)
    (hi : 0 < i) (hn : 0 < n) (hpow : PowPositiveBaseLaws pow) :
    (∃ pmt, calculatePMT c pow pv fv i n = .ok pmt)
    ∧ ∀ pmt, calculatePMT c pow pv fv i n = .ok pmt →
        c.settingErrorThreshold ≤ |pmt| →
        calculateFV c pow pv pmt i n = snap c fv
        ∧ (c.settingErrorThreshold ≤ |fv| → calculateFV c pow pv pmt i n = fv) := by
  have hok := calculatePMT_positive c pow pv fv i n hi hn
  refine ⟨⟨_, hok⟩, ?_⟩
  intro pmt hpmt hbig
  rw [hok] at hpmt
  have hpmt2 : snap c ((-pv * i - (fv * i) / pow (1 + i) n) / (1 - pow (1 + i) (-n)))
      = pmt := by
    injection hpmt
  obtain ⟨hpos, hrec, hgt⟩ := hpow (1 + i) n (by linarith)
  have h1 : 1 < pow (1 + i) n := hgt (by linarith) hn
  have hraw : pmt = (-pv * i - (fv * i) / pow (1 + i) n) / (1 - pow (1 + i) (-n)) := by
    rw [← hpmt2]
    unfold snap
    split
    · rename_i hsmall
      exfalso
      rw [← hpmt2] at hbig
      unfold snap at hbig
      rw [if_pos hsmall, abs_zero] at hbig
      have := abs_nonneg ((-pv * i - (fv * i) / pow (1 + i) n) / (1 - pow (1 + i) (-n)))
      linarith
    · rfl
  have hfv : calculateFV c pow pv pmt i n = snap c fv := by
    simp only [calculateFV, if_neg hi.ne', snap]
    rw [hraw, fv_of_pmt_algebra pv fv i _ _ hi.ne' hpos.ne' h1.ne' hrec]
  refine ⟨hfv, fun hfvbig => ?_⟩
  rw [hfv, snap, if_neg (not_lt.mpr hfvbig)]

theorem pmt_sample :
    calculatePMT defaultSettings powNum 1000 100 (1 / 10) 2 = .ok (-13100 / 21) := by
  rw [calculatePMT_positive _ _ _ _ _ _ (by norm_num) (by norm_num), snap, if_neg]
  · norm_num [powNum]
  · norm_num [powNum, defaultSettings]
    rw [abs_of_pos (by norm_num)]
    norm_num

/-- Witness of C29 at pv = 1000, fv = 100, i = 1/10, n = 2 with the default settings: the
payment is -13100/21 and the future value of pv and that payment is 100. -/
theorem C29_payment_future_value_witness :
    (0 : ℚ) < 1 / 10 ∧ (0 : ℚ) < 2 ∧ PowPositiveBaseLaws powNum
    ∧ calculatePMT defaultSettings powNum 1000 100 (1 / 10) 2 = .ok (-13100 / 21)
    ∧ defaultSettings.settingErrorThreshold ≤ |(-13100 / 21 : ℚ)|
    ∧ defaultSettings.settingErrorThreshold ≤ |(100 : ℚ)|
    ∧ calculateFV defaultSettings powNum 1000 (-13100 / 21) (1 / 10) 2 = 100 :=
  have h1 : defaultSettings.settingErrorThreshold ≤ |(-13100 / 21 : ℚ)| := by
    rw [abs_of_neg (by norm_num)]
    norm_num [defaultSettings]
  have h2 : defaultSettings.settingErrorThreshold ≤ |(100 : ℚ)| := by
    rw [abs_of_pos (by norm_num)]
    norm_num [defaultSettings]
  ⟨by norm_num, by norm_num, powNum_laws, pmt_sample, h1, h2,
    ((C29_payment_future_value defaultSettings powNum 1000 100 (1 / 10) 2 (by norm_num)
      (by norm_num) powNum_laws).2 _ pmt_sample h1).2 h2⟩

/-! ## The settings menu (C23) -/

theorem settingsSwitch_inDomain (settings : Settings) (entry : SettingsEntry)
    (h : SettingsInDomain settings) : SettingsInDomain (settingsSwitch settings entry) := by
  obtain ⟨h1, h2, h3, h4⟩ := h
  unfold settingsSwitch
  split_ifs with a b c d e f g k l m
  all_goals first
    | exact ⟨h1, h2, h3, h4⟩
    | exact ⟨by show (1 : ℤ) ≤ entry.terms; omega, h2, h3, h4⟩
    | exact ⟨h1, h2, by assumption, h4⟩
    | exact ⟨h1, h2, h3, by assumption⟩
    | exact ⟨h1, by assumption, h3, h4⟩

theorem settingsMenu_inDomain (entries : List SettingsEntry) (settings : Settings)
    (h : SettingsInDomain settings) : SettingsInDomain (settingsMenu settings entries) := by
  induction entries generalizing settings with
  | nil => exact h
  | cons entry rest ih =>
    exact ih (settingsSwitch settings entry) (settingsSwitch_inDomain settings entry h)

theorem defaultSettings_inDomain : SettingsInDomain defaultSettings := by
  refine ⟨?_, ?_, ?_, ?_⟩ <;> norm_num [defaultSettings]

/-- C23: in the settings menu an update of the Taylor terms with a value <= 0, or of the
initial guesses or the error threshold with a value <= 0, leaves the settings as they
were; an update with a value in the domain sets the setting addressed to that value and
leaves every other setting as it was; options 1 and 2 toggle one flag each and every other
option changes nothing.  So the settings reached from the defaults by any sequence of
rounds of the menu have at least one Taylor term, a positive error threshold and positive
initial guesses, and the same holds from any settings that are in their domains. -/
theorem C23_configuration_validation (settings : Settings) (entry : SettingsEntry)
    (entries : List SettingsEntry) :
    (entry.settingsMenuOption = 3 → entry.terms ≤ 0 →
        settingsSwitch settings entry = settings)
    ∧ (entry.settingsMenuOption = 4 ∨ entry.settingsMenuOption = 5
          ∨ entry.settingsMenuOption = 6 →
        entry.entered ≤ 0 → settingsSwitch settings entry = settings)
    ∧ (entry.settingsMenuOption = 3 → 0 < entry.terms →
        settingsSwitch settings entry = { settings with settingTaylorTerms := entry.terms })
    ∧ (entry.settingsMenuOption = 4 → 0 < entry.entered →
        settingsSwitch settings entry
          = { settings with settingInitialGuessInterest := entry.entered })
    ∧ (entry.settingsMenuOption = 5 → 0 < entry.entered →
        settingsSwitch settings entry
          = { settings with settingInitialGuessPeriods := entry.entered })
    ∧ (entry.settingsMenuOption = 6 → 0 < entry.entered →
        settingsSwitch settings entry
          = { settings with settingErrorThreshold := entry.entered })
    ∧ (entry.settingsMenuOption = 1 →
        settingsSwitch settings entry
          = { settings with settingRadianMode := !settings.settingRadianMode })
    ∧ (entry.settingsMenuOption = 2 →
        settingsSwitch settings entry
          = { settings with settingSaveHistory := !settings.settingSaveHistory })
    ∧ (entry.settingsMenuOption < 1 ∨ 6 < entry.settingsMenuOption →
        settingsSwitch settings entry = settings)
    ∧ SettingsInDomain (settingsMenu defaultSettings entries)
    ∧ (SettingsInDomain settings → SettingsInDomain (settingsMenu settings entries)) := by
  refine ⟨?_, ?_, ?_, ?_, ?_, ?_, ?_, ?_, ?_, ?_, ?_⟩
  · intro h ht
    simp [settingsSwitch, h, not_lt.mpr ht]
  · rintro (h | h | h) ht <;> simp [settingsSwitch, h, not_lt.mpr ht]
  · intro h ht
    simp [settingsSwitch, h, ht]
  · intro h ht
    simp [settingsSwitch, h, ht]
  · intro h ht
    simp [settingsSwitch, h, ht]
  · intro h ht
    simp [settingsSwitch, h, ht]
  · intro h
    simp [settingsSwitch, h]
  · intro h
    simp [settingsSwitch, h]
  · intro h
    have h1 : entry.settingsMenuOption ≠ 1 := by omega
    have h2 : entry.settingsMenuOption ≠ 2 := by omega
    have h3 : entry.settingsMenuOption ≠ 3 := by omega
    have h4 : entry.settingsMenuOption ≠ 4 := by omega
    have h5 : entry.settingsMenuOption ≠ 5 := by omega
    have h6 : entry.settingsMenuOption ≠ 6 := by omega
    simp [settingsSwitch, h1, h2, h3, h4, h5, h6]
  · exact settingsMenu_inDomain entries _ defaultSettings_inDomain
  · exact settingsMenu_inDomain entries settings

/-- Witness of C23: from the defaults, the rejected updates "0 Taylor terms" and "error
threshold -1" change nothing, the update "error threshold 1e-7" changes that setting only,
and the settings after the three rounds are in their domains. -/
theorem C23_configuration_validation_witness :
    settingsSwitch defaultSettings ⟨3, 0, 0⟩ = defaultSettings
    ∧ settingsSwitch defaultSettings ⟨6, 0, -1⟩ = defaultSettings
    ∧ settingsSwitch defaultSettings ⟨6, 0, 1 / 10 ^ 7⟩
      = { defaultSettings with settingErrorThreshold := 1 / 10 ^ 7 }
    ∧ SettingsInDomain
        (settingsMenu defaultSettings [⟨3, 0, 0⟩, ⟨6, 0, -1⟩, ⟨6, 0, 1 / 10 ^ 7⟩]) :=
  ⟨(C23_configuration_validation defaultSettings ⟨3, 0, 0⟩ []).1 rfl (by decide),
    (C23_configuration_validation defaultSettings ⟨6, 0, -1⟩ []).2.1 (Or.inr (Or.inr rfl))
      (by norm_num),
    (C23_configuration_validation defaultSettings ⟨6, 0, 1 / 10 ^ 7⟩ []).2.2.2.2.2.1 rfl
      (by norm_num),
    (C23_configuration_validation defaultSettings ⟨3, 0, 0⟩
      [⟨3, 0, 0⟩, ⟨6, 0, -1⟩, ⟨6, 0, 1 / 10 ^ 7⟩]).2.2.2.2.2.2.2.2.2.1⟩

/-! ## What the converter does with the tokens (C26) -/

theorem popOperators_moves (op : String) (out st : List Token) :
    ∃ moved, (popOperators op out st).1 = out ++ moved
      ∧ st = moved ++ (popOperators op out st).2
      ∧ ∀ t ∈ moved, t.type ≠ .LEFT_PAREN := by
  induction st generalizing out with
  | nil => exact ⟨[], by simp [popOperators], by simp [popOperators], by simp⟩
  | cons top st ih =>
    simp only [popOperators]
    split
    · rename_i h
      obtain ⟨moved, h1, h2, h3⟩ := ih (out ++ [top])
      refine ⟨top :: moved, by simpa using h1, ?_, ?_⟩
      · rw [List.cons_append, ← h2]
      · intro t ht
        rcases List.mem_cons.mp ht with rfl | ht
        · exact h.1
        · exact h3 t ht
    · exact ⟨[], by simp, by simp, by simp⟩

theorem popUntilLeftParen_moves (out st : List Token) :
    ∃ moved, (popUntilLeftParen out st).1 = out ++ moved
      ∧ st = moved ++ (popUntilLeftParen out st).2
      ∧ (∀ t ∈ moved, t.type ≠ .LEFT_PAREN)
      ∧ ∀ t ∈ (popUntilLeftParen out st).2.head?, t.type = .LEFT_PAREN := by
  induction st generalizing out with
  | nil => exact ⟨[], by simp [popUntilLeftParen], by simp [popUntilLeftParen], by simp,
      by simp [popUntilLeftParen]⟩
  | cons top st ih =>
    simp only [popUntilLeftParen]
    split
    · rename_i h
      obtain ⟨moved, h1, h2, h3, h4⟩ := ih (out ++ [top])
      refine ⟨top :: moved, by simpa using h1, ?_, ?_, h4⟩
      · rw [List.cons_append, ← h2]
      · intro t ht
        rcases List.mem_cons.mp ht with rfl | ht
        · exact h
        · exact h3 t ht
    · rename_i h
      refine ⟨[], by simp, by simp, by simp, ?_⟩
      intro t ht
      simp only [List.head?_cons, Option.mem_def, Option.some.injEq] at ht
      subst ht
      exact not_not.mp h

theorem drainOperators_ok (out st o : List Token) (h : drainOperators out st = .ok o) :
    o = out ++ st ∧ ∀ t ∈ st, t.type ≠ .LEFT_PAREN := by
  induction st generalizing out with
  | nil =>
    simp only [drainOperators, Except.ok.injEq] at h
    simp [h]
  | cons top st ih =>
    simp only [drainOperators] at h
    by_cases hl : top.type = .LEFT_PAREN
    · simp [hl] at h
    · rw [if_neg hl] at h
      obtain ⟨h1, h2⟩ := ih _ h
      refine ⟨by simpa using h1, ?_⟩
      intro t ht
      rcases List.mem_cons.mp ht with rfl | ht
      · exact hl
      · exact h2 t ht

theorem nonParens_append (xs ys : List Token) :
    nonParens (xs ++ ys) = nonParens xs ++ nonParens ys := by
  simp [nonParens]

theorem numberTokens_append (xs ys : List Token) :
    numberTokens (xs ++ ys) = numberTokens xs ++ numberTokens ys := by
  simp [numberTokens]

theorem nonParens_of_noLeft (xs : List Token)
    (h1 : ∀ t ∈ xs, t.type ≠ .LEFT_PAREN)
    (h2 : ∀ t ∈ xs, t.type ≠ .NUMBER ∧ t.type ≠ .RIGHT_PAREN) :
    nonParens xs = xs ∧ numberTokens xs = [] ∧ ∀ t ∈ xs, isParen t = false := by
  refine ⟨?_, ?_, ?_⟩
  · rw [nonParens, List.filter_eq_self]
    intro t ht
    simp [isParen, h1 t ht, (h2 t ht).2]
  · rw [numberTokens, List.filter_eq_nil_iff]
    intro t ht
    simp [(h2 t ht).1]
  · intro t ht
    simp [isParen, h1 t ht, (h2 t ht).2]

/-- One iteration of the loop of `convertToRPN` keeps the operator stack free of NUMBER and
RIGHT_PAREN tokens and the output free of parentheses, moves or drops no token other than
a parenthesis, and appends a NUMBER token to the NUMBER tokens of the output. -/
theorem convertStep_tokens (out st out1 st1 : List Token) (t : Token)
    (h : convertStep (out, st) t = .ok (out1, st1))
    (hst : ∀ x ∈ st, x.type ≠ .NUMBER ∧ x.type ≠ .RIGHT_PAREN) :
    (∀ x ∈ st1, x.type ≠ .NUMBER ∧ x.type ≠ .RIGHT_PAREN)
    ∧ ((∀ x ∈ out, isParen x = false) → ∀ x ∈ out1, isParen x = false)
    ∧ List.Perm (nonParens out1 ++ nonParens st1)
        (nonParens out ++ nonParens st ++ nonParens [t])
    ∧ numberTokens out1 = numberTokens out ++ numberTokens [t] := by
  cases ht : t.type
  · -- NUMBER
    simp only [convertStep, ht, Except.ok.injEq, Prod.mk.injEq] at h
    obtain ⟨rfl, rfl⟩ := h
    have hp : isParen t = false := by simp [isParen, ht]
    refine ⟨hst, ?_, ?_, ?_⟩
    · intro ho x hx
      rcases List.mem_append.mp hx with hx | hx
      · exact ho x hx
      · simp only [List.mem_singleton] at hx
        subst hx
        exact hp
    · rw [nonParens_append, ← Multiset.coe_eq_coe]
      simp only [← Multiset.coe_add]
      abel
    · rw [numberTokens_append]
  · -- OPERATOR
    simp only [convertStep, ht, Except.ok.injEq, Prod.mk.injEq] at h
    obtain ⟨rfl, rfl⟩ := h
    obtain ⟨moved, h1, h2, h3⟩ := popOperators_moves t.value out st
    have hm : ∀ x ∈ moved, x.type ≠ .NUMBER ∧ x.type ≠ .RIGHT_PAREN := by
      intro x hx
      exact hst x (by rw [h2]; exact List.mem_append_left _ hx)
    obtain ⟨hm1, hm2, hm3⟩ := nonParens_of_noLeft moved h3 hm
    have hp : isParen t = false := by simp [isParen, ht]
    refine ⟨?_, ?_, ?_, ?_⟩
    · intro x hx
      rcases List.mem_cons.mp hx with rfl | hx
      · simp [ht]
      · exact hst x (by rw [h2]; exact List.mem_append_right _ hx)
    · intro ho x hx
      rw [h1] at hx
      rcases List.mem_append.mp hx with hx | hx
      · exact ho x hx
      · exact hm3 x hx
    · rw [h1]
      conv_rhs => rw [h2]
      simp only [nonParens_append]
      have e : nonParens (t :: (popOperators t.value out st).2)
          = nonParens [t] ++ nonParens (popOperators t.value out st).2 := by
        rw [← nonParens_append]; rfl
      rw [e]
      rw [← Multiset.coe_eq_coe]
      simp only [← Multiset.coe_add]
      abel
    · rw [h1, numberTokens_append, hm2]
      simp [numberTokens, ht]
  · -- FUNCTION
    simp only [convertStep, ht, Except.ok.injEq, Prod.mk.injEq] at h
    obtain ⟨rfl, rfl⟩ := h
    refine ⟨?_, fun ho => ho, ?_, ?_⟩
    · intro x hx
      rcases List.mem_cons.mp hx with rfl | hx
      · simp [ht]
      · exact hst x hx
    · have e : nonParens (t :: st) = nonParens [t] ++ nonParens st := by
        rw [← nonParens_append]; rfl
      rw [e]
      rw [← Multiset.coe_eq_coe]
      simp only [← Multiset.coe_add]
      abel
    · simp [numberTokens, ht]
  · -- LEFT_PAREN
    simp only [convertStep, ht, Except.ok.injEq, Prod.mk.injEq] at h
    obtain ⟨rfl, rfl⟩ := h
    refine ⟨?_, fun ho => ho, ?_, ?_⟩
    · intro x hx
      rcases List.mem_cons.mp hx with rfl | hx
      · simp [ht]
      · exact hst x hx
    · have e : nonParens (t :: st) = nonParens st := by
        simp [nonParens, isParen, ht]
      have e2 : nonParens [t] = [] := by simp [nonParens, isParen, ht]
      rw [e, e2]
      simp
    · simp [numberTokens, ht]
  · -- RIGHT_PAREN
    simp only [convertStep, ht] at h
    obtain ⟨moved, h1, h2, h3, h4⟩ := popUntilLeftParen_moves out st
    cases hp : popUntilLeftParen out st with
    | mk o s =>
      rw [hp] at h h1 h2 h4
      cases s with
      | nil => simp at h
      | cons lp s1 =>
        simp only [Except.ok.injEq, Prod.mk.injEq] at h
        obtain ⟨rfl, rfl⟩ := h
        simp only at h1 h2 h4
        have hlp : lp.type = .LEFT_PAREN := h4 lp (by simp)
        have hm : ∀ x ∈ moved, x.type ≠ .NUMBER ∧ x.type ≠ .RIGHT_PAREN := by
          intro x hx
          exact hst x (by rw [h2]; exact List.mem_append_left _ hx)
        obtain ⟨hm1, hm2, hm3⟩ := nonParens_of_noLeft moved h3 hm
        refine ⟨?_, ?_, ?_, ?_⟩
        · intro x hx
          exact hst x (by
            rw [h2]
            exact List.mem_append_right _ (List.mem_cons_of_mem _ hx))
        · intro ho x hx
          rw [h1] at hx
          rcases List.mem_append.mp hx with hx | hx
          · exact ho x hx
          · exact hm3 x hx
        · rw [h1, h2]
          have e : nonParens (lp :: s1) = nonParens s1 := by
            simp [nonParens, isParen, hlp]
          have e2 : nonParens [t] = [] := by simp [nonParens, isParen, ht]
          simp only [nonParens_append, e, e2, List.append_nil]
          rw [List.append_assoc]
        · rw [h1, numberTokens_append, hm2]
          simp [numberTokens, ht]

theorem convertLoop_tokens (ts : List Token) (out st out1 st1 : List Token)
    (h : convertLoop ts (out, st) = .ok (out1, st1))
    (hst : ∀ x ∈ st, x.type ≠ .NUMBER ∧ x.type ≠ .RIGHT_PAREN) :
    (∀ x ∈ st1, x.type ≠ .NUMBER ∧ x.type ≠ .RIGHT_PAREN)
    ∧ ((∀ x ∈ out, isParen x = false) → ∀ x ∈ out1, isParen x = false)
    ∧ List.Perm (nonParens out1 ++ nonParens st1)
        (nonParens out ++ nonParens st ++ nonParens ts)
    ∧ numberTokens out1 = numberTokens out ++ numberTokens ts := by
  induction ts generalizing out st with
  | nil =>
    simp only [convertLoop, Except.ok.injEq, Prod.mk.injEq] at h
    obtain ⟨rfl, rfl⟩ := h
    exact ⟨hst, fun ho => ho, by simp [nonParens], by simp [numberTokens]⟩
  | cons t ts ih =>
    simp only [convertLoop] at h
    cases hs : convertStep (out, st) t with
    | error e => simp [hs] at h
    | ok state =>
      obtain ⟨o, s⟩ := state
      rw [hs] at h
      simp only at h
      obtain ⟨a1, a2, a3, a4⟩ := convertStep_tokens out st o s t hs hst
      obtain ⟨b1, b2, b3, b4⟩ := ih o s h a1
      refine ⟨b1, fun ho => b2 (a2 ho), ?_, ?_⟩
      · refine b3.trans ?_
        have e : nonParens (t :: ts) = nonParens [t] ++ nonParens ts := by
          rw [← nonParens_append]; rfl
        rw [e, ← List.append_assoc]
        exact List.Perm.append_right _ a3
      · have e : numberTokens (t :: ts) = numberTokens [t] ++ numberTokens ts := by
          rw [← numberTokens_append]; rfl
        rw [b4, a4, e, List.append_assoc]

/-- C26: when convertToRPN succeeds on a token sequence, its output has no LEFT_PAREN and
no RIGHT_PAREN token, it is a permutation of the tokens of the input that are not
parentheses, and its NUMBER tokens are those of the input in the same order. -/
theorem C26_conversion_keeps_tokens (tokens rpn : List Token)
    (h : convertToRPN tokens = .ok rpn) :
    (∀ t ∈ rpn, t.type ≠ .LEFT_PAREN ∧ t.type ≠ .RIGHT_PAREN)
    ∧ List.Perm rpn (nonParens tokens)
    ∧ numberTokens rpn = numberTokens tokens := by
  simp only [convertToRPN] at h
  cases hl : convertLoop tokens ([], []) with
  | error e => simp [hl] at h
  | ok state =>
    obtain ⟨out, st⟩ := state
    rw [hl] at h
    simp only at h
    obtain ⟨a1, a2, a3, a4⟩ := convertLoop_tokens tokens [] [] out st hl (by simp)
    obtain ⟨rfl, d2⟩ := drainOperators_ok out st rpn h
    obtain ⟨s1, s2, s3⟩ := nonParens_of_noLeft st d2 a1
    have ho : ∀ x ∈ out, isParen x = false := a2 (by simp)
    have hout : nonParens out = out := by
      rw [nonParens, List.filter_eq_self]
      intro t ht
      simp [ho t ht]
    refine ⟨?_, ?_, ?_⟩
    · intro t ht
      have hp : isParen t = false := by
        rcases List.mem_append.mp ht with ht | ht
        · exact ho t ht
        · exact s3 t ht
      simpa [isParen] using hp
    · rw [hout, s1] at a3
      simpa [nonParens] using a3
    · rw [numberTokens_append, s2, a4]
      simp [numberTokens]

/-- Witness of C26 on the tokens of "(1 + 2) * 3", whose postfix form is 1 2 + 3 *. -/
theorem C26_conversion_keeps_tokens_witness :
    convertToRPN [leftParen, numberToken "1", operatorToken "+", numberToken "2", rightParen,
        operatorToken "*", numberToken "3"]
      = .ok [numberToken "1", numberToken "2", operatorToken "+", numberToken "3",
          operatorToken "*"]
    ∧ List.Perm
        [numberToken "1", numberToken "2", operatorToken "+", numberToken "3",
          operatorToken "*"]
        (nonParens [leftParen, numberToken "1", operatorToken "+", numberToken "2",
          rightParen, operatorToken "*", numberToken "3"])
    ∧ numberTokens [numberToken "1", numberToken "2", operatorToken "+", numberToken "3",
          operatorToken "*"]
      = numberTokens [leftParen, numberToken "1", operatorToken "+", numberToken "2",
          rightParen, operatorToken "*", numberToken "3"] :=
  have h : convertToRPN [leftParen, numberToken "1", operatorToken "+", numberToken "2",
        rightParen, operatorToken "*", numberToken "3"]
      = .ok [numberToken "1", numberToken "2", operatorToken "+", numberToken "3",
          operatorToken "*"] := by decide
  ⟨h, (C26_conversion_keeps_tokens _ _ h).2.1, (C26_conversion_keeps_tokens _ _ h).2.2⟩

/-! ## The texts of the NUMBER tokens (C27) -/

theorem scanNumber_ok_count (input cur tok r : List Char)
    (h : scanNumber cur input = .ok (tok, r)) (hc : cur.count '.' ≤ 1) :
    tok.count '.' ≤ 1 := by
  induction input generalizing cur with
  | nil =>
    simp only [scanNumber, Except.ok.injEq, Prod.mk.injEq] at h
    rw [← h.1]
    exact hc
  | cons c input ih =>
    simp only [scanNumber] at h
    split at h
    · split at h
      · cases h
      · rename_i hne
        have h2 : ¬ 2 ≤ (cur ++ [c]).count '.' := fun hh =>
          hne ((find_ne_rfind _ _).mpr hh)
        exact ih _ h (by omega)
    · simp only [Except.ok.injEq, Prod.mk.injEq] at h
      rw [← h.1]
      exact hc

theorem numberRun_literal_or_dot (run : List Char) (hne : run ≠ [])
    (hall : ∀ c ∈ run, isNumberChar c = true) (hcount : run.count '.' ≤ 1) :
    IsNumberLiteral (String.mk run) = true ∨ String.mk run = "." := by
  by_cases hd : run.any isdigit = true
  · left
    simp only [IsNumberLiteral, Bool.and_eq_true, List.all_eq_true, decide_eq_true_eq]
    exact ⟨⟨hall, hcount⟩, hd⟩
  · right
    have hdots : ∀ c ∈ run, c = '.' := by
      intro c hc
      have h1 := hall c hc
      have h2 : isdigit c = false := by
        by_contra hh
        exact hd (List.any_eq_true.mpr ⟨c, hc, by simpa using hh⟩)
      simpa [isNumberChar, h2] using h1
    cases run with
    | nil => exact absurd rfl hne
    | cons a rest =>
      have ha : a = '.' := hdots a (List.mem_cons_self _ _)
      subst ha
      cases rest with
      | nil => rfl
      | cons b rest2 =>
        exfalso
        have hb : b = '.' := hdots b (by simp)
        subst hb
        simp at hcount

theorem tokenizeFrom_numbers (n : ℕ) (input : List Char) (hlen : input.length ≤ n)
    (e : Bool) (t out : List Token) (h : tokenizeFrom input e t = .ok out)
    (ht : ∀ tok ∈ t, tok.type = .NUMBER →
      IsNumberLiteral tok.value = true ∨ tok.value = ".") :
    ∀ tok ∈ out, tok.type = .NUMBER →
      IsNumberLiteral tok.value = true ∨ tok.value = "." := by
  induction n generalizing input e t with
  | zero =>
    have : input = [] := List.length_eq_zero.mp (Nat.le_zero.mp hlen)
    subst this
    simp only [tokenizeFrom_nil, Except.ok.injEq] at h
    subst h
    exact ht
  | succ n ih =>
    cases input with
    | nil =>
      simp only [tokenizeFrom_nil, Except.ok.injEq] at h
      subst h
      exact ht
    | cons c rest =>
      simp only [List.length_cons, Nat.add_le_add_iff_right] at hlen
      have other : ∀ (e1 : Bool) (tok : Token), tok.type ≠ .NUMBER →
          tokenizeFrom rest e1 (t ++ [tok]) = .ok out →
          ∀ tok ∈ out, tok.type = .NUMBER →
            IsNumberLiteral tok.value = true ∨ tok.value = "." := by
        intro e1 tok hty hrun
        refine ih rest hlen e1 _ hrun ?_
        intro x hx
        rcases List.mem_append.mp hx with hx | hx
        · exact ht x hx
        · simp only [List.mem_singleton] at hx
          subst hx
          exact fun hh => absurd hh hty
      rw [tokenizeFrom_cons] at h
      by_cases h1 : isspace c = true
      · simp only [h1, if_true] at h
        exact ih rest hlen e t h ht
      · simp only [h1, if_false] at h
        by_cases h2 : (isdigit c || decide (c = '.')) = true
        · simp only [h2, if_true] at h
          cases hs : scanNumber [] (c :: rest) with
          | error err => simp [hs] at h
          | ok p =>
            obtain ⟨tok, r⟩ := p
            simp only [hs] at h
            obtain ⟨run, hr1, hr2, hr3⟩ := scanNumber_ok_split _ _ _ _ hs
            rw [List.nil_append] at hr1
            subst hr1
            have hl := scanNumber_cons_length c rest tok r h2 hs
            have hcount := scanNumber_ok_count _ _ _ _ hs (by simp)
            have hne : tok ≠ [] := by
              intro hnil
              subst hnil
              rw [List.nil_append] at hr2
              rw [← hr2] at hl
              simp at hl
            refine ih r (le_trans hl hlen) false _ h ?_
            intro x hx
            rcases List.mem_append.mp hx with hx | hx
            · exact ht x hx
            · simp only [List.mem_singleton] at hx
              subst hx
              exact fun _ => numberRun_literal_or_dot tok hne hr3 hcount
        · simp only [h2, if_false, Bool.false_eq_true] at h
          by_cases h3 : isalpha c = true
          · simp only [h3, if_true] at h
            have hl := scanWord_cons_length c rest h3
            split at h
            · refine ih _ (le_trans hl hlen) false _ h ?_
              intro x hx
              rcases List.mem_append.mp hx with hx | hx
              · exact ht x hx
              · simp only [List.mem_singleton] at hx
                subst hx
                exact fun _ => Or.inl (by decide)
            · split at h
              · refine ih _ (le_trans hl hlen) true _ h ?_
                intro x hx
                rcases List.mem_append.mp hx with hx | hx
                · exact ht x hx
                · simp only [List.mem_singleton] at hx
                  subst hx
                  intro hh
                  cases hh
              · cases h
          · simp only [h3, if_false, Bool.false_eq_true] at h
            by_cases h4 : c = '^' ∨ c = '*' ∨ c = '/' ∨ c = '+' ∨ c = '-'
            · simp only [h4, if_true] at h
              split at h
              · exact other true _ (by simp) h
              · exact other true _ (by simp) h
            · simp only [h4, if_false] at h
              by_cases h6 : c = '('
              · simp only [h6, if_true] at h
                exact other true _ (by simp) h
              · simp only [h6, if_false] at h
                by_cases h7 : c = ')'
                · simp only [h7, if_true] at h
                  exact other false _ (by simp) h
                · simp only [h7, if_false] at h
                  cases h

theorem stod_dot : stod "." = none := by
  simp [stod, isdigit]

/-- C27 (the code departs from the claim): a NUMBER token produced by tokenize has a text
that is either a number literal (digits with at most one decimal point and at least one
digit), which the number parse of the evaluator converts, or the lone decimal point ".",
which it does not: tokenize accepts the input "." as the NUMBER token ".", std::stod has
nothing to convert in it, and evaluateExpression fails with the invalid_argument of
std::stod. -/
theorem C27_number_texts (c : Settings) (pow : ℚ → ℚ → ℚ) (fileOpens : Bool) (s : String)
    (ts : List Token) :
    (tokenize s = .ok ts → ∀ tok ∈ ts, tok.type = .NUMBER →
      (IsNumberLiteral tok.value = true ∧ ∃ v, stod tok.value = some v)
      ∨ (tok.value = "." ∧ stod tok.value = none))
    ∧ tokenize "." = .ok [numberToken "."]
    ∧ IsNumberLiteral "." = false
    ∧ stod "." = none
    ∧ evaluateRPN c pow [numberToken "."] = .error (.invalid_argument "stod")
    ∧ evaluateExpression c pow fileOpens "." = .error (.invalid_argument "stod") := by
  have ht : tokenize "." = .ok [numberToken "."] := by decide
  have hc : convertToRPN [numberToken "."] = .ok [numberToken "."] := by decide
  have he : evaluateRPN c pow [numberToken "."] = .error (.invalid_argument "stod") := by
    simp [evaluateRPN, evalLoop, evalStep, numberToken, stod_dot]
  refine ⟨?_, ht, by decide, stod_dot, he,
    evaluateExpression_of_eval_error c pow fileOpens "." _ _ _ ht hc he⟩
  intro h tok htok hty
  have := tokenizeFrom_numbers s.data.length s.data (le_refl _) true [] ts h (by simp)
    tok htok hty
  rcases this with hlit | hdot
  · exact Or.inl ⟨hlit, stod_literal _ hlit⟩
  · exact Or.inr ⟨hdot, by rw [hdot]; exact stod_dot⟩

/-- Witness of C27 at the input "1.5 + .": its NUMBER tokens are the literal "1.5" and the
lone decimal point. -/
theorem C27_number_texts_witness :
    tokenize "1.5 + ." = .ok [numberToken "1.5", operatorToken "+", numberToken "."]
    ∧ ((IsNumberLiteral (numberToken ".").value = true
          ∧ ∃ v, stod (numberToken ".").value = some v)
        ∨ ((numberToken ".").value = "." ∧ stod (numberToken ".").value = none)) :=
  have ht : tokenize "1.5 + ."
      = .ok [numberToken "1.5", operatorToken "+", numberToken "."] := by decide
  ⟨ht, (C27_number_texts defaultSettings powTrunc false "1.5 + ." _).1 ht (numberToken ".")
    (by simp) rfl⟩

/-! ## The Newton-Raphson loop -/

theorem newtonLoop_exit (c : Settings) (newton : ℚ → Option ℚ) (guess diff : ℚ)
    (iterations : ℕ)
    (h : ¬ (|diff| > c.settingErrorThreshold ∧ iterations < maxIterations)) :
    newtonLoop c newton guess diff iterations = .finished guess diff iterations := by
  rw [newtonLoop, if_neg h]

theorem newtonLoop_step (c : Settings) (newton : ℚ → Option ℚ) (guess diff newGuess : ℚ)
    (iterations : ℕ) (h1 : |diff| > c.settingErrorThreshold)
    (h2 : iterations < maxIterations) (h3 : newton guess = some newGuess) :
    newtonLoop c newton guess diff iterations
      = newtonLoop c newton newGuess (newGuess - guess) (iterations + 1) := by
  rw [newtonLoop, if_pos ⟨h1, h2⟩, h3]

theorem newtonLoop_zero (c : Settings) (newton : ℚ → Option ℚ) (guess diff : ℚ)
    (iterations : ℕ) (h1 : |diff| > c.settingErrorThreshold)
    (h2 : iterations < maxIterations) (h3 : newton guess = none) :
    newtonLoop c newton guess diff iterations = .dividedByZero iterations := by
  rw [newtonLoop, if_pos ⟨h1, h2⟩, h3]

/-- The Newton step of the rate solver for no payment and one period: from any guess other
than 0 it lands on the rate -fv/pv - 1. -/
theorem interestStep_single_period (pow : ℚ → ℚ → ℚ) (hpow : PowExactOnNat pow)
    (pv fv guess : ℚ) (hpv : pv ≠ 0) (hg : guess ≠ 0) :
    interestStep pow pv fv 0 1 guess = some (-fv / pv - 1) := by
  have h0 : pow (1 + guess) (1 - 1) = 1 := by
    rw [sub_self]
    exact pow_zero_exp pow hpow _
  have h1 : pow (1 + guess) 1 = 1 + guess := pow_one_exp pow hpow _
  have hf : ¬ (guess = 0 ∨ -pv * 1 * 1 - 0 * ((guess * 1 * 1 - (1 + guess - 1))
      / (guess * guess)) = 0) := by
    rintro (h | h)
    · exact hg h
    · apply hpv
      linarith
  simp only [interestStep, h0, h1, if_neg hf, Option.some.injEq]
  simp only [zero_mul, sub_zero, mul_one]
  have e : (-pv * (1 + guess) - fv) / -pv = (1 + guess) + fv / pv := by
    rw [div_neg, eq_comm, ← sub_eq_zero]
    field_simp
    ring
  rw [e]
  ring

/-- The rate solver for no payment and one period: the loop ends after one or two steps on
the rate -fv/pv - 1, which is returned. -/
theorem calculateInterest_single_period (c : Settings) (pow : ℚ → ℚ → ℚ)
    (hpow : PowExactOnNat pow) (pv fv : ℚ) (hpv : pv ≠ 0) (hfv : fv ≠ -pv)
    (hguess : 0 < c.settingInitialGuessInterest) (ht0 : 0 < c.settingErrorThreshold)
    (ht1 : c.settingErrorThreshold < 1) :
    (∃ diff iterations,
      newtonLoop c (interestStep pow pv fv 0 1) c.settingInitialGuessInterest 1 0
        = .finished (-fv / pv - 1) diff iterations
      ∧ 1 ≤ iterations ∧ iterations ≤ 2)
    ∧ calculateInterest c pow pv fv 0 1 = .returned (-fv / pv - 1) := by
  have hr : -fv / pv - 1 ≠ 0 := by
    intro h
    apply hfv
    field_simp at h
    linarith
  have hrun : ∃ diff iterations,
      newtonLoop c (interestStep pow pv fv 0 1) c.settingInitialGuessInterest 1 0
        = .finished (-fv / pv - 1) diff iterations
      ∧ 1 ≤ iterations ∧ iterations ≤ 2 := by
    rw [newtonLoop_step c _ _ _ _ _ (by rw [abs_one]; exact ht1) (by decide)
      (interestStep_single_period pow hpow pv fv _ hpv hguess.ne')]
    by_cases hd : |(-fv / pv - 1) - c.settingInitialGuessInterest| > c.settingErrorThreshold
    · rw [newtonLoop_step c _ _ _ _ _ hd (by decide)
        (interestStep_single_period pow hpow pv fv _ hpv hr)]
      rw [newtonLoop_exit c _ _ _ _ (by
        rw [sub_self, abs_zero]
        intro h
        exact absurd h.1 (not_lt.mpr ht0.le))]
      exact ⟨_, _, rfl, by decide, by decide⟩
    · rw [newtonLoop_exit c _ _ _ _ (fun h => hd h.1)]
      exact ⟨_, _, rfl, by decide, by decide⟩
  refine ⟨hrun, ?_⟩
  obtain ⟨diff, iterations, hloop, _, h2⟩ := hrun
  have hlt : ¬ iterations ≥ maxIterations := by
    simp only [maxIterations]
    omega
  simp only [calculateInterest, hloop, if_neg hlt]
  norm_num

/-! ## The rate solver on a closed-form rate (C22) -/

/-- C22: in exact arithmetic (the power function exact on natural exponents) and for every
configuration with a positive initial interest guess and 0 < errorThreshold < 1, the rate
solver called with pmt = 0 and n = 1, pv != 0 and fv != -pv runs one or two Newton steps
and returns exactly the rate -fv/pv - 1; so calculateInterest(-1000, 1100, 0, 1) returns
1/10, a value within the threshold of 0.10. -/
theorem C22_newton_closed_form_rate (c : Settings) (pow : ℚ → ℚ → ℚ) (pv fv : ℚ)
    (hpow : PowExactOnNat pow) (hguess : 0 < c.settingInitialGuessInterest)
    (ht0 : 0 < c.settingErrorThreshold) (ht1 : c.settingErrorThreshold < 1) :
    (pv ≠ 0 → fv ≠ -pv →
      calculateInterest c pow pv fv 0 1 = .returned (-fv / pv - 1)
      ∧ ∃ diff iterations,
          newtonLoop c (interestStep pow pv fv 0 1) c.settingInitialGuessInterest 1 0
            = .finished (-fv / pv - 1) diff iterations
          ∧ 1 ≤ iterations ∧ iterations ≤ 2)
    ∧ calculateInterest c pow (-1000) 1100 0 1 = .returned (1 / 10)
    ∧ ∃ v, calculateInterest c pow (-1000) 1100 0 1 = .returned v
        ∧ |v - 1 / 10| ≤ c.settingErrorThreshold := by
  have h := calculateInterest_single_period c pow hpow (-1000) 1100 (by norm_num)
    (by norm_num) hguess ht0 ht1
  have hv : calculateInterest c pow (-1000) 1100 0 1 = .returned (1 / 10) := by
    rw [h.2]
    norm_num
  refine ⟨fun hpv hfv => ?_, hv, 1 / 10, hv, ?_⟩
  · have h2 := calculateInterest_single_period c pow hpow pv fv hpv hfv hguess ht0 ht1
    exact ⟨h2.2, h2.1⟩
  · rw [sub_self, abs_zero]
    exact ht0.le

/-- Witness of C22 with the default settings and a power function exact on natural
exponents, at pv = -1000 and fv = 1100. -/
theorem C22_newton_closed_form_rate_witness :
    PowExactOnNat powTrunc ∧ 0 < defaultSettings.settingInitialGuessInterest
    ∧ 0 < defaultSettings.settingErrorThreshold ∧ defaultSettings.settingErrorThreshold < 1
    ∧ (-1000 : ℚ) ≠ 0 ∧ (1100 : ℚ) ≠ -(-1000)
    ∧ calculateInterest defaultSettings powTrunc (-1000) 1100 0 1
      = .returned (-1100 / -1000 - 1) :=
  ⟨powTrunc_exact, by norm_num [defaultSettings], by norm_num [defaultSettings],
    by norm_num [defaultSettings], by norm_num, by norm_num,
    ((C22_newton_closed_form_rate defaultSettings powTrunc (-1000) 1100 powTrunc_exact
      (by norm_num [defaultSettings]) (by norm_num [defaultSettings])
      (by norm_num [defaultSettings])).1 (by norm_num) (by norm_num)).1⟩

/-- How the loop started at `iterations` steps ends: not above the cap, with a last step of
magnitude at most the threshold when below the cap, and with a final guess that is the
outcome of the last Newton step unless no step was made; a division by zero happens below
the cap, at a guess on which the step is undefined. -/
theorem newtonLoop_spec (c : Settings) (newton : ℚ → Option ℚ) (k : ℕ) (guess diff : ℚ)
    (iterations : ℕ) (hk : maxIterations - iterations ≤ k) :
    (∀ g d it, newtonLoop c newton guess diff iterations = .finished g d it →
      iterations ≤ it ∧ (iterations ≤ maxIterations → it ≤ maxIterations)
      ∧ (it < maxIterations → |d| ≤ c.settingErrorThreshold)
      ∧ ((it = iterations ∧ g = guess ∧ d = diff)
        ∨ (iterations < it ∧ ∃ previous, newton previous = some g ∧ d = g - previous)))
    ∧ (∀ it, newtonLoop c newton guess diff iterations = .dividedByZero it →
      iterations ≤ it ∧ it < maxIterations ∧ ∃ previous, newton previous = none) := by
  induction k generalizing guess diff iterations with
  | zero =>
    have hcap : ¬ (|diff| > c.settingErrorThreshold ∧ iterations < maxIterations) := by
      intro h
      omega
    rw [newtonLoop_exit c newton guess diff iterations hcap]
    constructor
    · intro g d it h
      simp only [NewtonRun.finished.injEq] at h
      obtain ⟨rfl, rfl, rfl⟩ := h
      exact ⟨le_refl _, fun h => h, fun h => by omega, Or.inl ⟨rfl, rfl, rfl⟩⟩
    · intro it h
      cases h
  | succ k ih =>
    by_cases hcond : |diff| > c.settingErrorThreshold ∧ iterations < maxIterations
    · cases hn : newton guess with
      | none =>
        rw [newtonLoop_zero c newton guess diff iterations hcond.1 hcond.2 hn]
        constructor
        · intro g d it h
          cases h
        · intro it h
          simp only [NewtonRun.dividedByZero.injEq] at h
          subst h
          exact ⟨le_refl _, hcond.2, guess, hn⟩
      | some newGuess =>
        rw [newtonLoop_step c newton guess diff newGuess iterations hcond.1 hcond.2 hn]
        obtain ⟨ih1, ih2⟩ := ih newGuess (newGuess - guess) (iterations + 1) (by omega)
        constructor
        · intro g d it h
          obtain ⟨a1, a2, a3, a4⟩ := ih1 g d it h
          refine ⟨by omega, fun _ => a2 (by omega), a3, Or.inr ⟨by omega, ?_⟩⟩
          rcases a4 with ⟨_, rfl, rfl⟩ | ⟨_, hprev⟩
          · exact ⟨guess, hn, rfl⟩
          · exact hprev
        · intro it h
          obtain ⟨a1, a2, a3⟩ := ih2 it h
          exact ⟨by omega, a2, a3⟩
    · rw [newtonLoop_exit c newton guess diff iterations hcond]
      constructor
      · intro g d it h
        simp only [NewtonRun.finished.injEq] at h
        obtain ⟨rfl, rfl, rfl⟩ := h
        refine ⟨le_refl _, fun h => h, fun h => ?_, Or.inl ⟨rfl, rfl, rfl⟩⟩
        by_contra hgt
        exact hcond ⟨not_le.mp hgt, h⟩
      · intro it h
        cases h

/-- A solver started with `diff = 1` and a threshold below 1 makes at least one step, and
never more than the cap. -/
theorem newtonLoop_steps (c : Settings) (newton : ℚ → Option ℚ) (guess : ℚ)
    (ht1 : c.settingErrorThreshold < 1) :
    1 ≤ (newtonLoop c newton guess 1 0).steps
    ∧ (newtonLoop c newton guess 1 0).steps ≤ maxIterations := by
  obtain ⟨h1, h2⟩ := newtonLoop_spec c newton maxIterations guess 1 0 (by omega)
  cases hrun : newtonLoop c newton guess 1 0 with
  | finished g d it =>
    obtain ⟨_, a2, a3, a4⟩ := h1 g d it hrun
    refine ⟨?_, a2 (Nat.zero_le _)⟩
    simp only [NewtonRun.steps]
    rcases a4 with ⟨rfl, _, rfl⟩ | ⟨hlt, _⟩
    · exfalso
      have := a3 (by decide)
      rw [abs_one] at this
      linarith
    · exact hlt
  | dividedByZero it =>
    obtain ⟨_, a2, _⟩ := h2 it hrun
    simp only [NewtonRun.steps]
    omega

/-! ## Bounded Newton iteration (C25) -/

/-- C25 (the code departs from the claim): with an error threshold below 1,
calculateInterest (for n > 0) and calculateNumberOfPeriods (for i > 0) begin at least one
and at most 1000 Newton steps; they throw the convergence error exactly when the loop ends
after 1000 steps, and they throw no other error; when they return a number, the loop has
ended after fewer than 1000 steps on that number, which is the outcome of the last Newton
step, and the magnitude of that last step (new guess minus previous guess) is at most the
threshold.  calculateInterest throws the domain error when n <= 0 and
calculateNumberOfPeriods when i <= 0, whatever the other arguments and settings are.  But a
call can end otherwise: for pv = 0 and pmt = 0 the first step of calculateNumberOfPeriods
has f' = 0 and divides by it, and the call hands back the outcome of that division, which
is not a value reached by a last step within the threshold. -/
theorem C25_bounded_newton_iteration (c : Settings) (pow : ℚ → ℚ → ℚ) (log : ℚ → ℚ)
    (pv fv pmt n i : ℚ) :
    (n ≤ 0 →
      calculateInterest c pow pv fv pmt n
        = .thrown (.invalid_argument "Number of periods must be greater than zero."))
    ∧ (i ≤ 0 →
      calculateNumberOfPeriods c pow log pv fv pmt i
        = .thrown (.invalid_argument "Interest rate must be greater than zero."))
    ∧ (0 < n → c.settingErrorThreshold < 1 →
      1 ≤ (newtonLoop c (interestStep pow pv fv pmt n)
            c.settingInitialGuessInterest 1 0).steps
      ∧ (newtonLoop c (interestStep pow pv fv pmt n)
            c.settingInitialGuessInterest 1 0).steps ≤ 1000
      ∧ (calculateInterest c pow pv fv pmt n
            = .thrown (.runtime_error "Interest rate calculation did not converge.")
          ↔ ∃ g d, newtonLoop c (interestStep pow pv fv pmt n)
              c.settingInitialGuessInterest 1 0 = .finished g d 1000)
      ∧ (∀ e, calculateInterest c pow pv fv pmt n = .thrown e →
          e = .runtime_error "Interest rate calculation did not converge.")
      ∧ ∀ v, calculateInterest c pow pv fv pmt n = .returned v →
          ∃ d it previous,
            newtonLoop c (interestStep pow pv fv pmt n) c.settingInitialGuessInterest 1 0
              = .finished v d it
            ∧ 1 ≤ it ∧ it < 1000
            ∧ interestStep pow pv fv pmt n previous = some v ∧ d = v - previous
            ∧ |d| ≤ c.settingErrorThreshold)
    ∧ (0 < i → c.settingErrorThreshold < 1 →
      1 ≤ (newtonLoop c (periodsStep pow log pv fv pmt i)
            c.settingInitialGuessPeriods 1 0).steps
      ∧ (newtonLoop c (periodsStep pow log pv fv pmt i)
            c.settingInitialGuessPeriods 1 0).steps ≤ 1000
      ∧ (calculateNumberOfPeriods c pow log pv fv pmt i
            = .thrown (.runtime_error "Number of periods calculation did not converge.")
          ↔ ∃ g d, newtonLoop c (periodsStep pow log pv fv pmt i)
              c.settingInitialGuessPeriods 1 0 = .finished g d 1000)
      ∧ (∀ e, calculateNumberOfPeriods c pow log pv fv pmt i = .thrown e →
          e = .runtime_error "Number of periods calculation did not converge.")
      ∧ ∀ v, calculateNumberOfPeriods c pow log pv fv pmt i = .returned v →
          ∃ d it previous,
            newtonLoop c (periodsStep pow log pv fv pmt i) c.settingInitialGuessPeriods 1 0
              = .finished v d it
            ∧ 1 ≤ it ∧ it < 1000
            ∧ periodsStep pow log pv fv pmt i previous = some v ∧ d = v - previous
            ∧ |d| ≤ c.settingErrorThreshold)
    ∧ (∀ guess, periodsStep pow log 0 fv 0 i guess = none)
    ∧ (0 < i → c.settingErrorThreshold < 1 →
      newtonLoop c (periodsStep pow log 0 fv 0 i) c.settingInitialGuessPeriods 1 0
        = .dividedByZero 0
      ∧ calculateNumberOfPeriods c pow log 0 fv 0 i = .nonFinite) := by
  have hzero : ∀ guess, periodsStep pow log 0 fv 0 i guess = none := by
    intro guess
    simp [periodsStep]
  refine ⟨fun hn => by simp [calculateInterest, hn],
    fun hi => by simp [calculateNumberOfPeriods, hi], ?_, ?_, hzero, ?_⟩
  · intro hn ht1
    have hsteps := newtonLoop_steps c (interestStep pow pv fv pmt n)
      c.settingInitialGuessInterest ht1
    obtain ⟨h1, h2⟩ := newtonLoop_spec c (interestStep pow pv fv pmt n) maxIterations
      c.settingInitialGuessInterest 1 0 (by omega)
    refine ⟨hsteps.1, hsteps.2, ?_⟩
    simp only [calculateInterest, if_neg (not_le.mpr hn)]
    cases hrun : newtonLoop c (interestStep pow pv fv pmt n)
        c.settingInitialGuessInterest 1 0 with
    | dividedByZero it => simp
    | finished g d it =>
      obtain ⟨_, a2, a3, a4⟩ := h1 g d it hrun
      have hle : it ≤ 1000 := a2 (Nat.zero_le _)
      rw [hrun] at hsteps
      simp only [NewtonRun.steps] at hsteps
      by_cases hcap : it ≥ maxIterations
      · have hit : it = 1000 := le_antisymm hle hcap
        subst hit
        simp only [if_pos hcap]
        refine ⟨⟨fun _ => ⟨g, d, rfl⟩, fun _ => trivial⟩, ?_, ?_⟩
        · intro e h
          injection h with h
          exact h.symm
        · intro v h
          cases h
      · have hlt : it < 1000 := not_le.mp hcap
        simp only [if_neg hcap]
        refine ⟨?_, ?_, ?_⟩
        · simp only [reduceCtorEq, NewtonRun.finished.injEq, false_iff, not_exists]
          intro g1 d1 h
          omega
        · intro e h
          cases h
        · intro v h
          simp only [Solution.returned.injEq] at h
          subst h
          rcases a4 with ⟨h0, _, _⟩ | ⟨_, previous, hp, hd⟩
          · omega
          · exact ⟨d, it, previous, rfl, hsteps.1, hlt, hp, hd, a3 hlt⟩
  · intro hi ht1
    have hsteps := newtonLoop_steps c (periodsStep pow log pv fv pmt i)
      c.settingInitialGuessPeriods ht1
    obtain ⟨h1, h2⟩ := newtonLoop_spec c (periodsStep pow log pv fv pmt i) maxIterations
      c.settingInitialGuessPeriods 1 0 (by omega)
    refine ⟨hsteps.1, hsteps.2, ?_⟩
    simp only [calculateNumberOfPeriods, if_neg (not_le.mpr hi)]
    cases hrun : newtonLoop c (periodsStep pow log pv fv pmt i)
        c.settingInitialGuessPeriods 1 0 with
    | dividedByZero it => simp
    | finished g d it =>
      obtain ⟨_, a2, a3, a4⟩ := h1 g d it hrun
      have hle : it ≤ 1000 := a2 (Nat.zero_le _)
      rw [hrun] at hsteps
      simp only [NewtonRun.steps] at hsteps
      by_cases hcap : it = maxIterations
      · have hit : it = 1000 := hcap
        subst hit
        simp only [if_pos hcap]
        refine ⟨⟨fun _ => ⟨g, d, rfl⟩, fun _ => trivial⟩, ?_, ?_⟩
        · intro e h
          injection h with h
          exact h.symm
        · intro v h
          cases h
      · have hlt : it < 1000 := lt_of_le_of_ne hle hcap
        simp only [if_neg hcap]
        refine ⟨?_, ?_, ?_⟩
        · simp only [reduceCtorEq, NewtonRun.finished.injEq, false_iff, not_exists]
          intro g1 d1 h
          omega
        · intro e h
          cases h
        · intro v h
          simp only [Solution.returned.injEq] at h
          subst h
          rcases a4 with ⟨h0, _, _⟩ | ⟨_, previous, hp, hd⟩
          · omega
          · exact ⟨d, it, previous, rfl, hsteps.1, hlt, hp, hd, a3 hlt⟩
  · intro hi ht1
    have hloop : newtonLoop c (periodsStep pow log 0 fv 0 i) c.settingInitialGuessPeriods 1 0
        = .dividedByZero 0 :=
      newtonLoop_zero c _ _ _ _ (by rw [abs_one]; exact ht1) (by decide) (hzero _)
    refine ⟨hloop, ?_⟩
    simp only [calculateNumberOfPeriods, if_neg (not_le.mpr hi), hloop]

/-- Witness of C25 with the default settings: at pv = -1000, fv = 1100, pmt = 0, n = 1 the
rate solver begins between 1 and 1000 steps, with n = 0 it throws the domain error, and at
pv = 0, fv = 1000, pmt = 0, i = 1/10 the first step of calculateNumberOfPeriods divides by
zero. -/
theorem C25_bounded_newton_iteration_witness :
    (0 : ℚ) < 1 ∧ defaultSettings.settingErrorThreshold < 1 ∧ (0 : ℚ) ≤ 0
    ∧ (0 : ℚ) < 1 / 10
    ∧ 1 ≤ (newtonLoop defaultSettings (interestStep powTrunc (-1000) 1100 0 1)
          defaultSettings.settingInitialGuessInterest 1 0).steps
    ∧ (newtonLoop defaultSettings (interestStep powTrunc (-1000) 1100 0 1)
          defaultSettings.settingInitialGuessInterest 1 0).steps ≤ 1000
    ∧ calculateInterest defaultSettings powTrunc (-1000) 1100 0 0
      = .thrown (.invalid_argument "Number of periods must be greater than zero.")
    ∧ calculateNumberOfPeriods defaultSettings powTrunc (fun x => x - 1) 0 1000 0 (1 / 10)
      = .nonFinite :=
  ⟨by norm_num, by norm_num [defaultSettings], le_refl _, by norm_num,
    ((C25_bounded_newton_iteration defaultSettings powTrunc (fun x => x) (-1000) 1100 0 1
      1).2.2.1 (by norm_num) (by norm_num [defaultSettings])).1,
    ((C25_bounded_newton_iteration defaultSettings powTrunc (fun x => x) (-1000) 1100 0 1
      1).2.2.1 (by norm_num) (by norm_num [defaultSettings])).2.1,
    (C25_bounded_newton_iteration defaultSettings powTrunc (fun x => x) (-1000) 1100 0 0
      1).1 (le_refl _),
    ((C25_bounded_newton_iteration defaultSettings powTrunc (fun x => x - 1) 0 1000 0 1
      (1 / 10)).2.2.2.2.2 (by norm_num) (by norm_num [defaultSettings])).2⟩

/-! ## Division by zero in the rate solver (C24) -/

/-- C24 (the code departs from the claim): the rate solver divides by zero and throws
nothing.  For pv = 0 and pmt = 0 (any fv, any n > 0, a threshold below 1) the derivative
f' of the first Newton step is 0 and that step divides f by it.  For pmt = 0, n = 1 and
fv = -pv with pv != 0 (root at the rate 0, a positive initial guess above the threshold, the
power function exact on natural exponents) the first step lands on the guess 0 and the
second step divides by that guess. -/
theorem C24_rate_solver_divides_by_zero (c : Settings) (pow : ℚ → ℚ → ℚ) (pv fv n : ℚ)
    (ht1 : c.settingErrorThreshold < 1) :
    interestStep pow 0 fv 0 n c.settingInitialGuessInterest = none
    ∧ newtonLoop c (interestStep pow 0 fv 0 n) c.settingInitialGuessInterest 1 0
      = .dividedByZero 0
    ∧ (0 < n → calculateInterest c pow 0 fv 0 n = .nonFinite)
    ∧ (PowExactOnNat pow → pv ≠ 0 → 0 < c.settingInitialGuessInterest →
        c.settingErrorThreshold < c.settingInitialGuessInterest →
        interestStep pow pv (-pv) 0 1 c.settingInitialGuessInterest = some 0
        ∧ interestStep pow pv (-pv) 0 1 0 = none
        ∧ newtonLoop c (interestStep pow pv (-pv) 0 1) c.settingInitialGuessInterest 1 0
          = .dividedByZero 1
        ∧ calculateInterest c pow pv (-pv) 0 1 = .nonFinite) := by
  have hstep : ∀ g, interestStep pow 0 fv 0 n g = none := by
    intro g
    simp [interestStep]
  have hloop : newtonLoop c (interestStep pow 0 fv 0 n) c.settingInitialGuessInterest 1 0
      = .dividedByZero 0 :=
    newtonLoop_zero c _ _ _ _ (by rw [abs_one]; exact ht1) (by decide) (hstep _)
  refine ⟨hstep _, hloop, ?_, ?_⟩
  · intro hn
    simp only [calculateInterest, if_neg (not_le.mpr hn), hloop]
  · intro hpow hpv hguess hthr
    have h1 : interestStep pow pv (-pv) 0 1 c.settingInitialGuessInterest = some 0 := by
      rw [interestStep_single_period pow hpow pv (-pv) _ hpv hguess.ne']
      congr 1
      field_simp
    have h2 : interestStep pow pv (-pv) 0 1 0 = none := by
      simp [interestStep]
    have hloop2 : newtonLoop c (interestStep pow pv (-pv) 0 1)
        c.settingInitialGuessInterest 1 0 = .dividedByZero 1 := by
      rw [newtonLoop_step c _ _ _ _ _ (by rw [abs_one]; exact ht1) (by decide) h1]
      exact newtonLoop_zero c _ _ _ _
        (by rw [zero_sub, abs_neg, abs_of_pos hguess]; exact hthr) (by decide) h2
    refine ⟨h1, h2, hloop2, ?_⟩
    simp only [calculateInterest, hloop2]
    norm_num

/-- Witness of C24 with the default settings: at pv = 0, fv = 1000, pmt = 0, n = 1 the first
step divides by f' = 0, and at pv = -1000, fv = 1000, pmt = 0, n = 1 the second step divides
by the guess 0. -/
theorem C24_rate_solver_divides_by_zero_witness :
    defaultSettings.settingErrorThreshold < 1 ∧ (0 : ℚ) < 1 ∧ PowExactOnNat powTrunc
    ∧ (-1000 : ℚ) ≠ 0
    ∧ calculateInterest defaultSettings powTrunc 0 1000 0 1 = .nonFinite
    ∧ calculateInterest defaultSettings powTrunc (-1000) (-(-1000)) 0 1 = .nonFinite :=
  ⟨by norm_num [defaultSettings], by norm_num, powTrunc_exact, by norm_num,
    (C24_rate_solver_divides_by_zero defaultSettings powTrunc (-1000) 1000 1
      (by norm_num [defaultSettings])).2.2.1 (by norm_num),
    ((C24_rate_solver_divides_by_zero defaultSettings powTrunc (-1000) 1000 1
      (by norm_num [defaultSettings])).2.2.2 powTrunc_exact (by norm_num)
      (by norm_num [defaultSettings]) (by norm_num [defaultSettings])).2.2.2⟩

/-! ## Which results are snapped to zero (C21) -/

theorem snap_zero_or_not_below (c : Settings) (x : ℚ) :
    snap c x = 0 ∨ ¬ |snap c x| < c.settingErrorThreshold := by
  unfold snap
  split
  · exact Or.inl rfl
  · rename_i h
    exact Or.inr h

theorem calculateInterest_returned (c : Settings) (pow : ℚ → ℚ → ℚ) (pv fv pmt n v : ℚ)
    (h : calculateInterest c pow pv fv pmt n = .returned v) :
    ∃ diff iterations,
      newtonLoop c (interestStep pow pv fv pmt n) c.settingInitialGuessInterest 1 0
        = .finished v diff iterations := by
  simp only [calculateInterest] at h
  split at h
  · cases h
  · split at h
    · cases h
    · rename_i g d it hrun
      split at h
      · cases h
      · injection h with h
        subst h
        exact ⟨d, it, hrun⟩

theorem calculateNumberOfPeriods_returned (c : Settings) (pow : ℚ → ℚ → ℚ) (log : ℚ → ℚ)
    (pv fv pmt i v : ℚ) (h : calculateNumberOfPeriods c pow log pv fv pmt i = .returned v) :
    ∃ diff iterations,
      newtonLoop c (periodsStep pow log pv fv pmt i) c.settingInitialGuessPeriods 1 0
        = .finished v diff iterations := by
  simp only [calculateNumberOfPeriods] at h
  split at h
  · cases h
  · split at h
    · cases h
    · rename_i g d it hrun
      split at h
      · cases h
      · injection h with h
        subst h
        exact ⟨d, it, hrun⟩

theorem solver_unsnapped_samples :
    calculateInterest { defaultSettings with settingErrorThreshold := 1 / 100 } powNum
        (-1000) 1001 0 1 = .returned (1 / 1000)
    ∧ calculateNumberOfPeriods { defaultSettings with settingErrorThreshold := 20 } powNum
        (fun x => x - 1) (-1000) 1100 0 (1 / 10) = .returned 10 := by
  constructor
  · have h := (calculateInterest_single_period
      { defaultSettings with settingErrorThreshold := 1 / 100 } powNum powNum_exact
      (-1000) 1001 (by norm_num) (by norm_num) (by norm_num [defaultSettings])
      (by norm_num) (by norm_num)).2
    rw [h]
    norm_num
  · have hloop : newtonLoop { defaultSettings with settingErrorThreshold := 20 }
        (periodsStep powNum (fun x => x - 1) (-1000) 1100 0 (1 / 10)) 10 1 0
        = .finished 10 1 0 :=
      newtonLoop_exit _ _ _ _ _ (by
        rw [abs_one]
        intro h
        norm_num at h)
    have hi : ¬ ((1 / 10 : ℚ) ≤ 0) := by norm_num
    have hg : Settings.settingInitialGuessPeriods
        { defaultSettings with settingErrorThreshold := 20 } = 10 := rfl
    rw [calculateNumberOfPeriods, if_neg hi, hg, hloop]
    norm_num [maxIterations]

/-- C21 (the code departs from the claim): the zero-snap is not applied on every path of the
solver.  For the rate 0 calculateFV and calculatePV return -(pv + pmt*n) and -(fv + pmt*n)
from the early return, before the snap, so a result that is not 0 and of magnitude below
the threshold is returned as it is; calculateInterest and calculateNumberOfPeriods return
the guess on which their loop ends as it is (the rate 1/1000 with the threshold 1/100, the
initial guess 10 with the threshold 20).  The paths that do snap are calculatePMT and, for a
rate other than 0, calculateFV and calculatePV: what they return is 0 or fails the test of
being below the threshold in magnitude. -/
theorem C21_zero_snap_scope (c : Settings) (pow : ℚ → ℚ → ℚ) (log : ℚ → ℚ)
    (pv fv pmt i n : ℚ) :
    calculateFV c pow pv pmt 0 n = -(pv + pmt * n)
    ∧ calculatePV c pow fv pmt 0 n = -(fv + pmt * n)
    ∧ (pv + pmt * n ≠ 0 → |pv + pmt * n| < c.settingErrorThreshold →
        calculateFV c pow pv pmt 0 n ≠ 0
        ∧ |calculateFV c pow pv pmt 0 n| < c.settingErrorThreshold)
    ∧ (fv + pmt * n ≠ 0 → |fv + pmt * n| < c.settingErrorThreshold →
        calculatePV c pow fv pmt 0 n ≠ 0
        ∧ |calculatePV c pow fv pmt 0 n| < c.settingErrorThreshold)
    ∧ (∀ v, calculateInterest c pow pv fv pmt n = .returned v →
        ∃ diff iterations,
          newtonLoop c (interestStep pow pv fv pmt n) c.settingInitialGuessInterest 1 0
            = .finished v diff iterations)
    ∧ (∀ v, calculateNumberOfPeriods c pow log pv fv pmt i = .returned v →
        ∃ diff iterations,
          newtonLoop c (periodsStep pow log pv fv pmt i) c.settingInitialGuessPeriods 1 0
            = .finished v diff iterations)
    ∧ calculateInterest { defaultSettings with settingErrorThreshold := 1 / 100 } powNum
        (-1000) 1001 0 1 = .returned (1 / 1000)
    ∧ calculateNumberOfPeriods { defaultSettings with settingErrorThreshold := 20 } powNum
        (fun x => x - 1) (-1000) 1100 0 (1 / 10) = .returned 10
    ∧ (∀ v, calculatePMT c pow pv fv i n = .ok v →
        v = 0 ∨ ¬ |v| < c.settingErrorThreshold)
    ∧ (i ≠ 0 → calculateFV c pow pv pmt i n = 0
        ∨ ¬ |calculateFV c pow pv pmt i n| < c.settingErrorThreshold)
    ∧ (i ≠ 0 → calculatePV c pow fv pmt i n = 0
        ∨ ¬ |calculatePV c pow fv pmt i n| < c.settingErrorThreshold) := by
  have hfv : calculateFV c pow pv pmt 0 n = -(pv + pmt * n) := by simp [calculateFV]
  have hpv : calculatePV c pow fv pmt 0 n = -(fv + pmt * n) := by simp [calculatePV]
  refine ⟨hfv, hpv, ?_, ?_, calculateInterest_returned c pow pv fv pmt n,
    calculateNumberOfPeriods_returned c pow log pv fv pmt i, solver_unsnapped_samples.1,
    solver_unsnapped_samples.2, ?_, ?_, ?_⟩
  · intro h0 hlt
    rw [hfv, abs_neg]
    exact ⟨neg_ne_zero.mpr h0, hlt⟩
  · intro h0 hlt
    rw [hpv, abs_neg]
    exact ⟨neg_ne_zero.mpr h0, hlt⟩
  · intro v h
    by_cases hd : i ≤ 0 ∨ n ≤ 0
    · simp [calculatePMT, hd] at h
    · have hi : 0 < i := by
        by_contra hh
        exact hd (Or.inl (not_lt.mp hh))
      have hn : 0 < n := by
        by_contra hh
        exact hd (Or.inr (not_lt.mp hh))
      rw [calculatePMT_positive c pow pv fv i n hi hn] at h
      injection h with h
      rw [← h]
      exact snap_zero_or_not_below c _
  · intro hi
    have : calculateFV c pow pv pmt i n
        = snap c (-pv * pow (1 + i) n - pmt * ((pow (1 + i) n - 1) / i)) := by
      simp only [calculateFV, if_neg hi, snap]
    rw [this]
    exact snap_zero_or_not_below c _
  · intro hi
    have : calculatePV c pow fv pmt i n
        = snap c (-(fv / pow (1 + i) n) - pmt * ((1 - pow (1 + i) (-n)) / i)) := by
      simp only [calculatePV, if_neg hi, snap]
    rw [this]
    exact snap_zero_or_not_below c _

/-- Witness of C21 with the default settings (threshold 1e-28): calculateFV(-1e-30, 0, 0, 1)
returns 1e-30, which is not 0 and is below the threshold in magnitude. -/
theorem C21_zero_snap_scope_witness :
    (-(1 / 10 ^ 30) + 0 * 1 : ℚ) ≠ 0
    ∧ |(-(1 / 10 ^ 30) + 0 * 1 : ℚ)| < defaultSettings.settingErrorThreshold
    ∧ calculateFV defaultSettings powNum (-(1 / 10 ^ 30)) 0 0 1 = -(-(1 / 10 ^ 30) + 0 * 1)
    ∧ calculateFV defaultSettings powNum (-(1 / 10 ^ 30)) 0 0 1 ≠ 0
    ∧ |calculateFV defaultSettings powNum (-(1 / 10 ^ 30)) 0 0 1|
        < defaultSettings.settingErrorThreshold :=
  have h0 : (-(1 / 10 ^ 30) + 0 * 1 : ℚ) ≠ 0 := by norm_num
  have h1 : |(-(1 / 10 ^ 30) + 0 * 1 : ℚ)| < defaultSettings.settingErrorThreshold := by
    rw [abs_of_neg (by norm_num)]
    norm_num [defaultSettings]
  ⟨h0, h1,
    (C21_zero_snap_scope defaultSettings powNum (fun x => x - 1) (-(1 / 10 ^ 30)) 0 0 0 1).1,
    ((C21_zero_snap_scope defaultSettings powNum (fun x => x - 1) (-(1 / 10 ^ 30)) 0 0 0
      1).2.2.1 h0 h1).1,
    ((C21_zero_snap_scope defaultSettings powNum (fun x => x - 1) (-(1 / 10 ^ 30)) 0 0 0
      1).2.2.1 h0 h1).2⟩

end Calculator
